import Mathlib

/-!
Cart service: dual-tier consistency engine.

A shallow embedding of `cart-service/internal/service/cart_service.go` together with the two
repositories it talks to (`repository/redis/cart_redis_repo.go`,
`repository/mongo/cart_mongo_repo.go`), the data model of `model/cart.go`, the two background
reconcilers (`sync/cart_syncer.go`, and `service/sync_service.go` with the repositories of the
`repository` package it is written against), the migration runner (`migration/runner.go`)
with the step of `cmd/server/main.go` that calls it, and the request handlers of the mutators
(`handler/cart_handler.go`).

Modelling conventions
* Go `int` is a 64-bit two's complement integer: values are `Int`, every addition is followed by
  `wrapInt64`.
* Go `float64` arithmetic is a parameter (`Float64Arith`): the development holds for every
  interpretation of zero, `+`, `*` and the conversion `float64(int)`.
* `time.Now()`, `uuid.New()` and the document id assigned by the durable store are inputs
  (`Env`), as are the errors the two store clients may return. Instants count nanoseconds.
* The two stores are explicit state (`World`): the cache maps keys to a stored cart and its TTL,
  the durable store is a list of documents. A store call that returns an error leaves the store
  as it was. The JSON encoding of the cache keeps a cart as it is; the durable store holds
  every time as a BSON datetime, truncated to the millisecond (`truncMs`).
* Every call to a store is appended to `World.trace`, so that "no call was made" is a statement
  about the trace.
* The two reconcilers reach the same two stores through different repositories: `CartSyncer`
  through the ones of the cart service, `SyncService` through the ones of the `repository`
  package. A reconciler loop is driven by the list of cases its `select` takes.
* The migration runner works on the lock collection (at most one lease document) and the change
  log (`MigDb`); the errors of its store calls, the outcome of each `Execute` and the readings
  of the clock, as the store holds them, are inputs (`MigEnv`). What the store answers to the
  conditional upsert of `acquireLock` when a lease document exists and the filter does not
  match it is an input too: the duplicate-key error of the insert the store then attempts, or
  a result with both counts zero, the reply the last branch of `acquireLock` tests for.
-/

namespace CartService

/-! ## Arithmetic -/

/-- Wrap an integer into the range of a Go `int` (64-bit two's complement). -/
def wrapInt64 (n : Int) : Int :=
  (n + 9223372036854775808) % 18446744073709551616 - 9223372036854775808

/-- The values a Go `int` can hold. -/
def inInt64 (n : Int) : Prop :=
  -9223372036854775808 ≤ n ∧ n < 9223372036854775808

instance (n : Int) : Decidable (inInt64 n) :=
  inferInstanceAs (Decidable (-9223372036854775808 ≤ n ∧ n < 9223372036854775808))

/-- Arithmetic of Go `float64` values, as far as the cart totals use it. -/
class Float64Arith (F : Type) where
  /-- The constant `0`. -/
  zero : F
  /-- Float addition. -/
  add : F → F → F
  /-- Float multiplication. -/
  mul : F → F → F
  /-- The conversion `float64(n)` of a Go `int`. -/
  ofInt : Int → F

/-- Exact integer prices: an interpretation of the price arithmetic used to evaluate examples. -/
instance : Float64Arith Int where
  zero := 0
  add := fun a b => a + b
  mul := fun a b => a * b
  ofInt := fun n => n

/-! ## Data model (`model/cart.go`) -/

/-- Instants, as returned by `time.Now()`. -/
abbrev Time := Nat

/-- Error values, identified with their message. -/
abbrev Err := String

/-- A single product in the cart (`model.CartItem`). -/
structure CartItem (F : Type) where
  ItemID : String
  ProductID : String
  ProductName : String
  Category : String
  Price : F
  Quantity : Int
  ImageURL : String
  AddedAt : Time
  deriving DecidableEq, Repr

/-- The full cart of a user (`model.Cart`). -/
structure Cart (F : Type) where
  ID : String
  UserID : String
  Items : List (CartItem F)
  TotalItems : Int
  TotalPrice : F
  CreatedAt : Time
  UpdatedAt : Time
  SyncedAt : Option Time
  Source : String
  SchemaVersion : Int
  deriving DecidableEq, Repr

/-- The request body of an add (`model.AddItemRequest`). -/
structure AddItemRequest (F : Type) where
  ProductID : String
  ProductName : String
  Category : String
  Price : F
  Quantity : Int
  ImageURL : String
  deriving DecidableEq, Repr

/-! ## The two stores -/

/-- A value held by the cache: the serialized cart and the expiration it was stored with. -/
structure RedisEntry (F : Type) where
  data : Cart F
  ttl : Nat
  deriving DecidableEq, Repr

/-- A document of the `carts` collection, with the fields `UpsertCart` writes. -/
structure MongoDoc (F : Type) where
  id : String
  user_id : String
  items : List (CartItem F)
  total_items : Int
  total_price : F
  created_at : Time
  updated_at : Time
  synced_at : Option Time
  source : String
  schema_version : Int
  deriving DecidableEq, Repr

/-- The calls made to the two stores through the repositories, named after the repository
methods that make them. -/
inductive Call where
  | redisGetCart (userID : String)
  | redisSaveCart (userID : String) (ttl : Nat)
  | redisDeleteCart (userID : String)
  | redisGetAllCartKeys
  | mongoGetCart (userID : String)
  | mongoUpsertCart (userID : String)
  | mongoDeleteCart (userID : String)
  deriving DecidableEq, Repr

/-- The state of the two tiers and the repository calls made so far. -/
structure World (F : Type) where
  redis : List (String × RedisEntry F)
  mongo : List (MongoDoc F)
  trace : List Call
  deriving DecidableEq, Repr

/-- What the environment supplies to one service call: the errors of the store clients
(`none` when the call succeeds), the clock readings and the generated identifiers. -/
structure Env where
  /-- Error of the cache read in `GetCart`. -/
  redisGet : Option Err
  /-- Error of the durable lookup in `GetCart`. -/
  mongoGet : Option Err
  /-- Error of the cache write that warms the cache in `GetCart`. -/
  redisWarm : Option Err
  /-- Error of the cache write in `saveCart`. -/
  redisSave : Option Err
  /-- Error of the durable upsert in `saveCart`. -/
  mongoUpsert : Option Err
  /-- Error of the cache deletion in `ClearCart`. -/
  redisDel : Option Err
  /-- Error of the durable deletion in `ClearCart`. -/
  mongoDel : Option Err
  /-- Clock reading in `newEmptyCart`. -/
  nowEmpty : Time
  /-- Clock reading in `AddItem`. -/
  nowItem : Time
  /-- Clock reading in `saveCart`. -/
  nowSave : Time
  /-- Clock reading in `UpsertCart`. -/
  nowSync : Time
  /-- Result of `uuid.New().String()`. -/
  newItemID : String
  /-- The `_id` the durable store gives a document it inserts. -/
  newDocID : String
  deriving DecidableEq, Repr

/-- Look a key up in the cache. -/
def kvGet {V : Type} (k : String) : List (String × V) → Option V
  | [] => none
  | (k1, v) :: rest => if k1 = k then some v else kvGet k rest

/-- Store a value under a key, replacing the value the key had. -/
def kvSet {V : Type} (k : String) (v : V) : List (String × V) → List (String × V)
  | [] => [(k, v)]
  | (k1, v1) :: rest => if k1 = k then (k, v) :: rest else (k1, v1) :: kvSet k v rest

/-- Remove a key. -/
def kvDel {V : Type} (k : String) : List (String × V) → List (String × V)
  | [] => []
  | (k1, v1) :: rest => if k1 = k then kvDel k rest else (k1, v1) :: kvDel k rest

/-! ## Cache repository (`repository/redis/cart_redis_repo.go`) -/

/-- The cache key of a user: the constant `cart:` followed by the user id. -/
def cartKey (userID : String) : String :=
  "cart:" ++ userID

/-- Append a call to the trace. -/
def record {F : Type} (c : Call) (w : World F) : World F :=
  { w with trace := w.trace ++ [c] }

/-- Cache `GetCart`: a missing key is `(nil, nil)`, a client error is `(nil, err)`, a stored
cart is returned with `Source` set to `redis`. -/
def redisGetCart {F : Type} (fault : Option Err) (userID : String) (w : World F) :
    Except Err (Option (Cart F)) × World F :=
  let w1 := record (Call.redisGetCart userID) w
  match fault with
  | some e => (.error ("redis get cart: " ++ e), w1)
  | none =>
    match kvGet (cartKey userID) w.redis with
    | none => (.ok none, w1)
    | some ent => (.ok (some { ent.data with Source := "redis" }), w1)

/-- Cache `SaveCart`: stores the cart under the key of its `UserID` with the given TTL. -/
def redisSaveCart {F : Type} (fault : Option Err) (cart : Cart F) (ttl : Nat) (w : World F) :
    Option Err × World F :=
  let w1 := record (Call.redisSaveCart cart.UserID ttl) w
  match fault with
  | some e => (some e, w1)
  | none => (none, { w1 with redis := kvSet (cartKey cart.UserID) ⟨cart, ttl⟩ w1.redis })

/-- Cache `DeleteCart`. -/
def redisDeleteCart {F : Type} (fault : Option Err) (userID : String) (w : World F) :
    Option Err × World F :=
  let w1 := record (Call.redisDeleteCart userID) w
  match fault with
  | some e => (some e, w1)
  | none => (none, { w1 with redis := kvDel (cartKey userID) w1.redis })

/-! ## Durable repository (`repository/mongo/cart_mongo_repo.go`) -/

/-- The first document of a user, as `FindOne` with the filter on `user_id` returns it. -/
def findOne {F : Type} (userID : String) : List (MongoDoc F) → Option (MongoDoc F)
  | [] => none
  | d :: ds => if d.user_id = userID then some d else findOne userID ds

/-- Decode a document into a cart. -/
def decodeDoc {F : Type} (d : MongoDoc F) : Cart F :=
  { ID := d.id, UserID := d.user_id, Items := d.items, TotalItems := d.total_items,
    TotalPrice := d.total_price, CreatedAt := d.created_at, UpdatedAt := d.updated_at,
    SyncedAt := d.synced_at, Source := d.source, SchemaVersion := d.schema_version }

/-- Durable `GetCart`: no document is `(nil, nil)`, a driver error is wrapped, a found
document is returned with `Source` set to `mongodb`. -/
def mongoGetCart {F : Type} (fault : Option Err) (userID : String) (w : World F) :
    Except Err (Option (Cart F)) × World F :=
  let w1 := record (Call.mongoGetCart userID) w
  match fault with
  | some e => (.error ("mongo get cart: " ++ e), w1)
  | none =>
    match findOne userID w.mongo with
    | none => (.ok none, w1)
    | some d => (.ok (some { decodeDoc d with Source := "mongodb" }), w1)

/-- The constant `time.Millisecond`, in the nanoseconds a `time.Time` counts. -/
def millisecond : Nat := 1000000

/-- An instant as the durable store holds it: a BSON datetime counts milliseconds, and the
driver drops what is below the millisecond when it encodes a `time.Time`. -/
def truncMs (t : Time) : Time :=
  t / millisecond * millisecond

/-- An item as the durable store holds it: `added_at` is a BSON datetime. -/
def storeItem {F : Type} (item : CartItem F) : CartItem F :=
  { item with AddedAt := truncMs item.AddedAt }

/-- The `$set` part of the upsert applied to an existing document; the three `time.Time`
values it hands to the driver (`cart.UpdatedAt`, `now`, and `AddedAt` of each item) are stored
as BSON datetimes. -/
def applySet {F : Type} (cart : Cart F) (now : Time) (d : MongoDoc F) : MongoDoc F :=
  { d with user_id := cart.UserID, items := cart.Items.map storeItem,
           total_items := cart.TotalItems, total_price := cart.TotalPrice,
           updated_at := truncMs cart.UpdatedAt, synced_at := some (truncMs now),
           schema_version := cart.SchemaVersion, source := "mongodb" }

/-- The document an upsert inserts: the `$set` fields and the `$setOnInsert` field, the times
stored as BSON datetimes. -/
def insertDoc {F : Type} (cart : Cart F) (now : Time) (newDocID : String) : MongoDoc F :=
  { id := newDocID, user_id := cart.UserID, items := cart.Items.map storeItem,
    total_items := cart.TotalItems, total_price := cart.TotalPrice,
    created_at := truncMs cart.CreatedAt, updated_at := truncMs cart.UpdatedAt,
    synced_at := some (truncMs now), source := "mongodb",
    schema_version := cart.SchemaVersion }

/-- The effect of `UpdateOne` with `upsert` on the collection: the first document of the user
is updated, or a document is inserted when there is none. -/
def updateOneUpsert {F : Type} (cart : Cart F) (now : Time) (newDocID : String) :
    List (MongoDoc F) → List (MongoDoc F)
  | [] => [insertDoc cart now newDocID]
  | d :: ds =>
    if d.user_id = cart.UserID then applySet cart now d :: ds
    else d :: updateOneUpsert cart now newDocID ds

/-- Durable `UpsertCart`. The cart passed in is stamped with `SyncedAt` before the write is
sent, so the caller's cart is returned next to the error. -/
def mongoUpsertCart {F : Type} (fault : Option Err) (now : Time) (newDocID : String)
    (cart : Cart F) (w : World F) : Option Err × Cart F × World F :=
  let cart1 := { cart with SyncedAt := some now }
  let w1 := record (Call.mongoUpsertCart cart.UserID) w
  match fault with
  | some e => (some ("mongo upsert cart: " ++ e), cart1, w1)
  | none => (none, cart1, { w1 with mongo := updateOneUpsert cart1 now newDocID w1.mongo })

/-- The collection without the first document of the user (`DeleteOne`). -/
def deleteOne {F : Type} (userID : String) : List (MongoDoc F) → List (MongoDoc F)
  | [] => []
  | d :: ds => if d.user_id = userID then ds else d :: deleteOne userID ds

/-- Durable `DeleteCart`. -/
def mongoDeleteCart {F : Type} (fault : Option Err) (userID : String) (w : World F) :
    Option Err × World F :=
  let w1 := record (Call.mongoDeleteCart userID) w
  match fault with
  | some e => (some ("mongo delete cart: " ++ e), w1)
  | none => (none, { w1 with mongo := deleteOne userID w1.mongo })

/-! ## Cart service (`service/cart_service.go`) -/

/-- The service's configuration: the TTL it stores cache entries with. -/
structure Config where
  redisTTL : Nat
  deriving DecidableEq, Repr

/-- Cart `newEmptyCart`. -/
def newEmptyCart {F : Type} [Float64Arith F] (now : Time) (userID : String) : Cart F :=
  { ID := "", UserID := userID, Items := [], TotalItems := 0,
    TotalPrice := Float64Arith.zero, CreatedAt := now, UpdatedAt := now, SyncedAt := none,
    Source := "new", SchemaVersion := 1 }

/-- Service `GetCart`: cache first, then the durable store, then a fresh empty cart. -/
def GetCart {F : Type} [Float64Arith F] (cfg : Config) (env : Env) (userID : String)
    (w : World F) : Except Err (Cart F) × World F :=
  match redisGetCart env.redisGet userID w with
  | (.ok (some cart), w1) => (.ok cart, w1)
  | (_, w1) =>
    match mongoGetCart env.mongoGet userID w1 with
    | (.error e, w2) => (.error ("get cart from mongo: " ++ e), w2)
    | (.ok (some cart), w2) => (.ok cart, (redisSaveCart env.redisWarm cart cfg.redisTTL w2).2)
    | (.ok none, w2) => (.ok (newEmptyCart env.nowEmpty userID), w2)

/-- One step of the loop of `recalculate`. -/
def recalcStep {F : Type} [Float64Arith F] (acc : Int × F) (item : CartItem F) : Int × F :=
  (wrapInt64 (acc.1 + item.Quantity),
   Float64Arith.add acc.2 (Float64Arith.mul item.Price (Float64Arith.ofInt item.Quantity)))

/-- Service `recalculate`: the totals of an item list. -/
def recalculate {F : Type} [Float64Arith F] (items : List (CartItem F)) : Int × F :=
  items.foldl recalcStep (0, Float64Arith.zero)

/-- Service `saveCart`: stamp `UpdatedAt`, recompute the totals, write the cache (an error is
only logged), then write the durable store (an error is returned). -/
def saveCart {F : Type} [Float64Arith F] (cfg : Config) (env : Env) (cart : Cart F)
    (w : World F) : Except Err (Cart F) × World F :=
  let cart1 := { cart with UpdatedAt := env.nowSave }
  let cart2 := { cart1 with TotalItems := (recalculate cart1.Items).1,
                            TotalPrice := (recalculate cart1.Items).2 }
  let w1 := (redisSaveCart env.redisSave cart2 cfg.redisTTL w).2
  match mongoUpsertCart env.mongoUpsert env.nowSync env.newDocID cart2 w1 with
  | (some e, _, w2) => (.error e, w2)
  | (none, cart3, w2) => (.ok cart3, w2)

/-- The loop of `AddItem`: the first item with the product id gets the requested quantity added
and its `AddedAt` refreshed; `none` when no item has the product id. -/
def addToExisting {F : Type} (productID : String) (quantity : Int) (now : Time) :
    List (CartItem F) → Option (List (CartItem F))
  | [] => none
  | item :: rest =>
    if item.ProductID = productID then
      some ({ item with Quantity := wrapInt64 (item.Quantity + quantity), AddedAt := now } :: rest)
    else
      (addToExisting productID quantity now rest).map (fun r => item :: r)

/-- The item `AddItem` appends for a product that is not in the cart. -/
def newItem {F : Type} (env : Env) (req : AddItemRequest F) : CartItem F :=
  { ItemID := env.newItemID, ProductID := req.ProductID, ProductName := req.ProductName,
    Category := req.Category, Price := req.Price, Quantity := req.Quantity,
    ImageURL := req.ImageURL, AddedAt := env.nowItem }

/-- Service `AddItem`. -/
def AddItem {F : Type} [Float64Arith F] (cfg : Config) (env : Env) (userID : String)
    (req : AddItemRequest F) (w : World F) : Except Err (Cart F) × World F :=
  match GetCart cfg env userID w with
  | (.error e, w1) => (.error e, w1)
  | (.ok cart, w1) =>
    match addToExisting req.ProductID req.Quantity env.nowItem cart.Items with
    | some items => saveCart cfg env { cart with Items := items } w1
    | none => saveCart cfg env { cart with Items := cart.Items ++ [newItem env req] } w1

/-- One step of the loop of `UpdateItemQuantity`, on the pair `(found, newItems)`. -/
def updateStep {F : Type} (itemID : String) (quantity : Int)
    (acc : Bool × List (CartItem F)) (item : CartItem F) : Bool × List (CartItem F) :=
  if item.ItemID = itemID then
    (true, if quantity > 0 then acc.2 ++ [{ item with Quantity := quantity }] else acc.2)
  else
    (acc.1, acc.2 ++ [item])

/-- The loop of `UpdateItemQuantity`. -/
def updateLoop {F : Type} (itemID : String) (quantity : Int) (items : List (CartItem F)) :
    Bool × List (CartItem F) :=
  items.foldl (updateStep itemID quantity) (false, [])

/-- Service `UpdateItemQuantity`. -/
def UpdateItemQuantity {F : Type} [Float64Arith F] (cfg : Config) (env : Env) (userID : String)
    (itemID : String) (quantity : Int) (w : World F) : Except Err (Cart F) × World F :=
  match GetCart cfg env userID w with
  | (.error e, w1) => (.error e, w1)
  | (.ok cart, w1) =>
    if (updateLoop itemID quantity cart.Items).1 then
      saveCart cfg env { cart with Items := (updateLoop itemID quantity cart.Items).2 } w1
    else
      (.error ("item " ++ itemID ++ " not found in cart"), w1)

/-- Service `RemoveItem`. -/
def RemoveItem {F : Type} [Float64Arith F] (cfg : Config) (env : Env) (userID : String)
    (itemID : String) (w : World F) : Except Err (Cart F) × World F :=
  UpdateItemQuantity cfg env userID itemID 0 w

/-! ## Mutations, taken together -/

/-- The three mutators of the service, as one request type. -/
inductive Mutation (F : Type) where
  | add (req : AddItemRequest F)
  | update (itemID : String) (quantity : Int)
  | remove (itemID : String)
  deriving DecidableEq, Repr

/-- Dispatch a mutation to the service method that serves it. -/
def mutate {F : Type} [Float64Arith F] (cfg : Config) (env : Env) (userID : String)
    (m : Mutation F) (w : World F) : Except Err (Cart F) × World F :=
  match m with
  | .add req => AddItem cfg env userID req w
  | .update itemID quantity => UpdateItemQuantity cfg env userID itemID quantity w
  | .remove itemID => RemoveItem cfg env userID itemID w

/-- The item list a mutation hands to `saveCart`, or `none` when it stops with not-found. -/
def nextItems {F : Type} (env : Env) (m : Mutation F) (items : List (CartItem F)) :
    Option (List (CartItem F)) :=
  match m with
  | .add req =>
    match addToExisting req.ProductID req.Quantity env.nowItem items with
    | some items1 => some items1
    | none => some (items ++ [newItem env req])
  | .update itemID quantity =>
    if (updateLoop itemID quantity items).1 then some (updateLoop itemID quantity items).2
    else none
  | .remove itemID =>
    if (updateLoop itemID 0 items).1 then some (updateLoop itemID 0 items).2 else none

/-- The item id a mutation addresses (unused for an add). -/
def Mutation.target {F : Type} : Mutation F → String
  | .add _ => ""
  | .update itemID _ => itemID
  | .remove itemID => itemID

/-! ## The totals, as the specification words them -/

/-- The sum of the quantities of the items, as a mathematical integer. -/
def sumQuantity {F : Type} (items : List (CartItem F)) : Int :=
  (items.map (fun item => item.Quantity)).sum

/-- The sum of price times quantity over the items, accumulated from the left in the price
arithmetic. -/
def sumPrice {F : Type} [Float64Arith F] (items : List (CartItem F)) : F :=
  (items.map (fun item => Float64Arith.mul item.Price (Float64Arith.ofInt item.Quantity))).foldl
    Float64Arith.add Float64Arith.zero

/-! ## Concrete values used to evaluate the model -/

/-- An environment in which every store call succeeds. -/
def exEnv : Env :=
  { redisGet := none, mongoGet := none, redisWarm := none, redisSave := none,
    mongoUpsert := none, redisDel := none, mongoDel := none,
    nowEmpty := 10, nowItem := 11, nowSave := 12, nowSync := 13,
    newItemID := "i1", newDocID := "d1" }

/-- A week, in seconds. -/
def exCfg : Config := { redisTTL := 604800 }

/-- A request for one copy of product `p1`. -/
def exReq : AddItemRequest Int :=
  { ProductID := "p1", ProductName := "Book", Category := "books", Price := 40, Quantity := 1,
    ImageURL := "" }

/-- Both tiers empty, no call made. -/
def emptyWorld : World Int := { redis := [], mongo := [], trace := [] }

/-- The cart `AddItem` returns for `exReq` in the empty world. -/
def exCart1 : Cart Int :=
  { ID := "", UserID := "u1",
    Items := [{ ItemID := "i1", ProductID := "p1", ProductName := "Book", Category := "books",
                Price := 40, Quantity := 1, ImageURL := "", AddedAt := 11 }],
    TotalItems := 1, TotalPrice := 40, CreatedAt := 10, UpdatedAt := 12, SyncedAt := some 13,
    Source := "new", SchemaVersion := 1 }

/-- The world after `AddItem` of `exReq` in the empty world. -/
def exWorld1 : World Int :=
  { redis := [("cart:u1", { data := { exCart1 with SyncedAt := none }, ttl := 604800 })],
    mongo := [{ id := "d1", user_id := "u1", items := exCart1.Items.map storeItem,
                total_items := 1, total_price := 40, created_at := 0, updated_at := 0,
                synced_at := some 0, source := "mongodb", schema_version := 1 }],
    trace := [Call.redisGetCart "u1", Call.mongoGetCart "u1", Call.redisSaveCart "u1" 604800,
              Call.mongoUpsertCart "u1"] }

/-- A non-empty sequence of `AddItem` calls for one user, each with its own environment; the
result is that of the last call. -/
def addSeq {F : Type} [Float64Arith F] (cfg : Config) (userID : String) :
    Env × AddItemRequest F → List (Env × AddItemRequest F) → World F →
      Except Err (Cart F) × World F
  | first, [], w => AddItem cfg first.1 userID first.2 w
  | first, next :: rest, w => addSeq cfg userID next rest (AddItem cfg first.1 userID first.2 w).2

/-- Every store call of a read followed by a save succeeds. -/
def noFaults (env : Env) : Prop :=
  env.redisGet = none ∧ env.mongoGet = none ∧ env.redisWarm = none ∧ env.redisSave = none ∧
    env.mongoUpsert = none

instance (env : Env) : Decidable (noFaults env) :=
  inferInstanceAs (Decidable (env.redisGet = none ∧ env.mongoGet = none ∧
    env.redisWarm = none ∧ env.redisSave = none ∧ env.mongoUpsert = none))

/-- The cart `saveCart` writes to the cache: `UpdatedAt` stamped and the totals recomputed. -/
def stamped {F : Type} [Float64Arith F] (env : Env) (cart : Cart F) : Cart F :=
  { cart with UpdatedAt := env.nowSave, TotalItems := (recalculate cart.Items).1,
              TotalPrice := (recalculate cart.Items).2 }

/-- The cart `saveCart` returns: the stamped cart with `SyncedAt` set by the upsert. -/
def synced {F : Type} [Float64Arith F] (env : Env) (cart : Cart F) : Cart F :=
  { stamped env cart with SyncedAt := some env.nowSync }

/-- The cache holds, for the user, a cart with exactly one item, of the given product and with
the given quantity (as a Go `int`). -/
def holdsOne {F : Type} (userID productID : String) (n : Int) (w : World F) : Prop :=
  ∃ ent item, kvGet (cartKey userID) w.redis = some ent ∧ ent.data.UserID = userID ∧
    ent.data.Items = [item] ∧ item.ProductID = productID ∧ item.Quantity = wrapInt64 n

/-- A request for two more copies of product `p1`. -/
def exReq2 : AddItemRequest Int :=
  { ProductID := "p1", ProductName := "Book", Category := "books", Price := 40, Quantity := 2,
    ImageURL := "" }

/-- A later environment in which every store call succeeds. -/
def exEnv2 : Env :=
  { exEnv with nowEmpty := 20, nowItem := 21, nowSave := 22, nowSync := 23, newItemID := "i2",
               newDocID := "d2" }

/-- Every cache entry sits under the key of the user its cart names: the invariant `SaveCart`
maintains, since it derives the key from `cart.UserID`. -/
def cacheKeyed {F : Type} (w : World F) : Prop :=
  ∀ p ∈ w.redis, p.1 = cartKey p.2.data.UserID

instance {F : Type} (w : World F) : Decidable (cacheKeyed w) :=
  inferInstanceAs (Decidable (∀ p ∈ w.redis, p.1 = cartKey p.2.data.UserID))

/-- An environment whose cache write in `saveCart` fails; every other store call succeeds. -/
def envCacheDown : Env :=
  { exEnv2 with redisSave := some "connection refused" }

/-- A later environment in which every store call succeeds. -/
def exEnv3 : Env :=
  { exEnv with nowEmpty := 30, nowItem := 31, nowSave := 32, nowSync := 33, newItemID := "i3",
               newDocID := "d3" }

/-- A request for one copy of another product, `p2`. -/
def exReqB : AddItemRequest Int :=
  { ProductID := "p2", ProductName := "Course", Category := "courses", Price := 60,
    Quantity := 1, ImageURL := "" }

/-- The cart `AddItem` returns for `exReqB` on top of `exCart1`. -/
def exCart2 : Cart Int :=
  { ID := "", UserID := "u1",
    Items := [{ ItemID := "i1", ProductID := "p1", ProductName := "Book", Category := "books",
                Price := 40, Quantity := 1, ImageURL := "", AddedAt := 11 },
              { ItemID := "i2", ProductID := "p2", ProductName := "Course",
                Category := "courses", Price := 60, Quantity := 1, ImageURL := "",
                AddedAt := 21 }],
    TotalItems := 2, TotalPrice := 100, CreatedAt := 10, UpdatedAt := 22, SyncedAt := some 23,
    Source := "redis", SchemaVersion := 1 }

/-- The cart the first add returns when the cache write fails. -/
def exCart1b : Cart Int :=
  { exCart1 with
    Items := [{ ItemID := "i2", ProductID := "p1", ProductName := "Book", Category := "books",
                Price := 40, Quantity := 1, ImageURL := "", AddedAt := 21 }],
    CreatedAt := 20, UpdatedAt := 22, SyncedAt := some 23 }

/-- The cart a read returns after that add: it comes from the durable store, whose times are
whole milliseconds. -/
def exCart1c : Cart Int :=
  { exCart1b with ID := "d2", Source := "mongodb", Items := exCart1b.Items.map storeItem,
                  CreatedAt := 0, UpdatedAt := 0, SyncedAt := some 0 }

/-- A message contains a text, as `strings.Contains` decides it. -/
def containsText (msg text : String) : Prop :=
  text.data <:+: msg.data

/-- What `UpdateItemQuantity` does to one item: an item with the given id is kept with the new
quantity when that is positive and dropped otherwise, any other item is kept as it is. -/
def updateItem {F : Type} (itemID : String) (quantity : Int) (item : CartItem F) :
    Option (CartItem F) :=
  if item.ItemID = itemID then
    (if quantity > 0 then some { item with Quantity := quantity } else none)
  else some item

/-- A cart of `u1` whose times are readings of `time.Now()`, with nanoseconds. -/
def exCartNano : Cart Int :=
  { ID := "", UserID := "u1",
    Items := [{ ItemID := "i1", ProductID := "p1", ProductName := "Book", Category := "books",
                Price := 40, Quantity := 1, ImageURL := "",
                AddedAt := 1700000000000614472 }],
    TotalItems := 1, TotalPrice := 40, CreatedAt := 1700000000000514472,
    UpdatedAt := 1700000000001614472, SyncedAt := none, Source := "redis",
    SchemaVersion := 1 }

/-- A reading of `time.Now()`, with nanoseconds, later than the times of `exCartNano`. -/
def exNowNano : Time := 1700000000002714472

/-- The cache holds `exCartNano` for `u1`; the durable store is empty. -/
def exWorldNano : World Int :=
  { redis := [("cart:u1", { data := exCartNano, ttl := 604800 })], mongo := [], trace := [] }

/-- The durable store holds the cart of `u1`, the cache is empty. -/
def exWorldDurable : World Int :=
  { exWorld1 with redis := [], trace := [] }

/-- The cart of `u1` as the durable store returns it: the times are whole milliseconds. -/
def exCartDurable : Cart Int :=
  { exCart1 with ID := "d1", Source := "mongodb", Items := exCart1.Items.map storeItem,
                 CreatedAt := 0, UpdatedAt := 0, SyncedAt := some 0 }

/-- Service `ClearCart`: delete the cache entry (an error is only logged), then delete the
durable document (an error is returned). -/
def ClearCart {F : Type} (env : Env) (userID : String) (w : World F) : Option Err × World F :=
  let w1 := (redisDeleteCart env.redisDel userID w).2
  match mongoDeleteCart env.mongoDel userID w1 with
  | (some e, w2) => (some ("clear cart from mongo: " ++ e), w2)
  | (none, w2) => (none, w2)

/-- The largest Go `int`. -/
def maxInt64 : Int := 9223372036854775807

/-- A cart of `u1`, as the cache returns it, whose single item has the largest quantity a Go
`int` holds. -/
def exCartMax : Cart Int :=
  { exCart1 with
    Items := [{ ItemID := "i1", ProductID := "p1", ProductName := "Book", Category := "books",
                Price := 40, Quantity := 9223372036854775807, ImageURL := "", AddedAt := 11 }],
    SyncedAt := none, Source := "redis" }

/-- The cart `AddItem` returns for `exReq` on top of `exCartMax`. -/
def exCartWrapped : Cart Int :=
  { exCart1 with
    Items := [{ ItemID := "i1", ProductID := "p1", ProductName := "Book", Category := "books",
                Price := 40, Quantity := -9223372036854775808, ImageURL := "",
                AddedAt := 21 }],
    TotalItems := -9223372036854775808, TotalPrice := 40 * -9223372036854775808,
    UpdatedAt := 22, SyncedAt := some 23, Source := "redis" }

/-- The cache holds `exCartMax` for `u1`, the durable store is empty. -/
def exWorldMax : World Int :=
  { redis := [("cart:u1", { data := exCartMax, ttl := 604800 })], mongo := [], trace := [] }

/-- The durable store holds at most one document per user: what the unique index on `user_id`
(migration V002) enforces. -/
def durableUnique {F : Type} (w : World F) : Prop :=
  (w.mongo.map (fun d => d.user_id)).Nodup

instance {F : Type} (w : World F) : Decidable (durableUnique w) :=
  inferInstanceAs (Decidable ((w.mongo.map (fun (d : MongoDoc F) => d.user_id)).Nodup))

/-- An environment whose cache deletion fails; every other store call succeeds. -/
def envDelDown : Env :=
  { exEnv2 with redisDel := some "connection refused" }

/-- The number of durable documents of a user. -/
def countUser {F : Type} (userID : String) (docs : List (MongoDoc F)) : Nat :=
  (docs.filter (fun d => decide (d.user_id = userID))).length

/-- Whether a key matches the pattern `cart:*`. -/
def isCartKey (key : String) : Bool :=
  "cart:".data.isPrefixOf key.data

/-- Go `strings.TrimPrefix(key, "cart:")`. -/
def trimCartKey (key : String) : String :=
  if isCartKey key then String.mk (key.data.drop 5) else key

/-- The keys of the cache that match the pattern `cart:*`. -/
def listedKeys {F : Type} (w : World F) : List String :=
  (w.redis.map (fun p => p.1)).filter isCartKey

/-- Cache `GetAllCartKeys`: the keys that match `cart:*`. -/
def redisGetAllCartKeys {F : Type} (fault : Option Err) (w : World F) :
    Except Err (List String) × World F :=
  let w1 := record Call.redisGetAllCartKeys w
  match fault with
  | some e => (.error e, w1)
  | none => (.ok (listedKeys w), w1)

/-- What the environment supplies to one reconciler run: the error of the key listing and, for
the user of each key, the errors of the cache read and of the durable upsert, the clock reading
of the upsert and the `_id` the durable store gives an inserted document. -/
structure SyncEnv where
  keysErr : Option Err
  redisGet : String → Option Err
  mongoUpsert : String → Option Err
  nowSync : String → Time
  newDocID : String → String

/-- The counters of a reconciler run. -/
structure SyncCount where
  synced : Nat
  failed : Nat
  deriving DecidableEq, Repr

/-- The summary `CartSyncer.syncAll` logs. -/
structure SyncSummary where
  synced : Nat
  failed : Nat
  total : Nat
  deriving DecidableEq, Repr

/-- The body of the loop of `CartSyncer.syncAll`, for one key. -/
def CartSyncer.syncKey {F : Type} (env : SyncEnv) (acc : SyncCount × World F) (key : String) :
    SyncCount × World F :=
  if trimCartKey key = "" then acc
  else
    match redisGetCart (env.redisGet (trimCartKey key)) (trimCartKey key) acc.2 with
    | (.error _, w1) => ({ acc.1 with failed := acc.1.failed + 1 }, w1)
    | (.ok none, w1) => (acc.1, w1)
    | (.ok (some cart), w1) =>
      match mongoUpsertCart (env.mongoUpsert (trimCartKey key)) (env.nowSync (trimCartKey key))
          (env.newDocID (trimCartKey key)) cart w1 with
      | (some _, _, w2) => ({ acc.1 with failed := acc.1.failed + 1 }, w2)
      | (none, _, w2) => ({ acc.1 with synced := acc.1.synced + 1 }, w2)

/-- The loop of `CartSyncer.syncAll` over the listed keys. -/
def CartSyncer.syncKeys {F : Type} (env : SyncEnv) (keys : List String)
    (acc : SyncCount × World F) : SyncCount × World F :=
  keys.foldl (CartSyncer.syncKey env) acc

/-- Reconciler `CartSyncer.syncAll`: list the keys, sync each one, and log the summary when
something was synced or failed. The result is the logged summary, if any. -/
def CartSyncer.syncAll {F : Type} (env : SyncEnv) (w : World F) :
    Option SyncSummary × World F :=
  match redisGetAllCartKeys env.keysErr w with
  | (.error _, w1) => (none, w1)
  | (.ok keys, w1) =>
    let r := CartSyncer.syncKeys env keys ({ synced := 0, failed := 0 }, w1)
    if r.1.synced > 0 ∨ r.1.failed > 0 then
      (some { synced := r.1.synced, failed := r.1.failed, total := keys.length }, r.2)
    else (none, r.2)

/-! ## The `repository` package (`repository/redis_repository.go`,
`repository/mongo_repository.go`)

`SyncService` is written against the interfaces of this package, whose implementations talk to
the same two stores as the repositories above. -/

/-- `RedisRepository.GetCart`: a missing key is `(nil, nil)`, a client error is wrapped, a
stored cart is returned as it was stored (`Source` is not touched). -/
def RedisRepository.GetCart {F : Type} (fault : Option Err) (userID : String) (w : World F) :
    Except Err (Option (Cart F)) × World F :=
  let w1 := record (Call.redisGetCart userID) w
  match fault with
  | some e => (.error ("Redis GET failed for key " ++ cartKey userID ++ ": " ++ e), w1)
  | none =>
    match kvGet (cartKey userID) w.redis with
    | none => (.ok none, w1)
    | some ent => (.ok (some ent.data), w1)

/-- `RedisRepository.GetAllActiveCartKeys`: the keys that match `cart:*`. -/
def RedisRepository.GetAllActiveCartKeys {F : Type} (fault : Option Err) (w : World F) :
    Except Err (List String) × World F :=
  let w1 := record Call.redisGetAllCartKeys w
  match fault with
  | some e => (.error ("Redis SCAN failed: " ++ e), w1)
  | none => (.ok (listedKeys w), w1)

/-- The `$set` of the whole cart applied to an existing document: every field `model.Cart`
declares with a `bson` tag is written as the cart carries it, `created_at`, `synced_at` and
`source` included, the times as BSON datetimes. The `_id` of a document cannot change: a cart
with an empty `ID` leaves it out (`omitempty`), and the store answers a `$set` of another
`_id` with an error, so that after a write without error the document has the `_id` it had. -/
def setCart {F : Type} (cart : Cart F) (d : MongoDoc F) : MongoDoc F :=
  { d with user_id := cart.UserID, items := cart.Items.map storeItem,
           total_items := cart.TotalItems, total_price := cart.TotalPrice,
           created_at := truncMs cart.CreatedAt, updated_at := truncMs cart.UpdatedAt,
           synced_at := cart.SyncedAt.map truncMs, source := cart.Source,
           schema_version := cart.SchemaVersion }

/-- The document the upsert of the whole cart inserts: the fields of the cart, with the `_id`
of the cart when it has one and the `_id` the store assigns otherwise. -/
def insertCart {F : Type} (cart : Cart F) (newDocID : String) : MongoDoc F :=
  { id := if cart.ID = "" then newDocID else cart.ID, user_id := cart.UserID,
    items := cart.Items.map storeItem, total_items := cart.TotalItems,
    total_price := cart.TotalPrice, created_at := truncMs cart.CreatedAt,
    updated_at := truncMs cart.UpdatedAt, synced_at := cart.SyncedAt.map truncMs,
    source := cart.Source, schema_version := cart.SchemaVersion }

/-- The effect on the collection of `UpdateOne` with `upsert` and `$set` of the whole cart: the
first document of the user is overwritten, or a document is inserted when there is none. -/
def updateOneSetCart {F : Type} (cart : Cart F) (newDocID : String) :
    List (MongoDoc F) → List (MongoDoc F)
  | [] => [insertCart cart newDocID]
  | d :: ds =>
    if d.user_id = cart.UserID then setCart cart d :: ds
    else d :: updateOneSetCart cart newDocID ds

/-- `MongoRepository.UpsertCart`. Its first statement assigns the reading of the clock to
`cart.LastSyncAt`, a field `model.Cart` does not declare: nothing of the cart as modelled
changes, and `synced_at` is written as the cart carries it. -/
def MongoRepository.UpsertCart {F : Type} (fault : Option Err) (newDocID : String)
    (cart : Cart F) (w : World F) : Option Err × World F :=
  let w1 := record (Call.mongoUpsertCart cart.UserID) w
  match fault with
  | some e => (some ("MongoDB upsert failed for user " ++ cart.UserID ++ ": " ++ e), w1)
  | none => (none, { w1 with mongo := updateOneSetCart cart newDocID w1.mongo })

/-! ## The second reconciler (`service/sync_service.go`) -/

/-- Reconciler `SyncService.syncCart`. -/
def SyncService.syncCart {F : Type} (env : SyncEnv) (userID : String) (w : World F) :
    Option Err × World F :=
  match RedisRepository.GetCart (env.redisGet userID) userID w with
  | (.error e, w1) => (some e, w1)
  | (.ok none, w1) => (none, w1)
  | (.ok (some cart), w1) =>
    MongoRepository.UpsertCart (env.mongoUpsert userID) (env.newDocID userID) cart w1

/-- The body of the loop of `SyncService.syncAll`, for one key. -/
def SyncService.syncKey {F : Type} (env : SyncEnv) (acc : SyncCount × World F) (key : String) :
    SyncCount × World F :=
  if trimCartKey key = "" then acc
  else
    match SyncService.syncCart env (trimCartKey key) acc.2 with
    | (some _, w1) => ({ acc.1 with failed := acc.1.failed + 1 }, w1)
    | (none, w1) => ({ acc.1 with synced := acc.1.synced + 1 }, w1)

/-- The loop of `SyncService.syncAll` over the listed keys. -/
def SyncService.syncKeys {F : Type} (env : SyncEnv) (keys : List String)
    (acc : SyncCount × World F) : SyncCount × World F :=
  keys.foldl (SyncService.syncKey env) acc

/-- Reconciler `SyncService.syncAll`: list the keys, return when there is none, else sync each
one and log the counters. The result is the logged counters, if any. -/
def SyncService.syncAll {F : Type} (env : SyncEnv) (w : World F) :
    Option SyncCount × World F :=
  match RedisRepository.GetAllActiveCartKeys env.keysErr w with
  | (.error _, w1) => (none, w1)
  | (.ok keys, w1) =>
    if keys.length = 0 then (none, w1)
    else
      (some (SyncService.syncKeys env keys ({ synced := 0, failed := 0 }, w1)).1,
       (SyncService.syncKeys env keys ({ synced := 0, failed := 0 }, w1)).2)

/-- The users of the durable upserts in a trace, in call order. -/
def upsertedUsers (trace : List Call) : List String :=
  trace.filterMap (fun c => match c with
    | Call.mongoUpsertCart u => some u
    | _ => none)

/-- A listed key can be synced: its user id is not empty, the cache read of the user succeeds
and the cache holds an entry under the user's key. -/
def readable {F : Type} (env : SyncEnv) (w : World F) (key : String) : Prop :=
  trimCartKey key ≠ "" ∧ env.redisGet (trimCartKey key) = none ∧
    ∃ ent, kvGet (cartKey (trimCartKey key)) w.redis = some ent

/-- The number of listed keys whose durable upsert fails. -/
def countUpsertFaults (env : SyncEnv) (keys : List String) : Nat :=
  (keys.filter (fun k => (env.mongoUpsert (trimCartKey k)).isSome)).length

/-- The cache holds the carts of `u1` and `u2`; the durable store holds only that of `u1`. -/
def exWorldSync : World Int :=
  { redis := [("cart:u1", { data := { exCart1 with SyncedAt := none }, ttl := 604800 }),
              ("cart:u2", { data := { exCart2 with UserID := "u2", SyncedAt := none },
                            ttl := 604800 })],
    mongo := exWorld1.mongo, trace := [] }

/-- A run in which the durable upsert fails for `u2` only. -/
def exSyncEnvBad : SyncEnv :=
  { keysErr := none, redisGet := fun _ => none,
    mongoUpsert := fun u => if u = "u2" then some "timeout" else none,
    nowSync := fun _ => 60, newDocID := fun u => "doc-" ++ u }

/-- A run in which every store call succeeds. -/
def exSyncEnv : SyncEnv :=
  { keysErr := none, redisGet := fun _ => none, mongoUpsert := fun _ => none,
    nowSync := fun _ => 70, newDocID := fun u => "doc-" ++ u }

/-- The durable store holds a document for the user whose totals are those of the cart and
whose items and `updated_at` are those of the cart at the precision of the store: with every
time truncated to the millisecond. -/
def durableHolds {F : Type} (userID : String) (cart : Cart F) (docs : List (MongoDoc F)) :
    Prop :=
  ∃ d, findOne userID docs = some d ∧ d.items = cart.Items.map storeItem ∧
    d.total_items = cart.TotalItems ∧ d.total_price = cart.TotalPrice ∧
    d.updated_at = truncMs cart.UpdatedAt

/-- The case the `select` of a reconciler loop takes in one iteration. -/
inductive SelectCase where
  | tick
  | stop
  deriving DecidableEq, Repr

/-- What triggers a run of `syncAll`. -/
inductive Trigger where
  | startup
  | tick
  | final
  deriving DecidableEq, Repr

/-- Reconciler `CartSyncer.Start`: the loop selects between the cancellation of the context,
on which it returns, and a tick, on which it runs `syncAll`. The result counts the runs. -/
def CartSyncer.Start {W : Type} (syncAll : Trigger → W → W) : List SelectCase → W → Nat × W
  | [], w => (0, w)
  | SelectCase.stop :: _, w => (0, w)
  | SelectCase.tick :: rest, w =>
    ((CartSyncer.Start syncAll rest (syncAll Trigger.tick w)).1 + 1,
     (CartSyncer.Start syncAll rest (syncAll Trigger.tick w)).2)

/-- The loop of the goroutine of `SyncService.Start`: a tick runs `syncAll`, the stop signal
runs it a last time and returns. -/
def SyncService.loop {W : Type} (syncAll : Trigger → W → W) : List SelectCase → W → Nat × W
  | [], w => (0, w)
  | SelectCase.stop :: _, w => (1, syncAll Trigger.final w)
  | SelectCase.tick :: rest, w =>
    ((SyncService.loop syncAll rest (syncAll Trigger.tick w)).1 + 1,
     (SyncService.loop syncAll rest (syncAll Trigger.tick w)).2)

/-- Reconciler `SyncService.Start`: one run at once, then the loop. -/
def SyncService.Start {W : Type} (syncAll : Trigger → W → W) (cases : List SelectCase)
    (w : W) : Nat × W :=
  ((SyncService.loop syncAll cases (syncAll Trigger.startup w)).1 + 1,
   (SyncService.loop syncAll cases (syncAll Trigger.startup w)).2)

/-- A run that only logs what triggered it. -/
def logTrigger (t : Trigger) (log : List Trigger) : List Trigger :=
  log ++ [t]

/-! ## Migration runner (`migration/runner.go`) -/

/-- The lease document of the lock collection, the one with `_id` `migration-lock`. -/
structure Lease where
  locked : Bool
  lockedAt : Time
  expiresAt : Time
  deriving DecidableEq, Repr

/-- A document of the change-log collection, with the fields `recordState` writes. -/
structure ChangeRecord where
  changeId : String
  author : String
  state : String
  executedAt : Time
  order : String
  error : String
  deriving DecidableEq, Repr

/-- What the runner does to the database, in call order. -/
inductive MigCall where
  | acquire
  | lookup (changeId : String)
  | execute (changeId : String)
  | recordState (changeId : String) (state : String)
  | release
  deriving DecidableEq, Repr

/-- The part of the durable database the runner works on: the lease document, if any, the
change log, and the calls made so far. -/
structure MigDb where
  lock : Option Lease
  changeLog : List ChangeRecord
  calls : List MigCall
  deriving DecidableEq, Repr

/-- A migration, as far as the runner looks at it: `ID()`, `Order()` and `Author()`. What its
`Execute` does to the database is not modelled; its result is supplied by the environment. -/
structure Migration where
  id : String
  order : String
  author : String
  deriving DecidableEq, Repr

/-- The runner: the migrations it was constructed with. -/
structure Runner where
  migrations : List Migration
  deriving DecidableEq, Repr

/-- What the environment supplies to one `Run`: the errors of the store calls (`none` when the
call succeeds), the results of the migrations' `Execute`, and the clock readings, each taken
as the store holds and compares it (a datetime in whole milliseconds). -/
structure MigEnv where
  /-- Driver error of the `UpdateOne` of `acquireLock`. -/
  lockErr : Option Err
  /-- What the store answers when the upsert of `acquireLock` matches no document although the
  lease document exists: the duplicate-key error of the insert it then attempts, which is the
  answer of the store to an upsert whose filter fixes `_id`; or, when `none`, a result with
  `MatchedCount` and `UpsertedCount` both 0, the reply the last branch of `acquireLock` tests
  for. -/
  lockConflict : Option Err
  /-- Clock reading written to `lockedAt`. -/
  nowLocked : Time
  /-- Clock reading to which five minutes are added for `expiresAt`. -/
  nowExpires : Time
  /-- Clock reading the filter compares `expiresAt` with. -/
  nowFilter : Time
  /-- Error of the `FindOne` of `isExecuted`, per change id. -/
  lookupErr : String → Option Err
  /-- Error returned by `Execute`, per change id. -/
  execErr : String → Option Err
  /-- Error of the `UpdateOne` of `recordState`, per change id (the runner ignores it). -/
  recordErr : String → Option Err
  /-- Clock reading of `recordState`, per change id. -/
  nowRecord : String → Time
  /-- Error of the `UpdateOne` of `releaseLock` (the runner ignores it). -/
  releaseErr : Option Err

/-- The constant `stateExecuted`. -/
def stateExecuted : String := "EXECUTED"

/-- The constant `stateFailed`. -/
def stateFailed : String := "FAILED"

/-- Five minutes, as a Go `time.Duration` (nanoseconds). -/
def fiveMinutes : Nat := 300000000000

/-- Migration `V001CreateCartsCollection`. -/
def V001 : Migration :=
  { id := "V001_CreateCartsCollection", order := "001", author := "emart-db-team" }

/-- Migration `V002AddCartIndexes`. -/
def V002 : Migration :=
  { id := "V002_AddCartIndexes", order := "002", author := "emart-db-team" }

/-- Migration `V003AddSchemaValidation`. -/
def V003 : Migration :=
  { id := "V003_AddSchemaValidation", order := "003", author := "emart-db-team" }

/-- Runner `NewRunner`: the three migrations in registration order. -/
def NewRunner : Runner :=
  { migrations := [V001, V002, V003] }

/-- Append a call to the calls of the database. -/
def logCall (c : MigCall) (db : MigDb) : MigDb :=
  { db with calls := db.calls ++ [c] }

/-- The filter of `acquireLock` on an existing lease: not locked, or expired. -/
def leaseAvailable (now : Time) (l : Lease) : Bool :=
  !l.locked || decide (l.expiresAt < now)

/-- Runner `acquireLock`: the conditional upsert of the lease document. -/
def Runner.acquireLock (env : MigEnv) (db : MigDb) : Option Err × MigDb :=
  match env.lockErr with
  | some e => (some e, logCall MigCall.acquire db)
  | none =>
    match db.lock with
    | none =>
      (none, { logCall MigCall.acquire db with
               lock := some { locked := true, lockedAt := env.nowLocked,
                              expiresAt := env.nowExpires + fiveMinutes } })
    | some l =>
      if leaseAvailable env.nowFilter l then
        (none, { logCall MigCall.acquire db with
                 lock := some { locked := true, lockedAt := env.nowLocked,
                                expiresAt := env.nowExpires + fiveMinutes } })
      else
        match env.lockConflict with
        | some e => (some e, logCall MigCall.acquire db)
        | none => (some "migration lock held by another process", logCall MigCall.acquire db)

/-- Runner `releaseLock`: set `locked` to false on the lease document; the result of the write
is ignored. -/
def Runner.releaseLock (env : MigEnv) (db : MigDb) : MigDb :=
  match env.releaseErr with
  | some _ => logCall MigCall.release db
  | none =>
    { logCall MigCall.release db with
      lock := db.lock.map (fun l => { l with locked := false }) }

/-- Whether the change log holds a record of the change id with state `EXECUTED`. -/
def hasExecuted (changeId : String) (log : List ChangeRecord) : Bool :=
  log.any (fun r => decide (r.changeId = changeId) && decide (r.state = stateExecuted))

/-- Runner `isExecuted`. -/
def Runner.isExecuted (env : MigEnv) (changeId : String) (db : MigDb) :
    Except Err Bool × MigDb :=
  match env.lookupErr changeId with
  | some e => (.error e, logCall (MigCall.lookup changeId) db)
  | none => (.ok (hasExecuted changeId db.changeLog), logCall (MigCall.lookup changeId) db)

/-- The effect of the upsert of `recordState` on the change log: the first record of the change
id is overwritten, or a record is inserted when there is none. -/
def upsertRecord (r : ChangeRecord) : List ChangeRecord → List ChangeRecord
  | [] => [r]
  | r1 :: rest => if r1.changeId = r.changeId then r :: rest else r1 :: upsertRecord r rest

/-- Runner `recordState`; the result of the write is ignored. -/
def Runner.recordState (env : MigEnv) (m : Migration) (state errMsg : String) (db : MigDb) :
    MigDb :=
  match env.recordErr m.id with
  | some _ => logCall (MigCall.recordState m.id state) db
  | none =>
    { logCall (MigCall.recordState m.id state) db with
      changeLog := upsertRecord
        { changeId := m.id, author := m.author, state := state,
          executedAt := env.nowRecord m.id, order := m.order, error := errMsg }
        db.changeLog }

/-- The loop of `Run` over the migrations. -/
def Runner.loop (env : MigEnv) : List Migration → MigDb → Option Err × MigDb
  | [], db => (none, db)
  | m :: rest, db =>
    match Runner.isExecuted env m.id db with
    | (.error e, db1) => (some ("check migration state " ++ m.id ++ ": " ++ e), db1)
    | (.ok true, db1) => Runner.loop env rest db1
    | (.ok false, db1) =>
      match env.execErr m.id with
      | some e =>
        (some ("migration " ++ m.id ++ " failed: " ++ e),
          Runner.recordState env m stateFailed e (logCall (MigCall.execute m.id) db1))
      | none =>
        Runner.loop env rest
          (Runner.recordState env m stateExecuted "" (logCall (MigCall.execute m.id) db1))

/-- Runner `Run`: acquire the lease or return, run the loop, release the lease on return. -/
def Runner.Run (r : Runner) (env : MigEnv) (db : MigDb) : Option Err × MigDb :=
  match Runner.acquireLock env db with
  | (some e, db1) => (some ("cannot acquire migration lock: " ++ e), db1)
  | (none, db1) =>
    ((Runner.loop env r.migrations db1).1,
      Runner.releaseLock env (Runner.loop env r.migrations db1).2)

/-- The change ids of the `Execute` calls, in call order. -/
def executedIds (calls : List MigCall) : List String :=
  calls.filterMap (fun c => match c with
    | MigCall.execute id => some id
    | _ => none)

/-- An environment in which every store call and every `Execute` succeeds, at time `now`. -/
def migEnvOk (now : Time) : MigEnv :=
  { lockErr := none, lockConflict := some "E11000 duplicate key error", nowLocked := now,
    nowExpires := now, nowFilter := now, lookupErr := fun _ => none, execErr := fun _ => none,
    recordErr := fun _ => none, nowRecord := fun _ => now, releaseErr := none }

/-- A database with no lease document and an empty change log. -/
def emptyDb : MigDb := { lock := none, changeLog := [], calls := [] }

/-- A database whose lease is held until time 1000. -/
def heldDb : MigDb :=
  { lock := some { locked := true, lockedAt := 0, expiresAt := 1000 }, changeLog := [],
    calls := [] }

/-- The migrations the loop has to run: those without an `EXECUTED` record. -/
def pending (ms : List Migration) (log : List ChangeRecord) : List Migration :=
  ms.filter (fun m => !hasExecuted m.id log)

/-- Whether the `Execute` of a migration fails. -/
def fails (env : MigEnv) (m : Migration) : Bool :=
  (env.execErr m.id).isSome

/-- The elements of a list up to and including the first that satisfies the predicate. -/
def throughFirst {α : Type} (p : α → Bool) : List α → List α
  | [] => []
  | a :: l => if p a then [a] else a :: throughFirst p l

/-- The first record of a change id in the change log. -/
def findRecord (changeId : String) (log : List ChangeRecord) : Option ChangeRecord :=
  log.find? (fun r => decide (r.changeId = changeId))

/-- The record `recordState` writes for a migration. -/
def recordOf (env : MigEnv) (m : Migration) (state errMsg : String) : ChangeRecord :=
  { changeId := m.id, author := m.author, state := state, executedAt := env.nowRecord m.id,
    order := m.order, error := errMsg }

/-- An environment in which the `Execute` of V002 fails and every store call succeeds. -/
def migEnvFail (now : Time) : MigEnv :=
  { migEnvOk now with
    execErr := fun id => if id = "V002_AddCartIndexes" then some "index build failed" else none }

/-! ## Start-up (`cmd/server/main.go`) -/

/-- The two ways the start-up of `cmd/server/main.go` continues after the migration step:
`logger.Fatal("Migration failed", zap.Error(err))`, which logs and exits the process, or the
rest of `main`, which starts the reconciler and the HTTP server. -/
inductive Startup where
  | fatal (msg : String) (err : Err)
  | serving
  deriving DecidableEq, Repr

/-- The migration step of `main`, with the store connections established. -/
def main (env : MigEnv) (db : MigDb) : Startup × MigDb :=
  match Runner.Run NewRunner env db with
  | (some err, db1) => (Startup.fatal "Migration failed" err, db1)
  | (none, db1) => (Startup.serving, db1)

/-- An environment at time `now` in which the store answers a conditional write that matches
no lease with zero counts; every store call succeeds. -/
def migEnvCounts (now : Time) : MigEnv :=
  { migEnvOk now with lockConflict := none }

/-- An environment in which the change-log lookup of V002 fails. -/
def migEnvLookupFail (now : Time) : MigEnv :=
  { migEnvOk now with
    lookupErr := fun id => if id = "V002_AddCartIndexes" then some "connection reset" else none }

/-! ## Request handlers (`handler/cart_handler.go`) -/

/-- The response wrapper `model.ApiResponse`; `Data` is the cart of a success response. -/
structure ApiResponse (F : Type) where
  Success : Bool
  Message : String
  Data : Option (Cart F)
  Timestamp : Time
  deriving DecidableEq, Repr

/-- The constructor `model.SuccessResponse`, with the reading of the clock. -/
def SuccessResponse {F : Type} (data : Option (Cart F)) (message : String) (now : Time) :
    ApiResponse F :=
  { Success := true, Message := message, Data := data, Timestamp := now }

/-- The constructor `model.ErrorResponse`, with the reading of the clock. -/
def ErrorResponse {F : Type} (message : String) (now : Time) : ApiResponse F :=
  { Success := false, Message := message, Data := none, Timestamp := now }

/-- The constant `http.StatusOK`. -/
def StatusOK : Nat := 200

/-- The constant `http.StatusBadRequest`. -/
def StatusBadRequest : Nat := 400

/-- The constant `http.StatusInternalServerError`. -/
def StatusInternalServerError : Nat := 500

/-- What a handler writes with `c.JSON(code, obj)`. -/
structure Reply (F : Type) where
  code : Nat
  obj : ApiResponse F
  deriving DecidableEq, Repr

/-- Handler `AddItem`; `bound` is the outcome of `c.ShouldBindJSON(&req)`. -/
def CartHandler.AddItem {F : Type} [Float64Arith F] (cfg : Config) (env : Env) (now : Time)
    (userID : String) (bound : Except Err (AddItemRequest F)) (w : World F) :
    Reply F × World F :=
  match bound with
  | .error e =>
    ({ code := StatusBadRequest, obj := ErrorResponse ("Invalid request: " ++ e) now }, w)
  | .ok req =>
    match CartService.AddItem cfg env userID req w with
    | (.error _, w1) =>
      ({ code := StatusInternalServerError, obj := ErrorResponse "Failed to add item to cart" now },
        w1)
    | (.ok cart, w1) =>
      ({ code := StatusOK, obj := SuccessResponse (some cart) "Item added to cart" now }, w1)

/-- Handler `UpdateItemQuantity`; `bound` is the outcome of `c.ShouldBindJSON(&req)`, the
quantity of the request when it succeeds. -/
def CartHandler.UpdateItemQuantity {F : Type} [Float64Arith F] (cfg : Config) (env : Env)
    (now : Time) (userID itemID : String) (bound : Except Err Int) (w : World F) :
    Reply F × World F :=
  match bound with
  | .error _ => ({ code := StatusBadRequest, obj := ErrorResponse "Invalid request" now }, w)
  | .ok quantity =>
    match CartService.UpdateItemQuantity cfg env userID itemID quantity w with
    | (.error e, w1) => ({ code := StatusBadRequest, obj := ErrorResponse e now }, w1)
    | (.ok cart, w1) =>
      ({ code := StatusOK, obj := SuccessResponse (some cart) "Cart updated" now }, w1)

/-- Handler `RemoveItem`. -/
def CartHandler.RemoveItem {F : Type} [Float64Arith F] (cfg : Config) (env : Env)
    (now : Time) (userID itemID : String) (w : World F) : Reply F × World F :=
  match CartService.RemoveItem cfg env userID itemID w with
  | (.error e, w1) => ({ code := StatusBadRequest, obj := ErrorResponse e now }, w1)
  | (.ok cart, w1) =>
    ({ code := StatusOK, obj := SuccessResponse (some cart) "Item removed from cart" now }, w1)

/-- An environment whose durable upsert fails; every other store call succeeds. -/
def envUpsertDown : Env :=
  { exEnv2 with mongoUpsert := some "server selection timeout" }

/-- Whether the cache entry of a listed key is absent when the loop reads it: the user id is
not empty, the read succeeds and there is no entry under the user's key. -/
def absentAtRead {F : Type} (env : SyncEnv) (w : World F) (key : String) : Bool :=
  decide (trimCartKey key ≠ "") && (env.redisGet (trimCartKey key)).isNone &&
    (kvGet (cartKey (trimCartKey key)) w.redis).isNone

/-- The number of keys of the list whose cache entry is absent at read time. -/
def countAbsent {F : Type} (env : SyncEnv) (w : World F) (keys : List String) : Nat :=
  (keys.filter (absentAtRead env w)).length

/-- The cache holds the cart of `u1` only; the durable store holds it too. -/
def exWorldExpired : World Int :=
  { redis := [("cart:u1", { data := { exCart1 with SyncedAt := none }, ttl := 604800 })],
    mongo := exWorld1.mongo, trace := [] }

/-- The cart of `u1` as `GetCart` reads it from the cache of `exWorld1`. -/
def exCartRead : Cart Int :=
  { exCart1 with SyncedAt := none, Source := "redis" }

/-- The items of `exCart1` with the quantity of item `i1` set to 5. -/
def exItemsFive : List (CartItem Int) :=
  [{ ItemID := "i1", ProductID := "p1", ProductName := "Book", Category := "books",
     Price := 40, Quantity := 5, ImageURL := "", AddedAt := 11 }]

/-- A cart of `u1`, as the cache returns it, with two items, each of the largest quantity a Go
`int` holds. -/
def exCartTwoMax : Cart Int :=
  { exCart1 with
    Items := [{ ItemID := "i1", ProductID := "p1", ProductName := "Book", Category := "books",
                Price := 40, Quantity := 9223372036854775807, ImageURL := "", AddedAt := 11 },
              { ItemID := "i2", ProductID := "p2", ProductName := "Course",
                Category := "courses", Price := 60, Quantity := 9223372036854775807,
                ImageURL := "", AddedAt := 11 }],
    SyncedAt := none, Source := "redis" }

/-- The cache holds `exCartTwoMax` for `u1`, the durable store is empty. -/
def exWorldTwoMax : World Int :=
  { redis := [("cart:u1", { data := exCartTwoMax, ttl := 604800 })], mongo := [], trace := [] }

/-- A request for two copies of a third product, `p3`. -/
def exReqC : AddItemRequest Int :=
  { ProductID := "p3", ProductName := "Editor", Category := "software", Price := 10,
    Quantity := 2, ImageURL := "" }

/-- A request for as many copies of product `p1` as a Go `int` holds. -/
def exReqMax : AddItemRequest Int :=
  { ProductID := "p1", ProductName := "Book", Category := "books", Price := 40,
    Quantity := 9223372036854775807, ImageURL := "" }

/-- An environment in which the `Execute` of V002 fails and the write of its record fails too;
every other store call succeeds. -/
def migEnvFailUnrecorded (now : Time) : MigEnv :=
  { migEnvFail now with
    recordErr := fun id =>
      if id = "V002_AddCartIndexes" then some "context deadline exceeded" else none }

/-- An environment in which the release write fails; every other store call succeeds. -/
def migEnvReleaseFail (now : Time) : MigEnv :=
  { migEnvOk now with releaseErr := some "context deadline exceeded" }

/-- A run in which every store call succeeds, with a reading of the clock with nanoseconds. -/
def exSyncEnvNano : SyncEnv :=
  { keysErr := none, redisGet := fun _ => none, mongoUpsert := fun _ => none,
    nowSync := fun _ => exNowNano, newDocID := fun u => "doc-" ++ u }

/-- An environment whose cache write in `saveCart` fails, every other store call succeeding,
and whose clock readings have nanoseconds. -/
def envCacheDownNano : Env :=
  { envCacheDown with nowEmpty := 1700000000000514472, nowItem := 1700000000000614472,
                      nowSave := 1700000000001614472, nowSync := 1700000000002714472 }

/-! # Theorems -/

/-! ## Arithmetic and totals -/

theorem wrapInt64_add_left (a b : Int) : wrapInt64 (wrapInt64 a + b) = wrapInt64 (a + b) := by
  unfold wrapInt64; omega

theorem wrapInt64_of_inInt64 (n : Int) (h : inInt64 n) : wrapInt64 n = n := by
  unfold inInt64 at h; unfold wrapInt64; omega

theorem recalculate_fst_aux {F : Type} [Float64Arith F] (items : List (CartItem F)) (a : Int)
    (b : F) :
    (items.foldl recalcStep (wrapInt64 a, b)).1 = wrapInt64 (a + sumQuantity items) := by
  induction items generalizing a b with
  | nil => simp [sumQuantity]
  | cons it rest ih =>
    simp only [List.foldl_cons, recalcStep, wrapInt64_add_left]
    rw [ih]
    simp [sumQuantity, add_assoc]

theorem recalculate_snd_aux {F : Type} [Float64Arith F] (items : List (CartItem F)) (a : Int)
    (b : F) :
    (items.foldl recalcStep (a, b)).2 =
      (items.map (fun item =>
        Float64Arith.mul item.Price (Float64Arith.ofInt item.Quantity))).foldl
        Float64Arith.add b := by
  induction items generalizing a b with
  | nil => simp
  | cons it rest ih =>
    simp only [List.foldl_cons, List.map_cons]
    rw [← ih (wrapInt64 (a + it.Quantity))]
    rfl

theorem recalculate_fst {F : Type} [Float64Arith F] (items : List (CartItem F)) :
    (recalculate items).1 = wrapInt64 (sumQuantity items) := by
  have h := recalculate_fst_aux items 0 (Float64Arith.zero : F)
  have h0 : wrapInt64 0 = 0 := by decide
  rw [h0] at h
  simpa [recalculate] using h

theorem recalculate_snd {F : Type} [Float64Arith F] (items : List (CartItem F)) :
    (recalculate items).2 = sumPrice items := by
  simpa [recalculate, sumPrice] using recalculate_snd_aux items 0 (Float64Arith.zero : F)

/-! ## The write policy -/

theorem saveCart_ok {F : Type} [Float64Arith F] (cfg : Config) (env : Env) (cart : Cart F)
    (w : World F) (c : Cart F) (w' : World F) (h : saveCart cfg env cart w = (.ok c, w')) :
    c = { cart with UpdatedAt := env.nowSave, TotalItems := (recalculate cart.Items).1,
                    TotalPrice := (recalculate cart.Items).2, SyncedAt := some env.nowSync } ∧
    env.mongoUpsert = none := by
  unfold saveCart mongoUpsertCart at h
  cases hu : env.mongoUpsert with
  | some e => simp [hu] at h
  | none =>
    simp [hu] at h
    exact ⟨h.1.symm, rfl⟩

theorem mutate_eq {F : Type} [Float64Arith F] (cfg : Config) (env : Env) (userID : String)
    (m : Mutation F) (w : World F) :
    mutate cfg env userID m w =
      match GetCart cfg env userID w with
      | (.error e, w1) => (.error e, w1)
      | (.ok cart, w1) =>
        match nextItems env m cart.Items with
        | some items => saveCart cfg env { cart with Items := items } w1
        | none => (.error ("item " ++ m.target ++ " not found in cart"), w1) := by
  cases m with
  | add req =>
    simp only [mutate, AddItem, nextItems]
    split
    · rfl
    · rename_i cart w1 _
      cases addToExisting req.ProductID req.Quantity env.nowItem cart.Items <;> rfl
  | update itemID quantity =>
    simp only [mutate, UpdateItemQuantity, nextItems, Mutation.target]
    split
    · rfl
    · rename_i cart w1 _
      cases (updateLoop itemID quantity cart.Items).1 <;> simp
  | remove itemID =>
    simp only [mutate, RemoveItem, UpdateItemQuantity, nextItems, Mutation.target]
    split
    · rfl
    · rename_i cart w1 _
      cases (updateLoop itemID 0 cart.Items).1 <;> simp

theorem mutate_ok {F : Type} [Float64Arith F] (cfg : Config) (env : Env) (userID : String)
    (m : Mutation F) (w : World F) (c : Cart F) (w' : World F)
    (h : mutate cfg env userID m w = (.ok c, w')) :
    ∃ cart w1 items, GetCart cfg env userID w = (.ok cart, w1) ∧
      nextItems env m cart.Items = some items ∧
      saveCart cfg env { cart with Items := items } w1 = (.ok c, w') := by
  rw [mutate_eq] at h
  split at h
  · simp at h
  · rename_i cart w1 hg
    split at h
    · rename_i items hn
      exact ⟨cart, w1, items, hg, hn, h⟩
    · simp at h

/-! ## C1: the totals after a mutation -/

/-- C1 (amended). Whatever totals the loaded cart carried, the cart a successful `AddItem`,
`UpdateItemQuantity` or `RemoveItem` returns has `TotalItems` equal to the sum of the quantities
of its items wrapped as a Go `int`, which is the sum itself whenever the sum fits a Go `int`,
and `TotalPrice` equal to the sum of price times quantity over its items. -/
theorem mutation_recomputes_totals {F : Type} [Float64Arith F] (cfg : Config) (env : Env)
    (userID : String) (m : Mutation F) (w : World F) (c : Cart F) (w' : World F)
    (h : mutate cfg env userID m w = (.ok c, w')) :
    c.TotalItems = wrapInt64 (sumQuantity c.Items) ∧
    (inInt64 (sumQuantity c.Items) → c.TotalItems = sumQuantity c.Items) ∧
    c.TotalPrice = sumPrice c.Items := by
  obtain ⟨cart, w1, items, _, _, hs⟩ := mutate_ok cfg env userID m w c w' h
  obtain ⟨hc, _⟩ := saveCart_ok cfg env _ w1 c w' hs
  subst hc
  refine ⟨?_, ?_, ?_⟩
  · exact recalculate_fst items
  · intro hr
    show (recalculate items).1 = sumQuantity items
    rw [recalculate_fst, wrapInt64_of_inInt64 _ hr]
  · exact recalculate_snd items

theorem mutation_recomputes_totals_witness :
    mutate exCfg exEnv "u1" (.add exReq) emptyWorld = (.ok exCart1, exWorld1) ∧
    exCart1.TotalItems = wrapInt64 (sumQuantity exCart1.Items) ∧
    (inInt64 (sumQuantity exCart1.Items) → exCart1.TotalItems = sumQuantity exCart1.Items) ∧
    exCart1.TotalPrice = sumPrice exCart1.Items :=
  ⟨by rfl, mutation_recomputes_totals exCfg exEnv "u1" (.add exReq) emptyWorld exCart1 exWorld1
    (by rfl)⟩

/-- C1 (counterexample). The loaded cart has two items, each of quantity 9223372036854775807;
a successful `AddItem` of two copies of a third product returns a cart with the three
quantities, whose sum is 18446744073709551616, and with `TotalItems` 0: the sum wrapped as a
Go `int`. -/
theorem totals_wrap_on_overflow :
    (GetCart exCfg exEnv2 "u1" exWorldTwoMax).1 = .ok exCartTwoMax ∧
    ∃ c, (mutate exCfg exEnv2 "u1" (.add exReqC) exWorldTwoMax).1 = .ok c ∧
      c.Items.map (fun item => item.Quantity) =
        [9223372036854775807, 9223372036854775807, 2] ∧
      sumQuantity c.Items = 18446744073709551616 ∧
      c.TotalItems = 0 ∧
      c.TotalItems ≠ sumQuantity c.Items := by
  refine ⟨by rfl, _, by rfl, by rfl, by rfl, by rfl, by decide⟩

theorem kvGet_kvSet_same {V : Type} (k : String) (v : V) (l : List (String × V)) :
    kvGet k (kvSet k v l) = some v := by
  induction l with
  | nil => simp [kvSet, kvGet]
  | cons p rest ih =>
    obtain ⟨k1, v1⟩ := p
    by_cases hk : k1 = k
    · simp [kvSet, kvGet, hk]
    · simp [kvSet, kvGet, hk, ih]

theorem kvGet_kvSet_other {V : Type} (k k2 : String) (v : V) (l : List (String × V))
    (h : k2 ≠ k) : kvGet k2 (kvSet k v l) = kvGet k2 l := by
  induction l with
  | nil => simp [kvSet, kvGet, Ne.symm h]
  | cons p rest ih =>
    obtain ⟨k1, v1⟩ := p
    by_cases hk : k1 = k
    · subst hk
      simp [kvSet, kvGet, Ne.symm h]
    · by_cases hk2 : k1 = k2
      · subst hk2
        simp [kvSet, kvGet, hk]
      · simp [kvSet, kvGet, hk, hk2, ih]

theorem GetCart_cache_hit {F : Type} [Float64Arith F] (cfg : Config) (env : Env)
    (userID : String) (w : World F) (ent : RedisEntry F) (hf : env.redisGet = none)
    (hc : kvGet (cartKey userID) w.redis = some ent) :
    GetCart cfg env userID w =
      (.ok { ent.data with Source := "redis" }, record (Call.redisGetCart userID) w) := by
  simp [GetCart, redisGetCart, hf, hc]

theorem GetCart_durable_error {F : Type} [Float64Arith F] (cfg : Config) (env : Env)
    (userID : String) (w : World F) (e : Err)
    (hc : env.redisGet ≠ none ∨ kvGet (cartKey userID) w.redis = none)
    (hm : env.mongoGet = some e) :
    GetCart cfg env userID w =
      (.error ("get cart from mongo: " ++ ("mongo get cart: " ++ e)),
        record (Call.mongoGetCart userID) (record (Call.redisGetCart userID) w)) := by
  cases hr : env.redisGet with
  | some e1 => simp [GetCart, redisGetCart, mongoGetCart, hr, hm]
  | none =>
    have hk : kvGet (cartKey userID) w.redis = none := by
      cases hc with
      | inl h => exact absurd hr h
      | inr h => exact h
    simp [GetCart, redisGetCart, mongoGetCart, hr, hm, hk]

theorem GetCart_durable_hit {F : Type} [Float64Arith F] (cfg : Config) (env : Env)
    (userID : String) (w : World F) (d : MongoDoc F)
    (hc : env.redisGet ≠ none ∨ kvGet (cartKey userID) w.redis = none)
    (hm : env.mongoGet = none) (hd : findOne userID w.mongo = some d) :
    GetCart cfg env userID w =
      (.ok { decodeDoc d with Source := "mongodb" },
        (redisSaveCart env.redisWarm { decodeDoc d with Source := "mongodb" } cfg.redisTTL
          (record (Call.mongoGetCart userID) (record (Call.redisGetCart userID) w))).2) := by
  cases hr : env.redisGet with
  | some e1 => simp [GetCart, redisGetCart, mongoGetCart, hr, hm, record, hd]
  | none =>
    have hk : kvGet (cartKey userID) w.redis = none := by
      cases hc with
      | inl h => exact absurd hr h
      | inr h => exact h
    simp [GetCart, redisGetCart, mongoGetCart, hr, hm, hk, record, hd]

theorem GetCart_nowhere {F : Type} [Float64Arith F] (cfg : Config) (env : Env)
    (userID : String) (w : World F)
    (hc : env.redisGet ≠ none ∨ kvGet (cartKey userID) w.redis = none)
    (hm : env.mongoGet = none) (hd : findOne userID w.mongo = none) :
    GetCart cfg env userID w =
      (.ok (newEmptyCart env.nowEmpty userID),
        record (Call.mongoGetCart userID) (record (Call.redisGetCart userID) w)) := by
  cases hr : env.redisGet with
  | some e1 => simp [GetCart, redisGetCart, mongoGetCart, hr, hm, record, hd]
  | none =>
    have hk : kvGet (cartKey userID) w.redis = none := by
      cases hc with
      | inl h => exact absurd hr h
      | inr h => exact h
    simp [GetCart, redisGetCart, mongoGetCart, hr, hm, hk, record, hd]

theorem saveCart_fst {F : Type} [Float64Arith F] (cfg : Config) (env : Env) (cart : Cart F)
    (w : World F) :
    (saveCart cfg env cart w).1 =
      match env.mongoUpsert with
      | some e => .error ("mongo upsert cart: " ++ e)
      | none => .ok (synced env cart) := by
  cases hu : env.mongoUpsert <;> simp [saveCart, mongoUpsertCart, hu, synced, stamped]

theorem saveCart_redis {F : Type} [Float64Arith F] (cfg : Config) (env : Env) (cart : Cart F)
    (w : World F) :
    (saveCart cfg env cart w).2.redis =
      match env.redisSave with
      | some _ => w.redis
      | none => kvSet (cartKey cart.UserID) ⟨stamped env cart, cfg.redisTTL⟩ w.redis := by
  cases hu : env.mongoUpsert <;> cases hr : env.redisSave <;>
    simp [saveCart, mongoUpsertCart, redisSaveCart, record, hu, hr, stamped]

theorem saveCart_mongo {F : Type} [Float64Arith F] (cfg : Config) (env : Env) (cart : Cart F)
    (w : World F) :
    (saveCart cfg env cart w).2.mongo =
      match env.mongoUpsert with
      | some _ => w.mongo
      | none => updateOneUpsert (synced env cart) env.nowSync env.newDocID w.mongo := by
  cases hu : env.mongoUpsert <;> cases hr : env.redisSave <;>
    simp [saveCart, mongoUpsertCart, redisSaveCart, record, hu, hr, stamped, synced]

theorem saveCart_trace {F : Type} [Float64Arith F] (cfg : Config) (env : Env) (cart : Cart F)
    (w : World F) :
    (saveCart cfg env cart w).2.trace =
      w.trace ++ [Call.redisSaveCart cart.UserID cfg.redisTTL,
                  Call.mongoUpsertCart cart.UserID] := by
  cases hu : env.mongoUpsert <;> cases hr : env.redisSave <;>
    simp [saveCart, mongoUpsertCart, redisSaveCart, record, hu, hr]

theorem saveCart_eq_ok {F : Type} [Float64Arith F] (cfg : Config) (env : Env) (cart : Cart F)
    (w : World F) (hu : env.mongoUpsert = none) :
    saveCart cfg env cart w = (.ok (synced env cart), (saveCart cfg env cart w).2) := by
  have h := saveCart_fst cfg env cart w
  rw [hu] at h
  exact Prod.ext h rfl

theorem saveCart_holdsOne {F : Type} [Float64Arith F] (cfg : Config) (env : Env)
    (cart : Cart F) (w : World F) (userID productID : String) (n : Int) (item : CartItem F)
    (hs : env.redisSave = none) (hu : env.mongoUpsert = none) (hid : cart.UserID = userID)
    (hi : cart.Items = [item]) (hp : item.ProductID = productID)
    (hq : item.Quantity = wrapInt64 n) :
    ∃ c w', saveCart cfg env cart w = (.ok c, w') ∧ c.Items = [item] ∧
      holdsOne userID productID n w' := by
  refine ⟨synced env cart, (saveCart cfg env cart w).2, saveCart_eq_ok cfg env cart w hu, hi,
    ⟨stamped env cart, cfg.redisTTL⟩, item, ?_, hid, hi, hp, hq⟩
  rw [saveCart_redis, hs, hid]
  exact kvGet_kvSet_same _ _ _

theorem AddItem_first {F : Type} [Float64Arith F] (cfg : Config) (env : Env) (userID : String)
    (req : AddItemRequest F) (w : World F)
    (hcache : kvGet (cartKey userID) w.redis = none) (hdur : findOne userID w.mongo = none)
    (hok : noFaults env) (hq : inInt64 req.Quantity) :
    ∃ c w' item, AddItem cfg env userID req w = (.ok c, w') ∧ c.Items = [item] ∧
      item.ProductID = req.ProductID ∧ item.Quantity = wrapInt64 req.Quantity ∧
      holdsOne userID req.ProductID req.Quantity w' := by
  obtain ⟨_, h2, _, h4, h5⟩ := hok
  have hg := GetCart_nowhere cfg env userID w (Or.inr hcache) h2 hdur
  have hq' : (newItem env req).Quantity = wrapInt64 req.Quantity :=
    (wrapInt64_of_inInt64 _ hq).symm
  have ha : AddItem cfg env userID req w =
      saveCart cfg env { (newEmptyCart env.nowEmpty userID : Cart F) with
                         Items := [newItem env req] }
        (record (Call.mongoGetCart userID) (record (Call.redisGetCart userID) w)) := by
    simp [AddItem, hg, newEmptyCart, addToExisting]
  obtain ⟨c, w', hs, hi, hold⟩ :=
    saveCart_holdsOne cfg env
      { (newEmptyCart env.nowEmpty userID : Cart F) with Items := [newItem env req] }
      (record (Call.mongoGetCart userID) (record (Call.redisGetCart userID) w))
      userID req.ProductID req.Quantity (newItem env req) h4 h5 rfl rfl rfl hq'
  exact ⟨c, w', newItem env req, ha.trans hs, hi, rfl, hq', hold⟩

theorem AddItem_again {F : Type} [Float64Arith F] (cfg : Config) (env : Env) (userID : String)
    (req : AddItemRequest F) (w : World F) (n : Int)
    (hold : holdsOne userID req.ProductID n w) (hok : noFaults env) :
    ∃ c w' item, AddItem cfg env userID req w = (.ok c, w') ∧ c.Items = [item] ∧
      item.ProductID = req.ProductID ∧ item.Quantity = wrapInt64 (n + req.Quantity) ∧
      holdsOne userID req.ProductID (n + req.Quantity) w' := by
  obtain ⟨h1, _, _, h4, h5⟩ := hok
  obtain ⟨ent, item, hk, hu, hi, hp, hn⟩ := hold
  have hg := GetCart_cache_hit cfg env userID w ent h1 hk
  have hq' : wrapInt64 (item.Quantity + req.Quantity) = wrapInt64 (n + req.Quantity) := by
    rw [hn, wrapInt64_add_left]
  have ha : AddItem cfg env userID req w =
      saveCart cfg env { ent.data with
          Source := "redis",
          Items := [{ item with Quantity := wrapInt64 (item.Quantity + req.Quantity),
                                AddedAt := env.nowItem }] }
        (record (Call.redisGetCart userID) w) := by
    simp [AddItem, hg, hi, addToExisting, hp]
  obtain ⟨c, w', hs, hi', hold'⟩ :=
    saveCart_holdsOne cfg env
      { ent.data with
          Source := "redis",
          Items := [{ item with Quantity := wrapInt64 (item.Quantity + req.Quantity),
                                AddedAt := env.nowItem }] }
      (record (Call.redisGetCart userID) w) userID req.ProductID (n + req.Quantity)
      { item with Quantity := wrapInt64 (item.Quantity + req.Quantity), AddedAt := env.nowItem }
      h4 h5 hu rfl hp hq'
  exact ⟨c, w', _, ha.trans hs, hi', hp, hq', hold'⟩

theorem addSeq_again {F : Type} [Float64Arith F] (cfg : Config) (userID productID : String)
    (rest : List (Env × AddItemRequest F)) :
    ∀ (first : Env × AddItemRequest F) (w : World F) (n : Int),
      holdsOne userID productID n w →
      (∀ p ∈ first :: rest, noFaults p.1) →
      (∀ p ∈ first :: rest, p.2.ProductID = productID) →
      ∃ c w' item, addSeq cfg userID first rest w = (.ok c, w') ∧ c.Items = [item] ∧
        item.ProductID = productID ∧
        item.Quantity = wrapInt64 (n + ((first :: rest).map (fun p => p.2.Quantity)).sum) := by
  induction rest with
  | nil =>
    intro first w n hold hok hpid
    have hp := hpid first (List.mem_cons_self _ _)
    subst hp
    obtain ⟨c, w', item, h, hi, hp, hq, _⟩ :=
      AddItem_again cfg first.1 userID first.2 w n hold (hok first (List.mem_cons_self _ _))
    exact ⟨c, w', item, by simpa [addSeq] using h, hi, hp, by simpa using hq⟩
  | cons next rest ih =>
    intro first w n hold hok hpid
    have hp := hpid first (List.mem_cons_self _ _)
    subst hp
    obtain ⟨c, w', item, h, _, _, _, hold'⟩ :=
      AddItem_again cfg first.1 userID first.2 w n hold (hok first (List.mem_cons_self _ _))
    obtain ⟨c2, w2, item2, h2, hi2, hp2, hq2⟩ :=
      ih next w' (n + first.2.Quantity) hold'
        (fun p hp => hok p (List.mem_cons_of_mem _ hp))
        (fun p hp => hpid p (List.mem_cons_of_mem _ hp))
    refine ⟨c2, w2, item2, ?_, hi2, hp2, ?_⟩
    · simp only [addSeq, h]
      exact h2
    · rw [hq2]
      simp [add_assoc]

/-! ## C2: repeated adds of one product -/

/-- C2 (amended). From a user with no cart in either tier and with every store call succeeding,
after any non-empty sequence of `AddItem` calls for one product the last call returns a cart
with exactly one item, whose quantity is the sum of the requested quantities wrapped as a Go
`int`, which is the sum itself whenever the sum fits a Go `int`. -/
theorem addItem_same_product_accumulates {F : Type} [Float64Arith F] (cfg : Config)
    (userID productID : String) (first : Env × AddItemRequest F)
    (rest : List (Env × AddItemRequest F)) (w : World F)
    (hcache : kvGet (cartKey userID) w.redis = none)
    (hdur : findOne userID w.mongo = none)
    (hok : ∀ p ∈ first :: rest, noFaults p.1)
    (hpid : ∀ p ∈ first :: rest, p.2.ProductID = productID)
    (hint : ∀ p ∈ first :: rest, inInt64 p.2.Quantity) :
    ∃ c w' item, addSeq cfg userID first rest w = (.ok c, w') ∧ c.Items = [item] ∧
      item.ProductID = productID ∧
      item.Quantity = wrapInt64 (((first :: rest).map (fun p => p.2.Quantity)).sum) ∧
      (inInt64 (((first :: rest).map (fun p => p.2.Quantity)).sum) →
        item.Quantity = ((first :: rest).map (fun p => p.2.Quantity)).sum) := by
  have hp := hpid first (List.mem_cons_self _ _)
  subst hp
  obtain ⟨c, w', item, h, hi, hp, hq, hold⟩ :=
    AddItem_first cfg first.1 userID first.2 w hcache hdur (hok first (List.mem_cons_self _ _))
      (hint first (List.mem_cons_self _ _))
  cases rest with
  | nil =>
    refine ⟨c, w', item, by simpa [addSeq] using h, hi, hp, by simpa using hq, ?_⟩
    intro hr
    rw [hq]
    simpa using wrapInt64_of_inInt64 _ (hint first (List.mem_cons_self _ _))
  | cons next rest =>
    obtain ⟨c2, w2, item2, h2, hi2, hp2, hq2⟩ :=
      addSeq_again cfg userID first.2.ProductID rest next w' first.2.Quantity hold
        (fun p hp => hok p (List.mem_cons_of_mem _ hp))
        (fun p hp => hpid p (List.mem_cons_of_mem _ hp))
    have hsum : first.2.Quantity + ((next :: rest).map (fun p => p.2.Quantity)).sum =
        ((first :: next :: rest).map (fun p => p.2.Quantity)).sum := by simp
    rw [hsum] at hq2
    refine ⟨c2, w2, item2, ?_, hi2, hp2, hq2, ?_⟩
    · simp only [addSeq, h]
      exact h2
    · intro hr
      rw [hq2]
      exact wrapInt64_of_inInt64 _ hr

theorem addItem_same_product_accumulates_witness :
    (∀ p ∈ [(exEnv, exReq), (exEnv2, exReq2)], noFaults p.1) ∧
    ∃ c w' item, addSeq exCfg "u1" (exEnv, exReq) [(exEnv2, exReq2)] emptyWorld = (.ok c, w') ∧
      c.Items = [item] ∧ item.ProductID = "p1" ∧
      item.Quantity = wrapInt64 (([(exEnv, exReq), (exEnv2, exReq2)].map
        (fun p => p.2.Quantity)).sum) ∧
      (inInt64 (([(exEnv, exReq), (exEnv2, exReq2)].map (fun p => p.2.Quantity)).sum) →
        item.Quantity = ([(exEnv, exReq), (exEnv2, exReq2)].map (fun p => p.2.Quantity)).sum) :=
  ⟨by decide, addItem_same_product_accumulates exCfg "u1" "p1" (exEnv, exReq) [(exEnv2, exReq2)]
    emptyWorld rfl rfl (by decide) (by decide) (by decide)⟩

/-- C2 (counterexample). From a user with no cart in either tier and with every store call
succeeding, an `AddItem` of 9223372036854775807 copies of `p1` followed by an `AddItem` of one
more copy returns a cart with one item, whose quantity is -9223372036854775808 and not the sum
of the requested quantities, 9223372036854775808. -/
theorem accumulated_quantity_wraps :
    kvGet (cartKey "u1") emptyWorld.redis = none ∧
    findOne "u1" emptyWorld.mongo = none ∧
    (∀ p ∈ [(exEnv, exReqMax), (exEnv2, exReq)], noFaults p.1 ∧ p.2.ProductID = "p1" ∧
      inInt64 p.2.Quantity) ∧
    ([(exEnv, exReqMax), (exEnv2, exReq)].map (fun p => p.2.Quantity)).sum =
      9223372036854775808 ∧
    ∃ c item, (addSeq exCfg "u1" (exEnv, exReqMax) [(exEnv2, exReq)] emptyWorld).1 = .ok c ∧
      c.Items = [item] ∧ item.Quantity = -9223372036854775808 ∧
      item.Quantity ≠ ([(exEnv, exReqMax), (exEnv2, exReq)].map (fun p => p.2.Quantity)).sum := by
  refine ⟨by rfl, by rfl, by decide, by rfl, _, _, by rfl, by rfl, by rfl, by decide⟩

theorem cartKey_injective (a b : String) (h : cartKey a = cartKey b) : a = b := by
  have h1 : (cartKey a).data = (cartKey b).data := by rw [h]
  simp only [cartKey, String.data_append] at h1
  exact String.ext (List.append_cancel_left h1)

theorem kvGet_mem {V : Type} (k : String) (v : V) (l : List (String × V))
    (h : kvGet k l = some v) : (k, v) ∈ l := by
  induction l with
  | nil => simp [kvGet] at h
  | cons p rest ih =>
    obtain ⟨k1, v1⟩ := p
    by_cases hk : k1 = k
    · simp [kvGet, hk] at h
      simp [hk, h]
    · simp [kvGet, hk] at h
      exact List.mem_cons_of_mem _ (ih h)

theorem findOne_user {F : Type} (userID : String) (docs : List (MongoDoc F)) (d : MongoDoc F)
    (h : findOne userID docs = some d) : d.user_id = userID := by
  induction docs with
  | nil => simp [findOne] at h
  | cons d1 rest ih =>
    by_cases hk : d1.user_id = userID
    · simp [findOne, hk] at h
      rw [← h]; exact hk
    · simp [findOne, hk] at h
      exact ih h

theorem findOne_updateOneUpsert {F : Type} (cart : Cart F) (now : Time) (newDocID : String)
    (docs : List (MongoDoc F)) :
    ∃ d, findOne cart.UserID (updateOneUpsert cart now newDocID docs) = some d ∧
      d.items = cart.Items.map storeItem ∧ d.total_items = cart.TotalItems ∧
      d.total_price = cart.TotalPrice ∧ d.updated_at = truncMs cart.UpdatedAt := by
  induction docs with
  | nil => exact ⟨insertDoc cart now newDocID, by simp [updateOneUpsert, findOne, insertDoc],
      rfl, rfl, rfl, rfl⟩
  | cons d1 rest ih =>
    by_cases hk : d1.user_id = cart.UserID
    · exact ⟨applySet cart now d1, by simp [updateOneUpsert, findOne, hk, applySet],
        rfl, rfl, rfl, rfl⟩
    · obtain ⟨d, hd, h⟩ := ih
      exact ⟨d, by simp [updateOneUpsert, findOne, hk, hd], h⟩

/-- What `GetCart` can return and what it does to the world, case by case. -/
theorem GetCart_cases {F : Type} [Float64Arith F] (cfg : Config) (env : Env) (userID : String)
    (w : World F) :
    (∃ ent, env.redisGet = none ∧ kvGet (cartKey userID) w.redis = some ent ∧
      GetCart cfg env userID w =
        (.ok { ent.data with Source := "redis" }, record (Call.redisGetCart userID) w)) ∨
    ((env.redisGet ≠ none ∨ kvGet (cartKey userID) w.redis = none) ∧
      ((∃ e, env.mongoGet = some e ∧
          GetCart cfg env userID w =
            (.error ("get cart from mongo: " ++ ("mongo get cart: " ++ e)),
              record (Call.mongoGetCart userID) (record (Call.redisGetCart userID) w))) ∨
       (∃ d, env.mongoGet = none ∧ findOne userID w.mongo = some d ∧
          GetCart cfg env userID w =
            (.ok { decodeDoc d with Source := "mongodb" },
              (redisSaveCart env.redisWarm { decodeDoc d with Source := "mongodb" }
                cfg.redisTTL
                (record (Call.mongoGetCart userID) (record (Call.redisGetCart userID) w))).2)) ∨
       (env.mongoGet = none ∧ findOne userID w.mongo = none ∧
          GetCart cfg env userID w =
            (.ok (newEmptyCart env.nowEmpty userID),
              record (Call.mongoGetCart userID) (record (Call.redisGetCart userID) w))))) := by
  by_cases hc : env.redisGet = none ∧ ∃ ent, kvGet (cartKey userID) w.redis = some ent
  · obtain ⟨hf, ent, hk⟩ := hc
    exact Or.inl ⟨ent, hf, hk, GetCart_cache_hit cfg env userID w ent hf hk⟩
  · have hc' : env.redisGet ≠ none ∨ kvGet (cartKey userID) w.redis = none := by
      by_cases hf : env.redisGet = none
      · right
        cases hk : kvGet (cartKey userID) w.redis with
        | none => rfl
        | some ent => exact absurd ⟨hf, ent, hk⟩ hc
      · exact Or.inl hf
    refine Or.inr ⟨hc', ?_⟩
    cases hm : env.mongoGet with
    | some e => exact Or.inl ⟨e, rfl, GetCart_durable_error cfg env userID w e hc' hm⟩
    | none =>
      cases hd : findOne userID w.mongo with
      | some d => exact Or.inr (Or.inl ⟨d, rfl, rfl, GetCart_durable_hit cfg env userID w d hc' hm hd⟩)
      | none => exact Or.inr (Or.inr ⟨rfl, rfl, GetCart_nowhere cfg env userID w hc' hm hd⟩)

/-- In a world whose cache is keyed by user, the cart `GetCart` loads names the user asked for. -/
theorem GetCart_userID {F : Type} [Float64Arith F] (cfg : Config) (env : Env) (userID : String)
    (w : World F) (cart : Cart F) (w1 : World F) (hwf : cacheKeyed w)
    (hg : GetCart cfg env userID w = (.ok cart, w1)) : cart.UserID = userID := by
  rcases GetCart_cases cfg env userID w with ⟨ent, _, hk, h⟩ | ⟨_, ⟨e, _, h⟩ | ⟨d, _, hd, h⟩ | ⟨_, _, h⟩⟩
  · rw [h] at hg
    have hmem := hwf _ (kvGet_mem _ _ _ hk)
    have := cartKey_injective _ _ hmem
    simp only [Prod.mk.injEq, Except.ok.injEq] at hg
    rw [← hg.1]
    exact this.symm
  · rw [h] at hg; simp at hg
  · rw [h] at hg
    simp only [Prod.mk.injEq, Except.ok.injEq] at hg
    rw [← hg.1]
    exact findOne_user _ _ _ hd
  · rw [h] at hg
    simp only [Prod.mk.injEq, Except.ok.injEq] at hg
    rw [← hg.1]
    rfl

theorem saveCart_findOne {F : Type} [Float64Arith F] (cfg : Config) (env : Env)
    (cart : Cart F) (w : World F) (hu : env.mongoUpsert = none) :
    ∃ d, findOne cart.UserID (saveCart cfg env cart w).2.mongo = some d ∧
      d.items = cart.Items.map storeItem := by
  obtain ⟨d, hd, hi, _⟩ :=
    findOne_updateOneUpsert (synced env cart) env.nowSync env.newDocID w.mongo
  refine ⟨d, ?_, hi⟩
  rw [saveCart_mongo]
  simp only [hu]
  exact hd

theorem saveCart_kvGet {F : Type} [Float64Arith F] (cfg : Config) (env : Env)
    (cart : Cart F) (w : World F) (hs : env.redisSave = none) :
    kvGet (cartKey cart.UserID) (saveCart cfg env cart w).2.redis =
      some ⟨stamped env cart, cfg.redisTTL⟩ := by
  rw [saveCart_redis]
  simp only [hs]
  exact kvGet_kvSet_same _ _ _

/-! ## C3: the read after a mutation -/

/-- C3 (amended). After a successful mutation, in a world whose cache is keyed by user, the next
`GetCart` of that user that returns a cart returns the items the mutation returned when the
mutation wrote the cache and the cache read succeeds; when the cache read fails or the cache
holds no entry for the user, the durable copy answers, and the items are those the mutation
returned with `AddedAt` as the durable store holds it, truncated to the millisecond; when the
cache write failed and the cache still holds an entry, a successful cache read returns the
items of that entry instead. -/
theorem next_read_after_mutation {F : Type} [Float64Arith F] (cfg : Config) (env env2 : Env)
    (userID : String) (m : Mutation F) (w : World F) (c : Cart F) (w' : World F) (c2 : Cart F)
    (w2 : World F) (hwf : cacheKeyed w)
    (hm : mutate cfg env userID m w = (.ok c, w'))
    (hg : GetCart cfg env2 userID w' = (.ok c2, w2)) :
    (env.redisSave = none → env2.redisGet = none → c2.Items = c.Items) ∧
    ((env2.redisGet ≠ none ∨ kvGet (cartKey userID) w'.redis = none) →
      c2.Items = c.Items.map storeItem) ∧
    (env.redisSave ≠ none → env2.redisGet = none →
      ∀ ent, kvGet (cartKey userID) w'.redis = some ent → c2.Items = ent.data.Items) := by
  obtain ⟨cart, w1, items, hg1, _, hs⟩ := mutate_ok cfg env userID m w c w' hm
  have hid : cart.UserID = userID := GetCart_userID cfg env userID w cart w1 hwf hg1
  obtain ⟨hc, hu⟩ := saveCart_ok cfg env _ w1 c w' hs
  have hw' : (saveCart cfg env { cart with Items := items } w1).2 = w' := by rw [hs]
  have hci : c.Items = items := by rw [hc]
  have hdur := saveCart_findOne cfg env { cart with Items := items } w1 hu
  rw [hw'] at hdur
  simp only [hid] at hdur
  obtain ⟨d0, hd0, hdi⟩ := hdur
  rcases GetCart_cases cfg env2 userID w' with
    ⟨ent, hf, hk, h⟩ | ⟨hno, ⟨e, _, h⟩ | ⟨d, _, hd, h⟩ | ⟨_, hd, h⟩⟩
  · rw [h] at hg
    simp only [Prod.mk.injEq, Except.ok.injEq] at hg
    have hc2 : c2.Items = ent.data.Items := by rw [← hg.1]
    refine ⟨?_, ?_, ?_⟩
    · intro hsave _
      have hcache := saveCart_kvGet cfg env { cart with Items := items } w1 hsave
      rw [hw'] at hcache
      simp only [hid] at hcache
      rw [hcache] at hk
      simp only [Option.some.injEq] at hk
      rw [hc2, ← hk, hci]
      rfl
    · intro hdurable
      rcases hdurable with hget | hnone
      · exact absurd hf hget
      · rw [hnone] at hk; simp at hk
    · intro _ _ ent2 hk2
      rw [hk] at hk2
      simp only [Option.some.injEq] at hk2
      rw [hc2, hk2]
  · rw [h] at hg; simp at hg
  · rw [h] at hg
    simp only [Prod.mk.injEq, Except.ok.injEq] at hg
    have hc2 : c2.Items = d.items := by rw [← hg.1]; rfl
    rw [hd0] at hd
    simp only [Option.some.injEq] at hd
    refine ⟨?_, ?_, ?_⟩
    · intro hsave hget
      rcases hno with h1 | h1
      · exact absurd hget h1
      · have hcache := saveCart_kvGet cfg env { cart with Items := items } w1 hsave
        rw [hw'] at hcache
        simp only [hid] at hcache
        rw [hcache] at h1
        simp at h1
    · intro _
      rw [hc2, ← hd, hdi, hci]
    · intro _ hget ent hk
      rcases hno with h1 | h1
      · exact absurd hget h1
      · rw [h1] at hk; simp at hk
  · rw [hd0] at hd
    simp at hd

/-- C3 (counterexample). The cache holds the cart of `u1` with one item; an `AddItem` of another
product succeeds although its cache write fails, and returns two items; the next `GetCart`, with
every store call succeeding, returns the one item of the stale cache entry. And from a user
with no cart in either tier, an `AddItem` whose cache write fails returns an item with the
`AddedAt` read from the clock, nanoseconds included; the next `GetCart` is answered by the
durable copy and returns the item with `AddedAt` truncated to the millisecond: not the items
the mutation returned. -/
theorem stale_read_after_cache_write_failure :
    (mutate exCfg envCacheDown "u1" (.add exReqB) exWorld1).1 = .ok exCart2 ∧
    (GetCart exCfg exEnv3 "u1" (mutate exCfg envCacheDown "u1" (.add exReqB) exWorld1).2).1 =
      .ok { exCart1 with SyncedAt := none, Source := "redis" } ∧
    ({ exCart1 with SyncedAt := none, Source := "redis" } : Cart Int).Items ≠ exCart2.Items ∧
    ∃ c c2, (mutate exCfg envCacheDownNano "u1" (.add exReq) emptyWorld).1 = .ok c ∧
      (GetCart exCfg exEnv3 "u1"
        (mutate exCfg envCacheDownNano "u1" (.add exReq) emptyWorld).2).1 = .ok c2 ∧
      c.Items.map (fun item => item.AddedAt) = [1700000000000614472] ∧
      c2.Items.map (fun item => item.AddedAt) = [1700000000000000000] ∧
      c2.Items ≠ c.Items := by
  refine ⟨by rfl, by rfl, by decide, _, _, by rfl, by rfl, by rfl, by rfl, by decide⟩

theorem kvSet_mem {V : Type} (k : String) (v : V) (l : List (String × V)) (p : String × V)
    (h : p ∈ kvSet k v l) : p ∈ l ∨ p = (k, v) := by
  induction l with
  | nil => simp [kvSet] at h; exact Or.inr h
  | cons q rest ih =>
    obtain ⟨k1, v1⟩ := q
    by_cases hk : k1 = k
    · simp only [kvSet, hk, if_true, List.mem_cons] at h
      rcases h with h | h
      · exact Or.inr h
      · exact Or.inl (List.mem_cons_of_mem _ h)
    · simp only [kvSet, hk, if_false, List.mem_cons] at h
      rcases h with h | h
      · exact Or.inl (by rw [h]; exact List.mem_cons_self _ _)
      · rcases ih h with h1 | h1
        · exact Or.inl (List.mem_cons_of_mem _ h1)
        · exact Or.inr h1

theorem cacheKeyed_redisSaveCart {F : Type} (fault : Option Err) (cart : Cart F) (ttl : Nat)
    (w : World F) (hwf : cacheKeyed w) : cacheKeyed (redisSaveCart fault cart ttl w).2 := by
  cases fault with
  | some e => exact hwf
  | none =>
    intro p hp
    simp only [redisSaveCart, record] at hp
    rcases kvSet_mem _ _ _ _ hp with h | h
    · exact hwf p h
    · rw [h]

theorem cacheKeyed_GetCart {F : Type} [Float64Arith F] (cfg : Config) (env : Env)
    (userID : String) (w : World F) (hwf : cacheKeyed w) :
    cacheKeyed (GetCart cfg env userID w).2 := by
  rcases GetCart_cases cfg env userID w with
    ⟨ent, _, _, h⟩ | ⟨_, ⟨e, _, h⟩ | ⟨d, _, _, h⟩ | ⟨_, _, h⟩⟩
  · rw [h]; exact hwf
  · rw [h]; exact hwf
  · rw [h]; exact cacheKeyed_redisSaveCart _ _ _ _ hwf
  · rw [h]; exact hwf

theorem cacheKeyed_saveCart {F : Type} [Float64Arith F] (cfg : Config) (env : Env)
    (cart : Cart F) (w : World F) (hwf : cacheKeyed w) :
    cacheKeyed (saveCart cfg env cart w).2 := by
  intro p hp
  rw [saveCart_redis] at hp
  cases hs : env.redisSave with
  | some e => rw [hs] at hp; exact hwf p hp
  | none =>
    rw [hs] at hp
    rcases kvSet_mem _ _ _ _ hp with h | h
    · exact hwf p h
    · rw [h]; rfl

/-- The cache stays keyed by user through every mutation. -/
theorem cacheKeyed_mutate {F : Type} [Float64Arith F] (cfg : Config) (env : Env)
    (userID : String) (m : Mutation F) (w : World F) (hwf : cacheKeyed w) :
    cacheKeyed (mutate cfg env userID m w).2 := by
  have hg := cacheKeyed_GetCart cfg env userID w hwf
  rw [mutate_eq]
  split
  · rename_i e w1 he
    rw [he] at hg; exact hg
  · rename_i cart w1 he
    rw [he] at hg
    split
    · exact cacheKeyed_saveCart cfg env _ w1 hg
    · exact hg

theorem next_read_after_mutation_witness :
    cacheKeyed emptyWorld ∧
    envCacheDown.redisSave ≠ none ∧
    (mutate exCfg envCacheDown "u1" (.add exReq) emptyWorld).1 = .ok exCart1b ∧
    (GetCart exCfg exEnv3 "u1" (mutate exCfg envCacheDown "u1" (.add exReq) emptyWorld).2).1 =
      .ok exCart1c ∧
    exCart1c.Items = exCart1b.Items.map storeItem :=
  ⟨by decide, by decide, by rfl, by rfl,
    (next_read_after_mutation exCfg envCacheDown exEnv3 "u1" (.add exReq) emptyWorld exCart1b
      (mutate exCfg envCacheDown "u1" (.add exReq) emptyWorld).2 exCart1c
      (GetCart exCfg exEnv3 "u1" (mutate exCfg envCacheDown "u1" (.add exReq) emptyWorld).2).2
      (by decide) (by rfl) (by rfl)).2.1 (Or.inr (by rfl))⟩

theorem updateLoop_aux {F : Type} (itemID : String) (quantity : Int)
    (items : List (CartItem F)) (found : Bool) (acc : List (CartItem F)) :
    items.foldl (updateStep itemID quantity) (found, acc) =
      (found || items.any (fun item => decide (item.ItemID = itemID)),
       acc ++ items.filterMap (updateItem itemID quantity)) := by
  induction items generalizing found acc with
  | nil => simp
  | cons item rest ih =>
    simp only [List.foldl_cons, List.any_cons, List.filterMap_cons]
    by_cases hid : item.ItemID = itemID
    · by_cases hq : quantity > 0
      · simp [updateStep, updateItem, hid, hq, ih]
      · simp [updateStep, updateItem, hid, hq, ih]
    · simp [updateStep, updateItem, hid, ih]

theorem updateLoop_found {F : Type} (itemID : String) (quantity : Int)
    (items : List (CartItem F)) :
    (updateLoop itemID quantity items).1 = items.any (fun item => decide (item.ItemID = itemID)) := by
  simp [updateLoop, updateLoop_aux]

theorem updateLoop_items {F : Type} (itemID : String) (quantity : Int)
    (items : List (CartItem F)) :
    (updateLoop itemID quantity items).2 = items.filterMap (updateItem itemID quantity) := by
  simp [updateLoop, updateLoop_aux]

theorem updateLoop_unknown {F : Type} (itemID : String) (quantity : Int)
    (items : List (CartItem F)) (hno : ∀ item ∈ items, item.ItemID ≠ itemID) :
    (updateLoop itemID quantity items).1 = false := by
  rw [updateLoop_found]
  simpa using hno

theorem updateLoop_known {F : Type} (itemID : String) (quantity : Int)
    (items : List (CartItem F)) (hin : ∃ item ∈ items, item.ItemID = itemID) :
    (updateLoop itemID quantity items).1 = true := by
  rw [updateLoop_found]
  simpa using hin

theorem notFound_containsText (itemID : String) :
    containsText ("item " ++ itemID ++ " not found in cart") "not found" := by
  refine ⟨("item " ++ itemID ++ " ").data, " in cart".data, ?_⟩
  simp only [String.data_append]
  rw [List.append_assoc, List.append_assoc, List.append_assoc]
  rfl

/-- What `GetCart` does to the two stores: the durable store is never written, and the cache is
written only to warm it with the cart the durable store returned. -/
theorem GetCart_stores {F : Type} [Float64Arith F] (cfg : Config) (env : Env) (userID : String)
    (w : World F) :
    (GetCart cfg env userID w).2.mongo = w.mongo ∧
    ((GetCart cfg env userID w).2.redis = w.redis ∨
      ∃ d, findOne userID w.mongo = some d ∧ env.redisWarm = none ∧
        (env.redisGet ≠ none ∨ kvGet (cartKey userID) w.redis = none) ∧
        (GetCart cfg env userID w).1 = .ok { decodeDoc d with Source := "mongodb" } ∧
        (GetCart cfg env userID w).2.redis =
          kvSet (cartKey userID) ⟨{ decodeDoc d with Source := "mongodb" }, cfg.redisTTL⟩
            w.redis) ∧
    ∀ u, Call.mongoUpsertCart u ∉ (GetCart cfg env userID w).2.trace.drop w.trace.length := by
  rcases GetCart_cases cfg env userID w with
    ⟨ent, _, _, h⟩ | ⟨hno, ⟨e, _, h⟩ | ⟨d, _, hd, h⟩ | ⟨_, _, h⟩⟩
  · rw [h]; simp [record]
  · rw [h]; simp [record]
  · rw [h]
    have hu := findOne_user _ _ _ hd
    cases hw : env.redisWarm with
    | some e => simp [redisSaveCart, record]
    | none =>
      refine ⟨by simp [redisSaveCart, record], Or.inr ⟨d, hd, rfl, hno, rfl, ?_⟩, ?_⟩
      · simp [redisSaveCart, record, decodeDoc, hu]
      · simp [redisSaveCart, record]
  · rw [h]; simp [record]

/-! ## C4: update and remove of an unknown item -/

/-- C4 (amended). When the loaded cart has no item with the given id, `UpdateItemQuantity` and
`RemoveItem` return the error `item <id> not found in cart`, whose message contains
`not found`, and leave the world as `GetCart` left it: `saveCart` is not reached, so the durable
store is not written and no upsert is called; the cache is either untouched or holds, as its
only change, the warm-up copy of the cart that `GetCart` loaded from the durable store. -/
theorem unknown_item_is_not_found {F : Type} [Float64Arith F] (cfg : Config) (env : Env)
    (userID itemID : String) (quantity : Int) (w : World F) (cart : Cart F) (w1 : World F)
    (hg : GetCart cfg env userID w = (.ok cart, w1))
    (hno : ∀ item ∈ cart.Items, item.ItemID ≠ itemID) :
    UpdateItemQuantity cfg env userID itemID quantity w =
      (.error ("item " ++ itemID ++ " not found in cart"), w1) ∧
    RemoveItem cfg env userID itemID w =
      (.error ("item " ++ itemID ++ " not found in cart"), w1) ∧
    containsText ("item " ++ itemID ++ " not found in cart") "not found" ∧
    w1.mongo = w.mongo ∧
    (∀ u, Call.mongoUpsertCart u ∉ w1.trace.drop w.trace.length) ∧
    (w1.redis = w.redis ∨
      (cart.Source = "mongodb" ∧
        w1.redis = kvSet (cartKey userID) ⟨cart, cfg.redisTTL⟩ w.redis)) := by
  have hst := GetCart_stores cfg env userID w
  rw [hg] at hst
  obtain ⟨hmongo, hredis, htrace⟩ := hst
  refine ⟨?_, ?_, notFound_containsText itemID, hmongo, htrace, ?_⟩
  · simp [UpdateItemQuantity, hg, updateLoop_unknown itemID quantity cart.Items hno]
  · simp [RemoveItem, UpdateItemQuantity, hg, updateLoop_unknown itemID 0 cart.Items hno]
  · rcases hredis with h | ⟨d, _, _, _, hc, hr⟩
    · exact Or.inl h
    · simp only [Except.ok.injEq] at hc
      right
      rw [hc]
      exact ⟨rfl, hr⟩

theorem unknown_item_is_not_found_witness :
    GetCart exCfg exEnv2 "u1" exWorld1 =
      (.ok { exCart1 with SyncedAt := none, Source := "redis" },
        record (Call.redisGetCart "u1") exWorld1) ∧
    RemoveItem exCfg exEnv2 "u1" "nope" exWorld1 =
      (.error "item nope not found in cart", record (Call.redisGetCart "u1") exWorld1) :=
  ⟨by rfl,
    (unknown_item_is_not_found exCfg exEnv2 "u1" "nope" 0 exWorld1
      { exCart1 with SyncedAt := none, Source := "redis" }
      (record (Call.redisGetCart "u1") exWorld1) (by rfl) (by decide)).2.1⟩

/-- C4 (counterexample). The cart of `u1` is in the durable store only and has no item `nope`:
`RemoveItem` fails with not-found, yet the cache, empty before, holds the cart afterwards,
written by the warm-up of `GetCart`. -/
theorem unknown_item_warms_cache :
    (∀ item ∈ exCartDurable.Items, item.ItemID ≠ "nope") ∧
    (GetCart exCfg exEnv2 "u1" exWorldDurable).1 =
      .ok exCartDurable ∧
    (RemoveItem exCfg exEnv2 "u1" "nope" exWorldDurable).1 =
      .error "item nope not found in cart" ∧
    exWorldDurable.redis = [] ∧
    (RemoveItem exCfg exEnv2 "u1" "nope" exWorldDurable).2.redis =
      [("cart:u1", ⟨exCartDurable, 604800⟩)] ∧
    (RemoveItem exCfg exEnv2 "u1" "nope" exWorldDurable).2.trace =
      [Call.redisGetCart "u1", Call.mongoGetCart "u1", Call.redisSaveCart "u1" 604800] := by
  refine ⟨by decide, by rfl, by rfl, by rfl, by rfl, by rfl⟩

theorem redisGetCart_none_iff {F : Type} (fault : Option Err) (userID : String) (w : World F) :
    (∀ c, (redisGetCart fault userID w).1 ≠ .ok (some c)) ↔
      (fault ≠ none ∨ kvGet (cartKey userID) w.redis = none) := by
  cases fault with
  | some e => simp [redisGetCart]
  | none =>
    cases hk : kvGet (cartKey userID) w.redis with
    | none => simp [redisGetCart, hk]
    | some ent => simp [redisGetCart, hk]

theorem mongoGetCart_error_iff {F : Type} (fault : Option Err) (userID : String) (w : World F) :
    (∃ e, (mongoGetCart fault userID w).1 = .error e) ↔ fault ≠ none := by
  cases fault with
  | some e => simp [mongoGetCart]
  | none =>
    cases hd : findOne userID w.mongo with
    | none => simp [mongoGetCart, hd]
    | some d => simp [mongoGetCart, hd]

/-! ## C5: when GetCart fails -/

/-- C5. `GetCart` returns an error exactly when the cache repository yielded no cart (a miss or
an error) and the durable lookup returned an error; when the durable lookup does not fail,
`GetCart` succeeds whatever the cache read and the warm-up write did. -/
theorem getCart_error_iff {F : Type} [Float64Arith F] (cfg : Config) (env : Env)
    (userID : String) (w : World F) :
    ((∃ e, (GetCart cfg env userID w).1 = .error e) ↔
      ((∀ c, (redisGetCart env.redisGet userID w).1 ≠ .ok (some c)) ∧
       ∃ e, (mongoGetCart env.mongoGet userID (redisGetCart env.redisGet userID w).2).1 =
          .error e)) ∧
    (env.mongoGet = none → ∃ c, (GetCart cfg env userID w).1 = .ok c) := by
  rw [redisGetCart_none_iff, mongoGetCart_error_iff]
  rcases GetCart_cases cfg env userID w with
    ⟨ent, hf, hk, h⟩ | ⟨hno, ⟨e, hm, h⟩ | ⟨d, hm, _, h⟩ | ⟨hm, _, h⟩⟩
  · rw [h]
    simp [hf, hk]
  · rw [h]
    simp [hm, hno]
  · rw [h]
    simp [hm]
  · rw [h]
    simp [hm]

/-! ## C6: a cache hit -/

/-- C6. When the cache repository returns a cart, `GetCart` returns exactly that cart, which the
repository tagged `redis`, without error; the only repository call is that cache read: the
durable store is not called and neither store changes. -/
theorem getCart_cache_hit_reads_only_cache {F : Type} [Float64Arith F] (cfg : Config)
    (env : Env) (userID : String) (w : World F) (cart : Cart F) (w1 : World F)
    (h : redisGetCart env.redisGet userID w = (.ok (some cart), w1)) :
    GetCart cfg env userID w = (.ok cart, w1) ∧ cart.Source = "redis" ∧
    w1.trace = w.trace ++ [Call.redisGetCart userID] ∧
    w1.redis = w.redis ∧ w1.mongo = w.mongo := by
  have hg : GetCart cfg env userID w = (.ok cart, w1) := by
    simp [GetCart, h]
  refine ⟨hg, ?_⟩
  cases hf : env.redisGet with
  | some e => simp [redisGetCart, hf] at h
  | none =>
    cases hk : kvGet (cartKey userID) w.redis with
    | none => simp [redisGetCart, hf, hk] at h
    | some ent =>
      simp only [redisGetCart, hf, hk, Prod.mk.injEq, Except.ok.injEq, Option.some.injEq] at h
      obtain ⟨hc, hw⟩ := h
      subst hc hw
      simp [record]

theorem getCart_cache_hit_reads_only_cache_witness :
    GetCart exCfg exEnv2 "u1" exWorld1 =
      (.ok { exCart1 with SyncedAt := none, Source := "redis" },
        record (Call.redisGetCart "u1") exWorld1) ∧
    (record (Call.redisGetCart "u1") exWorld1).mongo = exWorld1.mongo :=
  ⟨(getCart_cache_hit_reads_only_cache exCfg exEnv2 "u1" exWorld1
      { exCart1 with SyncedAt := none, Source := "redis" }
      (record (Call.redisGetCart "u1") exWorld1) (by rfl)).1,
   (getCart_cache_hit_reads_only_cache exCfg exEnv2 "u1" exWorld1
      { exCart1 with SyncedAt := none, Source := "redis" }
      (record (Call.redisGetCart "u1") exWorld1) (by rfl)).2.2.2.2⟩

/-! ## C7: a cache miss with a durable hit -/

/-- C7. When the cache has no entry for the user and the durable store returns a document,
`GetCart` returns that cart with origin `mongodb` and calls the cache write for it with the
configured TTL; when that write succeeds the cache holds the cart under the user's key with that
TTL, and a following `GetCart` whose cache read succeeds returns it with origin `redis` and the
same items, its only repository call being the cache read. -/
theorem getCart_durable_hit_warms_cache {F : Type} [Float64Arith F] (cfg : Config) (env : Env)
    (userID : String) (w : World F) (d : MongoDoc F)
    (hmiss : kvGet (cartKey userID) w.redis = none)
    (hm : env.mongoGet = none) (hd : findOne userID w.mongo = some d) :
    ∃ c w', GetCart cfg env userID w = (.ok c, w') ∧
      c = { decodeDoc d with Source := "mongodb" } ∧
      w'.trace = w.trace ++ [Call.redisGetCart userID, Call.mongoGetCart userID,
                            Call.redisSaveCart userID cfg.redisTTL] ∧
      w'.mongo = w.mongo ∧
      (env.redisWarm = none →
        kvGet (cartKey userID) w'.redis = some ⟨c, cfg.redisTTL⟩ ∧
        ∀ env2 : Env, env2.redisGet = none →
          ∃ c2 w2, GetCart cfg env2 userID w' = (.ok c2, w2) ∧ c2.Source = "redis" ∧
            c2.Items = c.Items ∧ c2 = { c with Source := "redis" } ∧
            w2.trace = w'.trace ++ [Call.redisGetCart userID] ∧
            w2.redis = w'.redis ∧ w2.mongo = w'.mongo) := by
  have hg := GetCart_durable_hit cfg env userID w d (Or.inr hmiss) hm hd
  have hu := findOne_user _ _ _ hd
  refine ⟨_, _, hg, rfl, ?_, ?_, ?_⟩
  · cases env.redisWarm <;> simp [redisSaveCart, record, decodeDoc, hu]
  · cases env.redisWarm <;> simp [redisSaveCart, record]
  · intro hw
    have hk : kvGet (cartKey userID)
        (redisSaveCart env.redisWarm ({ decodeDoc d with Source := "mongodb" } : Cart F)
          cfg.redisTTL
          (record (Call.mongoGetCart userID) (record (Call.redisGetCart userID) w))).2.redis =
        some ⟨{ decodeDoc d with Source := "mongodb" }, cfg.redisTTL⟩ := by
      simp only [redisSaveCart, hw, record, decodeDoc, hu]
      exact kvGet_kvSet_same _ _ _
    refine ⟨hk, ?_⟩
    intro env2 h2
    refine ⟨_, _, GetCart_cache_hit cfg env2 userID _ _ h2 hk, rfl, rfl, rfl, ?_, rfl, rfl⟩
    simp [record]

theorem getCart_durable_hit_warms_cache_witness :
    kvGet (cartKey "u1") exWorldDurable.redis = none ∧
    ∃ c w', GetCart exCfg exEnv2 "u1" exWorldDurable = (.ok c, w') ∧
      c = { decodeDoc (insertDoc exCart1 13 "d1") with Source := "mongodb" } ∧
      w'.trace = exWorldDurable.trace ++ [Call.redisGetCart "u1", Call.mongoGetCart "u1",
                            Call.redisSaveCart "u1" exCfg.redisTTL] ∧
      w'.mongo = exWorldDurable.mongo ∧
      (exEnv2.redisWarm = none →
        kvGet (cartKey "u1") w'.redis = some ⟨c, exCfg.redisTTL⟩ ∧
        ∀ env2 : Env, env2.redisGet = none →
          ∃ c2 w2, GetCart exCfg env2 "u1" w' = (.ok c2, w2) ∧ c2.Source = "redis" ∧
            c2.Items = c.Items ∧ c2 = { c with Source := "redis" } ∧
            w2.trace = w'.trace ++ [Call.redisGetCart "u1"] ∧
            w2.redis = w'.redis ∧ w2.mongo = w'.mongo) :=
  ⟨by rfl, getCart_durable_hit_warms_cache exCfg exEnv2 "u1" exWorldDurable
    (insertDoc exCart1 13 "d1") (by rfl) (by rfl) (by rfl)⟩

/-! ## C8: a user in neither tier -/

/-- C8. When the cache has no entry for the user and the durable lookup finds no document,
`GetCart` returns without error a cart with that user id, no items, zero totals, origin `new`
and schema version 1, and both stores are left as they were. -/
theorem getCart_nowhere_returns_empty {F : Type} [Float64Arith F] (cfg : Config) (env : Env)
    (userID : String) (w : World F)
    (hmiss : kvGet (cartKey userID) w.redis = none)
    (hm : env.mongoGet = none) (hd : findOne userID w.mongo = none) :
    ∃ c w', GetCart cfg env userID w = (.ok c, w') ∧
      c.UserID = userID ∧ c.Items = [] ∧ c.TotalItems = 0 ∧ c.TotalPrice = Float64Arith.zero ∧
      c.Source = "new" ∧ c.SchemaVersion = 1 ∧
      w'.redis = w.redis ∧ w'.mongo = w.mongo ∧
      w'.trace = w.trace ++ [Call.redisGetCart userID, Call.mongoGetCart userID] := by
  refine ⟨_, _, GetCart_nowhere cfg env userID w (Or.inr hmiss) hm hd, rfl, rfl, rfl, rfl, rfl,
    rfl, rfl, rfl, ?_⟩
  simp [record]

theorem getCart_nowhere_returns_empty_witness :
    kvGet (cartKey "u9") exWorld1.redis = none ∧ findOne "u9" exWorld1.mongo = none ∧
    ∃ c w', GetCart exCfg exEnv2 "u9" exWorld1 = (.ok c, w') ∧
      c.UserID = "u9" ∧ c.Items = [] ∧ c.TotalItems = 0 ∧ c.TotalPrice = Float64Arith.zero ∧
      c.Source = "new" ∧ c.SchemaVersion = 1 ∧
      w'.redis = exWorld1.redis ∧ w'.mongo = exWorld1.mongo ∧
      w'.trace = exWorld1.trace ++ [Call.redisGetCart "u9", Call.mongoGetCart "u9"] :=
  ⟨by rfl, by rfl, getCart_nowhere_returns_empty exCfg exEnv2 "u9" exWorld1 (by rfl) (by rfl)
    (by rfl)⟩

theorem filterMap_updateItem_pos {F : Type} (itemID : String) (quantity : Int)
    (items : List (CartItem F)) (hq : 0 < quantity) :
    items.filterMap (updateItem itemID quantity) =
      items.map (fun item =>
        if item.ItemID = itemID then { item with Quantity := quantity } else item) := by
  induction items with
  | nil => rfl
  | cons item rest ih =>
    by_cases hid : item.ItemID = itemID
    · simp [List.filterMap_cons, updateItem, hid, hq, ih]
    · simp [List.filterMap_cons, updateItem, hid, ih]

theorem filterMap_updateItem_nonpos {F : Type} (itemID : String) (quantity : Int)
    (items : List (CartItem F)) (hq : ¬ 0 < quantity) :
    items.filterMap (updateItem itemID quantity) =
      items.filter (fun item => decide (item.ItemID ≠ itemID)) := by
  induction items with
  | nil => rfl
  | cons item rest ih =>
    by_cases hid : item.ItemID = itemID
    · simp [List.filterMap_cons, updateItem, hid, hq, ih]
    · simp [List.filterMap_cons, updateItem, hid, ih]

/-! ## C9: update and remove of a known item -/

/-- C9. When the loaded cart has an item with the given id and the durable write succeeds,
`UpdateItemQuantity` returns a cart whose items are the loaded items in their order, every item
with another id unchanged, and the item with the given id kept in place with only its quantity
set to `q` when `q > 0`, left out when `q = 0`; `RemoveItem` returns what
`UpdateItemQuantity` returns for quantity 0. -/
theorem update_known_item {F : Type} [Float64Arith F] (cfg : Config) (env : Env)
    (userID itemID : String) (q : Int) (w : World F) (cart : Cart F) (w1 : World F)
    (hg : GetCart cfg env userID w = (.ok cart, w1))
    (hin : ∃ item ∈ cart.Items, item.ItemID = itemID)
    (hu : env.mongoUpsert = none) :
    (∃ c w', UpdateItemQuantity cfg env userID itemID q w = (.ok c, w') ∧
      (0 < q → c.Items = cart.Items.map (fun item =>
        if item.ItemID = itemID then { item with Quantity := q } else item)) ∧
      (q = 0 → c.Items = cart.Items.filter (fun item => decide (item.ItemID ≠ itemID)))) ∧
    RemoveItem cfg env userID itemID w = UpdateItemQuantity cfg env userID itemID 0 w := by
  refine ⟨?_, rfl⟩
  have hf := updateLoop_known itemID q cart.Items hin
  have hupd : UpdateItemQuantity cfg env userID itemID q w =
      saveCart cfg env { cart with Items := (updateLoop itemID q cart.Items).2 } w1 := by
    simp [UpdateItemQuantity, hg, hf]
  rw [hupd, saveCart_eq_ok cfg env _ w1 hu]
  refine ⟨_, _, rfl, ?_, ?_⟩
  · intro hq
    show (updateLoop itemID q cart.Items).2 = _
    rw [updateLoop_items, filterMap_updateItem_pos itemID q cart.Items hq]
  · intro hq
    show (updateLoop itemID q cart.Items).2 = _
    rw [updateLoop_items, filterMap_updateItem_nonpos itemID q cart.Items (by omega)]

theorem update_known_item_witness :
    (∃ item ∈ exCart2.Items, item.ItemID = "i1") ∧
    (∃ c w', UpdateItemQuantity exCfg exEnv3 "u1" "i1" 5
        (mutate exCfg exEnv2 "u1" (.add exReqB) exWorld1).2 = (.ok c, w') ∧
      (0 < (5 : Int) → c.Items = exCart2.Items.map (fun item =>
        if item.ItemID = "i1" then { item with Quantity := 5 } else item)) ∧
      ((5 : Int) = 0 → c.Items =
        exCart2.Items.filter (fun item => decide (item.ItemID ≠ "i1")))) :=
  ⟨by decide,
    (update_known_item exCfg exEnv3 "u1" "i1" 5
      (mutate exCfg exEnv2 "u1" (.add exReqB) exWorld1).2
      { exCart2 with SyncedAt := none }
      (record (Call.redisGetCart "u1") (mutate exCfg exEnv2 "u1" (.add exReqB) exWorld1).2)
      (by rfl) (by decide) (by rfl)).1⟩

/-! ## C10: the write policy of the mutators -/

/-- C10. Once the cart is loaded and the mutation has an item list to save (for update and
remove: the item was found), the mutator returns an error exactly when the durable upsert
fails, hence succeeds whenever the upsert succeeds, whatever the cache write did; and it calls
the cache write first and the durable upsert after it. -/
theorem mutation_fails_iff_upsert_fails {F : Type} [Float64Arith F] (cfg : Config) (env : Env)
    (userID : String) (m : Mutation F) (w : World F) (cart : Cart F) (w1 : World F)
    (items : List (CartItem F))
    (hg : GetCart cfg env userID w = (.ok cart, w1))
    (hn : nextItems env m cart.Items = some items) :
    ((∃ e, (mutate cfg env userID m w).1 = .error e) ↔ env.mongoUpsert ≠ none) ∧
    (env.mongoUpsert = none → ∃ c, (mutate cfg env userID m w).1 = .ok c) ∧
    (mutate cfg env userID m w).2.trace =
      w1.trace ++ [Call.redisSaveCart cart.UserID cfg.redisTTL,
                   Call.mongoUpsertCart cart.UserID] := by
  have hmut : mutate cfg env userID m w = saveCart cfg env { cart with Items := items } w1 := by
    rw [mutate_eq, hg]
    simp only [hn]
  rw [hmut, saveCart_fst, saveCart_trace]
  cases hu : env.mongoUpsert with
  | some e => simp
  | none => simp

theorem mutation_fails_iff_upsert_fails_witness :
    envCacheDown.redisSave ≠ none ∧ envCacheDown.mongoUpsert = none ∧
    (∃ c, (mutate exCfg envCacheDown "u1" (.add exReqB) exWorld1).1 = .ok c) ∧
    (mutate exCfg envCacheDown "u1" (.add exReqB) exWorld1).2.trace =
      (record (Call.redisGetCart "u1") exWorld1).trace ++
        [Call.redisSaveCart "u1" exCfg.redisTTL, Call.mongoUpsertCart "u1"] :=
  ⟨by decide, by rfl,
    (mutation_fails_iff_upsert_fails exCfg envCacheDown "u1" (.add exReqB) exWorld1
      { exCart1 with SyncedAt := none, Source := "redis" }
      (record (Call.redisGetCart "u1") exWorld1) exCart2.Items (by rfl) (by rfl)).2.1 (by rfl),
    (mutation_fails_iff_upsert_fails exCfg envCacheDown "u1" (.add exReqB) exWorld1
      { exCart1 with SyncedAt := none, Source := "redis" }
      (record (Call.redisGetCart "u1") exWorld1) exCart2.Items (by rfl) (by rfl)).2.2⟩

theorem addToExisting_some_productIDs {F : Type} (productID : String) (quantity : Int)
    (now : Time) (items items1 : List (CartItem F))
    (h : addToExisting productID quantity now items = some items1) :
    items1.map (fun item => item.ProductID) = items.map (fun item => item.ProductID) := by
  induction items generalizing items1 with
  | nil => simp [addToExisting] at h
  | cons item rest ih =>
    by_cases hp : item.ProductID = productID
    · simp only [addToExisting, hp, if_true, Option.some.injEq] at h
      rw [← h]
      simp [hp]
    · simp only [addToExisting, hp, if_false, Option.map_eq_some'] at h
      obtain ⟨r, hr, hi⟩ := h
      rw [← hi]
      simp [ih r hr]

theorem addToExisting_none_not_mem {F : Type} (productID : String) (quantity : Int)
    (now : Time) (items : List (CartItem F))
    (h : addToExisting productID quantity now items = none) :
    productID ∉ items.map (fun item => item.ProductID) := by
  induction items with
  | nil => simp
  | cons item rest ih =>
    by_cases hp : item.ProductID = productID
    · simp [addToExisting, hp] at h
    · simp only [addToExisting, hp, if_false, Option.map_eq_none'] at h
      have := ih h
      simp only [List.map_cons, List.mem_cons, not_or]
      exact ⟨fun e => hp e.symm, this⟩

theorem filterMap_updateItem_productIDs {F : Type} (itemID : String) (quantity : Int)
    (items : List (CartItem F)) :
    List.Sublist ((items.filterMap (updateItem itemID quantity)).map (fun item => item.ProductID))
      (items.map (fun item => item.ProductID)) := by
  induction items with
  | nil => simp
  | cons item rest ih =>
    by_cases hid : item.ItemID = itemID
    · by_cases hq : quantity > 0
      · simp only [List.filterMap_cons, updateItem, hid, hq, if_true, List.map_cons]
        exact ih.cons₂ _
      · simp only [List.filterMap_cons, updateItem, hid, hq, if_true, if_false, List.map_cons]
        exact ih.cons _
    · simp only [List.filterMap_cons, updateItem, hid, if_false, List.map_cons]
      exact ih.cons₂ _

theorem nextItems_productIDs_nodup {F : Type} (env : Env) (m : Mutation F)
    (items items1 : List (CartItem F))
    (hnd : (items.map (fun item => item.ProductID)).Nodup)
    (hn : nextItems env m items = some items1) :
    (items1.map (fun item => item.ProductID)).Nodup := by
  cases m with
  | add req =>
    simp only [nextItems] at hn
    cases ha : addToExisting req.ProductID req.Quantity env.nowItem items with
    | some items2 =>
      rw [ha] at hn
      simp only [Option.some.injEq] at hn
      rw [← hn, addToExisting_some_productIDs _ _ _ _ _ ha]
      exact hnd
    | none =>
      rw [ha] at hn
      simp only [Option.some.injEq] at hn
      rw [← hn]
      have hnot := addToExisting_none_not_mem _ _ _ _ ha
      simp only [List.map_append, List.map_cons, List.map_nil, newItem]
      rw [List.nodup_append]
      refine ⟨hnd, List.nodup_singleton _, ?_⟩
      intro a ha1 ha2
      simp only [List.mem_singleton] at ha2
      rw [ha2] at ha1
      exact hnot ha1
  | update itemID quantity =>
    simp only [nextItems] at hn
    split at hn
    · simp only [Option.some.injEq] at hn
      rw [← hn, updateLoop_items]
      exact hnd.sublist (filterMap_updateItem_productIDs itemID quantity items)
    · simp at hn
  | remove itemID =>
    simp only [nextItems] at hn
    split at hn
    · simp only [Option.some.injEq] at hn
      rw [← hn, updateLoop_items]
      exact hnd.sublist (filterMap_updateItem_productIDs itemID 0 items)
    · simp at hn

/-- A successful mutation returns the item list it computed from the loaded cart. -/
theorem mutate_ok_items {F : Type} [Float64Arith F] (cfg : Config) (env : Env)
    (userID : String) (m : Mutation F) (w : World F) (cart : Cart F) (w1 : World F)
    (c : Cart F) (w' : World F)
    (hg : GetCart cfg env userID w = (.ok cart, w1))
    (hm : mutate cfg env userID m w = (.ok c, w')) :
    nextItems env m cart.Items = some c.Items := by
  obtain ⟨cart0, w0, items, hg0, hn, hs⟩ := mutate_ok cfg env userID m w c w' hm
  rw [hg] at hg0
  simp only [Prod.mk.injEq, Except.ok.injEq] at hg0
  obtain ⟨hc, _⟩ := saveCart_ok cfg env _ w0 c w' hs
  rw [hg0.1, hn, hc]

/-! ## C11: one entry per product -/

/-- C11. If the items of the loaded cart have pairwise distinct product ids, so have the items
of the cart a successful `AddItem`, `UpdateItemQuantity` or `RemoveItem` returns. -/
theorem mutation_keeps_products_distinct {F : Type} [Float64Arith F] (cfg : Config) (env : Env)
    (userID : String) (m : Mutation F) (w : World F) (cart : Cart F) (w1 : World F)
    (c : Cart F) (w' : World F)
    (hg : GetCart cfg env userID w = (.ok cart, w1))
    (hnd : (cart.Items.map (fun item => item.ProductID)).Nodup)
    (hm : mutate cfg env userID m w = (.ok c, w')) :
    (c.Items.map (fun item => item.ProductID)).Nodup :=
  nextItems_productIDs_nodup env m cart.Items c.Items hnd
    (mutate_ok_items cfg env userID m w cart w1 c w' hg hm)

theorem mutation_keeps_products_distinct_witness :
    (({ exCart1 with SyncedAt := none, Source := "redis" } : Cart Int).Items.map
      (fun item => item.ProductID)).Nodup ∧
    (exCart2.Items.map (fun item => item.ProductID)).Nodup :=
  ⟨by decide,
    mutation_keeps_products_distinct exCfg exEnv2 "u1" (.add exReqB) exWorld1
      { exCart1 with SyncedAt := none, Source := "redis" }
      (record (Call.redisGetCart "u1") exWorld1) exCart2
      (mutate exCfg exEnv2 "u1" (.add exReqB) exWorld1).2 (by rfl) (by decide) (by rfl)⟩

theorem addToExisting_some_quantities {F : Type} (productID : String) (quantity : Int)
    (now : Time) (items items1 : List (CartItem F))
    (hpos : ∀ item ∈ items, 1 ≤ item.Quantity) (hq : 1 ≤ quantity)
    (hfit : ∀ item ∈ items, item.ProductID = productID →
      item.Quantity + quantity ≤ maxInt64)
    (h : addToExisting productID quantity now items = some items1) :
    ∀ item ∈ items1, 1 ≤ item.Quantity := by
  induction items generalizing items1 with
  | nil => simp [addToExisting] at h
  | cons item rest ih =>
    have h1 := hpos item (List.mem_cons_self _ _)
    by_cases hp : item.ProductID = productID
    · simp only [addToExisting, hp, if_true, Option.some.injEq] at h
      have h2 := hfit item (List.mem_cons_self _ _) hp
      have hw : wrapInt64 (item.Quantity + quantity) = item.Quantity + quantity := by
        apply wrapInt64_of_inInt64
        unfold inInt64
        unfold maxInt64 at h2
        omega
      rw [← h]
      intro it hit
      simp only [List.mem_cons] at hit
      rcases hit with hit | hit
      · rw [hit]
        show 1 ≤ wrapInt64 (item.Quantity + quantity)
        rw [hw]
        omega
      · exact hpos it (List.mem_cons_of_mem _ hit)
    · simp only [addToExisting, hp, if_false, Option.map_eq_some'] at h
      obtain ⟨r, hr, hi⟩ := h
      rw [← hi]
      intro it hit
      simp only [List.mem_cons] at hit
      rcases hit with hit | hit
      · rw [hit]; exact h1
      · exact ih r (fun x hx => hpos x (List.mem_cons_of_mem _ hx))
          (fun x hx => hfit x (List.mem_cons_of_mem _ hx)) hr it hit

theorem filterMap_updateItem_quantities {F : Type} (itemID : String) (quantity : Int)
    (items : List (CartItem F)) (hpos : ∀ item ∈ items, 1 ≤ item.Quantity) :
    ∀ item ∈ items.filterMap (updateItem itemID quantity), 1 ≤ item.Quantity := by
  intro it hit
  rw [List.mem_filterMap] at hit
  obtain ⟨a, ha, hu⟩ := hit
  unfold updateItem at hu
  by_cases hid : a.ItemID = itemID
  · by_cases hq : quantity > 0
    · simp only [hid, hq, if_true, Option.some.injEq] at hu
      rw [← hu]
      show 1 ≤ quantity
      omega
    · simp [hid, hq] at hu
  · simp only [hid, if_false, Option.some.injEq] at hu
    rw [← hu]
    exact hpos a ha

/-! ## C12: quantities stay positive -/

/-- C12 (amended). If every item of the loaded cart has quantity at least 1, then every item of
the cart returned by a successful `UpdateItemQuantity` (any integer quantity), by a successful
`RemoveItem`, or by a successful `AddItem` with requested quantity at least 1 has quantity at
least 1, provided that for an add the quantity of an item of the requested product plus the
requested quantity does not exceed the largest Go `int`. -/
theorem mutation_keeps_quantities_positive {F : Type} [Float64Arith F] (cfg : Config)
    (env : Env) (userID : String) (m : Mutation F) (w : World F) (cart : Cart F) (w1 : World F)
    (c : Cart F) (w' : World F)
    (hg : GetCart cfg env userID w = (.ok cart, w1))
    (hpos : ∀ item ∈ cart.Items, 1 ≤ item.Quantity)
    (hreq : ∀ req, m = .add req → 1 ≤ req.Quantity ∧
      ∀ item ∈ cart.Items, item.ProductID = req.ProductID →
        item.Quantity + req.Quantity ≤ maxInt64)
    (hm : mutate cfg env userID m w = (.ok c, w')) :
    ∀ item ∈ c.Items, 1 ≤ item.Quantity := by
  have hn := mutate_ok_items cfg env userID m w cart w1 c w' hg hm
  cases m with
  | add req =>
    obtain ⟨hq, hfit⟩ := hreq req rfl
    simp only [nextItems] at hn
    cases ha : addToExisting req.ProductID req.Quantity env.nowItem cart.Items with
    | some items2 =>
      rw [ha] at hn
      simp only [Option.some.injEq] at hn
      rw [← hn]
      exact addToExisting_some_quantities _ _ _ _ _ hpos hq hfit ha
    | none =>
      rw [ha] at hn
      simp only [Option.some.injEq] at hn
      rw [← hn]
      intro it hit
      simp only [List.mem_append, List.mem_singleton] at hit
      rcases hit with hit | hit
      · exact hpos it hit
      · rw [hit]; exact hq
  | update itemID quantity =>
    simp only [nextItems] at hn
    split at hn
    · simp only [Option.some.injEq] at hn
      rw [← hn, updateLoop_items]
      exact filterMap_updateItem_quantities itemID quantity cart.Items hpos
    · simp at hn
  | remove itemID =>
    simp only [nextItems] at hn
    split at hn
    · simp only [Option.some.injEq] at hn
      rw [← hn, updateLoop_items]
      exact filterMap_updateItem_quantities itemID 0 cart.Items hpos
    · simp at hn

theorem mutation_keeps_quantities_positive_witness :
    (∀ item ∈ ({ exCart1 with SyncedAt := none, Source := "redis" } : Cart Int).Items,
      1 ≤ item.Quantity) ∧
    (mutate exCfg exEnv2 "u1" (.add exReq2) exWorld1).1 =
      .ok { exCart1 with
            Items := [{ ItemID := "i1", ProductID := "p1", ProductName := "Book",
                        Category := "books", Price := 40, Quantity := 3, ImageURL := "",
                        AddedAt := 21 }],
            TotalItems := 3, TotalPrice := 120, UpdatedAt := 22, SyncedAt := some 23,
            Source := "redis" } ∧
    ∀ item ∈ ({ exCart1 with
            Items := [{ ItemID := "i1", ProductID := "p1", ProductName := "Book",
                        Category := "books", Price := 40, Quantity := 3, ImageURL := "",
                        AddedAt := 21 }],
            TotalItems := 3, TotalPrice := 120, UpdatedAt := 22, SyncedAt := some 23,
            Source := "redis" } : Cart Int).Items, 1 ≤ item.Quantity :=
  ⟨by decide, by rfl,
    mutation_keeps_quantities_positive exCfg exEnv2 "u1" (.add exReq2) exWorld1
      { exCart1 with SyncedAt := none, Source := "redis" }
      (record (Call.redisGetCart "u1") exWorld1) _
      (mutate exCfg exEnv2 "u1" (.add exReq2) exWorld1).2 (by rfl) (by decide)
      (by
        intro req hreq
        cases hreq
        decide)
      (by rfl)⟩

/-- C12 (counterexample). The loaded cart has one item, of quantity 9223372036854775807; a
successful `AddItem` of one more copy of the same product returns the item with quantity
-9223372036854775808, the sum wrapped as a Go `int`. -/
theorem addItem_quantity_overflows :
    (GetCart exCfg exEnv2 "u1" exWorldMax).1 = .ok exCartMax ∧
    (∀ item ∈ exCartMax.Items, 1 ≤ item.Quantity) ∧
    1 ≤ exReq.Quantity ∧
    (AddItem exCfg exEnv2 "u1" exReq exWorldMax).1 = .ok exCartWrapped ∧
    exCartWrapped.Items.map (fun item => item.Quantity) = [-9223372036854775808] ∧
    ¬ ∀ item ∈ exCartWrapped.Items, 1 ≤ item.Quantity := by
  refine ⟨by rfl, by decide, by decide, by rfl, by rfl, by decide⟩

theorem kvGet_kvDel_same {V : Type} (k : String) (l : List (String × V)) :
    kvGet k (kvDel k l) = none := by
  induction l with
  | nil => rfl
  | cons p rest ih =>
    obtain ⟨k1, v1⟩ := p
    by_cases hk : k1 = k
    · simp [kvDel, hk, ih]
    · simp [kvDel, kvGet, hk, ih]

theorem findOne_none_iff {F : Type} (userID : String) (docs : List (MongoDoc F)) :
    findOne userID docs = none ↔ userID ∉ docs.map (fun d => d.user_id) := by
  induction docs with
  | nil => simp [findOne]
  | cons d rest ih =>
    by_cases hk : d.user_id = userID
    · simp [findOne, hk]
    · simp only [findOne, hk, if_false, ih, List.map_cons, List.mem_cons, not_or]
      exact ⟨fun h => ⟨fun e => hk e.symm, h⟩, fun h => h.2⟩

theorem findOne_deleteOne {F : Type} (userID : String) (docs : List (MongoDoc F))
    (hu : (docs.map (fun d => d.user_id)).Nodup) :
    findOne userID (deleteOne userID docs) = none := by
  induction docs with
  | nil => rfl
  | cons d rest ih =>
    simp only [List.map_cons, List.nodup_cons] at hu
    by_cases hk : d.user_id = userID
    · simp only [deleteOne, hk, if_true]
      rw [findOne_none_iff, ← hk]
      exact hu.1
    · simp only [deleteOne, hk, if_false, findOne]
      exact ih hu.2

theorem ClearCart_trace {F : Type} (env : Env) (userID : String) (w : World F) :
    (ClearCart env userID w).2.trace =
      w.trace ++ [Call.redisDeleteCart userID, Call.mongoDeleteCart userID] := by
  cases hr : env.redisDel <;> cases hm : env.mongoDel <;>
    simp [ClearCart, redisDeleteCart, mongoDeleteCart, record, hr, hm]

theorem ClearCart_fst {F : Type} (env : Env) (userID : String) (w : World F) :
    (ClearCart env userID w).1 =
      match env.mongoDel with
      | some e => some ("clear cart from mongo: " ++ ("mongo delete cart: " ++ e))
      | none => none := by
  cases hm : env.mongoDel <;> simp [ClearCart, mongoDeleteCart, hm]

theorem ClearCart_mongo {F : Type} (env : Env) (userID : String) (w : World F) :
    (ClearCart env userID w).2.mongo =
      match env.mongoDel with
      | some _ => w.mongo
      | none => deleteOne userID w.mongo := by
  cases hr : env.redisDel <;> cases hm : env.mongoDel <;>
    simp [ClearCart, redisDeleteCart, mongoDeleteCart, record, hr, hm]

theorem ClearCart_redis {F : Type} (env : Env) (userID : String) (w : World F) :
    (ClearCart env userID w).2.redis =
      match env.redisDel with
      | some _ => w.redis
      | none => kvDel (cartKey userID) w.redis := by
  cases hr : env.redisDel <;> cases hm : env.mongoDel <;>
    simp [ClearCart, redisDeleteCart, mongoDeleteCart, record, hr, hm]

/-! ## C13: the deletion policy of ClearCart -/

/-- C13. `ClearCart` calls the cache deletion and then the durable deletion for the user; it
returns an error exactly when the durable deletion fails; when the durable deletion succeeds
it returns success and the durable document is deleted, whatever the cache deletion did. -/
theorem clearCart_fails_iff_durable_delete_fails {F : Type} (env : Env) (userID : String)
    (w : World F) :
    (ClearCart env userID w).2.trace =
      w.trace ++ [Call.redisDeleteCart userID, Call.mongoDeleteCart userID] ∧
    ((∃ e, (ClearCart env userID w).1 = some e) ↔ env.mongoDel ≠ none) ∧
    (env.mongoDel = none →
      (ClearCart env userID w).1 = none ∧
      (ClearCart env userID w).2.mongo = deleteOne userID w.mongo) := by
  refine ⟨ClearCart_trace env userID w, ?_, ?_⟩
  · rw [ClearCart_fst]
    cases env.mongoDel <;> simp
  · intro hm
    rw [ClearCart_fst, ClearCart_mongo, hm]
    exact ⟨rfl, rfl⟩

/-! ## C14: the read after ClearCart -/

/-- C14 (amended). After a `ClearCart` that returned success, in a world with at most one
durable document per user, a `GetCart` of that user that returns a cart returns the empty cart
(no items, zero totals, origin `new`) whenever the cache deletion of `ClearCart` succeeded;
when the cache deletion failed and the cache held an entry for the user, a successful cache
read returns that entry. -/
theorem read_after_clearCart {F : Type} [Float64Arith F] (cfg : Config) (env env2 : Env)
    (userID : String) (w w' : World F) (c : Cart F) (w2 : World F)
    (hu : durableUnique w)
    (hclear : ClearCart env userID w = (none, w'))
    (hg : GetCart cfg env2 userID w' = (.ok c, w2)) :
    (env.redisDel = none →
      kvGet (cartKey userID) w'.redis = none ∧ findOne userID w'.mongo = none ∧
      c = newEmptyCart env2.nowEmpty userID ∧ c.Items = [] ∧ c.TotalItems = 0 ∧
      c.TotalPrice = Float64Arith.zero ∧ c.Source = "new") ∧
    (env.redisDel ≠ none → env2.redisGet = none →
      ∀ ent, kvGet (cartKey userID) w.redis = some ent →
        c = { ent.data with Source := "redis" }) := by
  have hw : (ClearCart env userID w).2 = w' := by rw [hclear]
  have hfst : (ClearCart env userID w).1 = none := by rw [hclear]
  have hmd : env.mongoDel = none := by
    rw [ClearCart_fst] at hfst
    cases hm : env.mongoDel with
    | none => rfl
    | some e => rw [hm] at hfst; simp at hfst
  have hmongo : w'.mongo = deleteOne userID w.mongo := by
    rw [← hw, ClearCart_mongo, hmd]
  have hnodoc : findOne userID w'.mongo = none := by
    rw [hmongo]; exact findOne_deleteOne userID w.mongo hu
  constructor
  · intro hrd
    have hredis : w'.redis = kvDel (cartKey userID) w.redis := by
      rw [← hw, ClearCart_redis, hrd]
    have hmiss : kvGet (cartKey userID) w'.redis = none := by
      rw [hredis]; exact kvGet_kvDel_same _ _
    rcases GetCart_cases cfg env2 userID w' with
      ⟨ent, _, hk, _⟩ | ⟨_, ⟨e, _, h⟩ | ⟨d, _, hd, _⟩ | ⟨_, _, h⟩⟩
    · rw [hmiss] at hk; simp at hk
    · rw [h] at hg; simp at hg
    · rw [hnodoc] at hd; simp at hd
    · rw [h] at hg
      simp only [Prod.mk.injEq, Except.ok.injEq] at hg
      refine ⟨hmiss, hnodoc, hg.1.symm, ?_, ?_, ?_, ?_⟩ <;> rw [← hg.1] <;> rfl
  · intro hrd h2 ent hk
    have hredis : w'.redis = w.redis := by
      rw [← hw, ClearCart_redis]
      cases hr : env.redisDel with
      | none => exact absurd hr hrd
      | some e => rfl
    rw [← hredis] at hk
    have h := GetCart_cache_hit cfg env2 userID w' ent h2 hk
    rw [h] at hg
    simp only [Prod.mk.injEq, Except.ok.injEq] at hg
    exact hg.1.symm

theorem read_after_clearCart_witness :
    durableUnique exWorld1 ∧
    (ClearCart exEnv2 "u1" exWorld1).1 = none ∧
    (GetCart exCfg exEnv3 "u1" (ClearCart exEnv2 "u1" exWorld1).2).1 =
      .ok (newEmptyCart 30 "u1") ∧
    (newEmptyCart 30 "u1" : Cart Int).Items = [] :=
  ⟨by decide, by rfl, by rfl,
    ((read_after_clearCart exCfg exEnv2 exEnv3 "u1" exWorld1 (ClearCart exEnv2 "u1" exWorld1).2
      (newEmptyCart 30 "u1")
      (GetCart exCfg exEnv3 "u1" (ClearCart exEnv2 "u1" exWorld1).2).2
      (by decide) (by rfl) (by rfl)).1 (by rfl)).2.2.2.1⟩

/-- C14 (counterexample). Both tiers hold the cart of `u1`, with one item; `ClearCart` returns
success although its cache deletion fails, and the next `GetCart`, with every store call
succeeding, returns the one item of the cache entry that is still there. -/
theorem clearCart_leaves_cache_entry :
    (ClearCart envDelDown "u1" exWorld1).1 = none ∧
    (ClearCart envDelDown "u1" exWorld1).2.mongo = [] ∧
    (GetCart exCfg exEnv3 "u1" (ClearCart envDelDown "u1" exWorld1).2).1 =
      .ok { exCart1 with SyncedAt := none, Source := "redis" } ∧
    ({ exCart1 with SyncedAt := none, Source := "redis" } : Cart Int).Items ≠ [] ∧
    ({ exCart1 with SyncedAt := none, Source := "redis" } : Cart Int).Source ≠ "new" := by
  refine ⟨by rfl, by rfl, by rfl, by decide, by decide⟩

theorem updateOneUpsert_user_ids {F : Type} (cart : Cart F) (now : Time) (newDocID : String)
    (docs : List (MongoDoc F)) :
    (updateOneUpsert cart now newDocID docs).map (fun d => d.user_id) =
      if cart.UserID ∈ docs.map (fun d => d.user_id) then docs.map (fun d => d.user_id)
      else docs.map (fun d => d.user_id) ++ [cart.UserID] := by
  induction docs with
  | nil => simp [updateOneUpsert, insertDoc]
  | cons d rest ih =>
    by_cases hk : d.user_id = cart.UserID
    · simp [updateOneUpsert, hk, applySet]
    · have hk' : ¬ cart.UserID = d.user_id := fun e => hk e.symm
      simp only [updateOneUpsert, hk, if_false, List.map_cons, ih, List.mem_cons, hk', false_or]
      split <;> simp

theorem updateOneUpsert_nodup {F : Type} (cart : Cart F) (now : Time) (newDocID : String)
    (docs : List (MongoDoc F)) (hu : (docs.map (fun d => d.user_id)).Nodup) :
    ((updateOneUpsert cart now newDocID docs).map (fun d => d.user_id)).Nodup := by
  rw [updateOneUpsert_user_ids]
  split
  · exact hu
  · rename_i hno
    rw [List.nodup_append]
    refine ⟨hu, List.nodup_singleton _, ?_⟩
    intro a ha1 ha2
    simp only [List.mem_singleton] at ha2
    rw [ha2] at ha1
    exact hno ha1

theorem countUser_of_not_mem {F : Type} (userID : String) (docs : List (MongoDoc F))
    (h : userID ∉ docs.map (fun d => d.user_id)) : countUser userID docs = 0 := by
  induction docs with
  | nil => rfl
  | cons d rest ih =>
    simp only [List.map_cons, List.mem_cons, not_or] at h
    have hk : ¬ d.user_id = userID := fun e => h.1 e.symm
    simp only [countUser, List.filter_cons, hk, decide_False]
    exact ih h.2

theorem countUser_updateOneUpsert {F : Type} (cart : Cart F) (now : Time) (newDocID : String)
    (docs : List (MongoDoc F)) (hu : (docs.map (fun d => d.user_id)).Nodup) :
    countUser cart.UserID (updateOneUpsert cart now newDocID docs) = 1 := by
  induction docs with
  | nil => simp [updateOneUpsert, insertDoc, countUser]
  | cons d rest ih =>
    simp only [List.map_cons, List.nodup_cons] at hu
    by_cases hk : d.user_id = cart.UserID
    · have h0 := countUser_of_not_mem cart.UserID rest (by rw [← hk]; exact hu.1)
      simp only [countUser] at h0
      simp [updateOneUpsert, hk, applySet, countUser, h0]
    · have := ih hu.2
      simp only [countUser] at this
      simp [updateOneUpsert, hk, countUser, this]

theorem findOne_updateOneUpsert_created {F : Type} (cart : Cart F) (now : Time)
    (newDocID : String) (docs : List (MongoDoc F)) :
    ∃ d, findOne cart.UserID (updateOneUpsert cart now newDocID docs) = some d ∧
      d.schema_version = cart.SchemaVersion ∧ d.synced_at = some (truncMs now) ∧
      d.source = "mongodb" ∧
      (∀ d0, findOne cart.UserID docs = some d0 → d.created_at = d0.created_at ∧ d.id = d0.id) ∧
      (findOne cart.UserID docs = none →
        d.created_at = truncMs cart.CreatedAt ∧ d.id = newDocID) := by
  induction docs with
  | nil =>
    exact ⟨insertDoc cart now newDocID, by simp [updateOneUpsert, findOne, insertDoc],
      rfl, rfl, rfl, by simp [findOne], fun _ => ⟨rfl, rfl⟩⟩
  | cons d1 rest ih =>
    by_cases hk : d1.user_id = cart.UserID
    · refine ⟨applySet cart now d1, by simp [updateOneUpsert, findOne, hk, applySet],
        rfl, rfl, rfl, ?_, ?_⟩
      · intro d0 h0
        simp only [findOne, hk, if_true, Option.some.injEq] at h0
        rw [← h0]
        exact ⟨rfl, rfl⟩
      · intro h0
        simp [findOne, hk] at h0
    · obtain ⟨d, hd, h1, h2, h3, h4, h5⟩ := ih
      refine ⟨d, by simp [updateOneUpsert, findOne, hk, hd], h1, h2, h3, ?_, ?_⟩
      · intro d0 h0
        simp only [findOne, hk, if_false] at h0
        exact h4 d0 h0
      · intro h0
        simp only [findOne, hk, if_false] at h0
        exact h5 h0

theorem mongoUpsertCart_ok_iff {F : Type} (fault : Option Err) (now : Time) (newDocID : String)
    (cart : Cart F) (w : World F) :
    (mongoUpsertCart fault now newDocID cart w).1 = none ↔ fault = none := by
  cases fault <;> simp [mongoUpsertCart]

/-! ## C15: what an upsert stores -/

/-- C15 (amended). After a successful durable `UpsertCart` of a cart, in a store with at most
one document per user, the store holds exactly one document of the cart's user; its totals and
`schema_version` are the cart's; its items and `updated_at` are the cart's with every time
truncated to the millisecond, the precision of a stored datetime; its `synced_at` is the time
of the upsert, truncated alike; and its `created_at` is the one the user's document had before,
or the cart's `CreatedAt`, truncated alike, when the user had no document. -/
theorem upsertCart_stores_cart {F : Type} (fault : Option Err) (now : Time) (newDocID : String)
    (cart : Cart F) (w : World F) (hu : durableUnique w)
    (hok : (mongoUpsertCart fault now newDocID cart w).1 = none) :
    ∃ d, findOne cart.UserID (mongoUpsertCart fault now newDocID cart w).2.2.mongo = some d ∧
      d.items = cart.Items.map storeItem ∧ d.total_items = cart.TotalItems ∧
      d.total_price = cart.TotalPrice ∧ d.updated_at = truncMs cart.UpdatedAt ∧
      d.schema_version = cart.SchemaVersion ∧ d.synced_at = some (truncMs now) ∧
      (∀ d0, findOne cart.UserID w.mongo = some d0 → d.created_at = d0.created_at) ∧
      (findOne cart.UserID w.mongo = none → d.created_at = truncMs cart.CreatedAt) ∧
      countUser cart.UserID (mongoUpsertCart fault now newDocID cart w).2.2.mongo = 1 ∧
      durableUnique (mongoUpsertCart fault now newDocID cart w).2.2 := by
  have hf := (mongoUpsertCart_ok_iff fault now newDocID cart w).1 hok
  subst hf
  obtain ⟨d, hd, h1, h2, h3, h4⟩ :=
    findOne_updateOneUpsert ({ cart with SyncedAt := some now } : Cart F) now newDocID w.mongo
  obtain ⟨d', hd', g1, g2, _, g4, g5⟩ :=
    findOne_updateOneUpsert_created ({ cart with SyncedAt := some now } : Cart F) now newDocID
      w.mongo
  have hdd : d' = d := by
    rw [hd] at hd'
    exact (Option.some.inj hd').symm
  subst hdd
  refine ⟨d', ?_, h1, h2, h3, h4, g1, g2, fun d0 h0 => (g4 d0 h0).1, fun h0 => (g5 h0).1,
    ?_, ?_⟩
  · simpa [mongoUpsertCart, record] using hd
  · simpa [mongoUpsertCart, record] using
      countUser_updateOneUpsert ({ cart with SyncedAt := some now } : Cart F) now newDocID
        w.mongo hu
  · simpa [mongoUpsertCart, record, durableUnique] using
      updateOneUpsert_nodup ({ cart with SyncedAt := some now } : Cart F) now newDocID
        w.mongo hu

theorem upsertCart_stores_cart_witness :
    durableUnique exWorld1 ∧
    ∃ d, findOne exCartNano.UserID
        (mongoUpsertCart none exNowNano "d9" exCartNano exWorld1).2.2.mongo = some d ∧
      d.items = exCartNano.Items.map storeItem ∧ d.total_items = exCartNano.TotalItems ∧
      d.total_price = exCartNano.TotalPrice ∧ d.updated_at = truncMs exCartNano.UpdatedAt ∧
      d.schema_version = exCartNano.SchemaVersion ∧ d.synced_at = some (truncMs exNowNano) ∧
      (∀ d0, findOne exCartNano.UserID exWorld1.mongo = some d0 →
        d.created_at = d0.created_at) ∧
      (findOne exCartNano.UserID exWorld1.mongo = none →
        d.created_at = truncMs exCartNano.CreatedAt) ∧
      countUser exCartNano.UserID
        (mongoUpsertCart none exNowNano "d9" exCartNano exWorld1).2.2.mongo = 1 ∧
      durableUnique (mongoUpsertCart none exNowNano "d9" exCartNano exWorld1).2.2 :=
  ⟨by decide,
    upsertCart_stores_cart none exNowNano "d9" exCartNano exWorld1 (by decide) (by rfl)⟩

/-- C15 (counterexample). A cart of `u1` stamped by `time.Now()` with nanoseconds is upserted,
successfully, at an instant with nanoseconds, into a store that holds a document of `u1`: the
stored `updated_at` is not the cart's `UpdatedAt`, the stored `synced_at` is not the time of the
upsert, and the stored items are not the cart's items (their `added_at` differs); each is the
value truncated to the millisecond. Upserted into an empty store, the stored `created_at` is not
the cart's `CreatedAt` either. -/
theorem upsertCart_truncates_times :
    (mongoUpsertCart none exNowNano "d9" exCartNano exWorld1).1 = none ∧
    (∃ d, findOne "u1" (mongoUpsertCart none exNowNano "d9" exCartNano exWorld1).2.2.mongo =
        some d ∧
      d.updated_at = 1700000000001000000 ∧ exCartNano.UpdatedAt = 1700000000001614472 ∧
      d.updated_at ≠ exCartNano.UpdatedAt ∧
      d.synced_at = some 1700000000002000000 ∧ d.synced_at ≠ some exNowNano ∧
      d.items ≠ exCartNano.Items) ∧
    (∃ d, findOne "u1" (mongoUpsertCart none exNowNano "d9" exCartNano emptyWorld).2.2.mongo =
        some d ∧
      d.created_at = 1700000000000000000 ∧ d.created_at ≠ exCartNano.CreatedAt) := by
  refine ⟨by rfl, ⟨_, by rfl, by rfl, by rfl, by decide, by rfl, by decide, by decide⟩,
    ⟨_, by rfl, by rfl, by decide⟩⟩

/-! ## C16: the sync stamp -/

/-- C16 (amended). When the durable `UpsertCart` returns an error, no stored copy changes: the
durable documents, their `synced_at` included, and the cache are what they were before the
call. The cart value passed to `UpsertCart` has by then been stamped: its `SyncedAt` is the
time of the attempt, its other fields are unchanged. -/
theorem upsertCart_error_keeps_stores {F : Type} (fault : Option Err) (now : Time)
    (newDocID : String) (cart : Cart F) (w : World F) (e : Err)
    (herr : (mongoUpsertCart fault now newDocID cart w).1 = some e) :
    (mongoUpsertCart fault now newDocID cart w).2.2.mongo = w.mongo ∧
    (mongoUpsertCart fault now newDocID cart w).2.2.redis = w.redis ∧
    (mongoUpsertCart fault now newDocID cart w).2.1 = { cart with SyncedAt := some now } := by
  cases fault with
  | none => simp [mongoUpsertCart] at herr
  | some e1 => simp [mongoUpsertCart, record]

theorem upsertCart_error_keeps_stores_witness :
    (mongoUpsertCart (some "timeout") 50 "d9" exCart2 exWorld1).2.2.mongo = exWorld1.mongo ∧
    (mongoUpsertCart (some "timeout") 50 "d9" exCart2 exWorld1).2.2.redis = exWorld1.redis ∧
    (mongoUpsertCart (some "timeout") 50 "d9" exCart2 exWorld1).2.1 =
      { exCart2 with SyncedAt := some 50 } :=
  upsertCart_error_keeps_stores (some "timeout") 50 "d9" exCart2 exWorld1
    "mongo upsert cart: timeout" (by rfl)

/-- C16 (counterexample). A cart that was never synced (`SyncedAt` is nil) is passed to an
`UpsertCart` that returns an error: the cart's `SyncedAt` is then the time of the failed
attempt. -/
theorem upsertCart_error_stamps_cart :
    exCartMax.SyncedAt = none ∧
    (mongoUpsertCart (some "timeout") 50 "d9" exCartMax exWorldMax).1 =
      some "mongo upsert cart: timeout" ∧
    (mongoUpsertCart (some "timeout") 50 "d9" exCartMax exWorldMax).2.1.SyncedAt = some 50 ∧
    (mongoUpsertCart (some "timeout") 50 "d9" exCartMax exWorldMax).2.1.SyncedAt ≠
      exCartMax.SyncedAt := by
  refine ⟨by rfl, by rfl, by rfl, by decide⟩

theorem isCartKey_cartKey (userID : String) : isCartKey (cartKey userID) = true := by
  simp [isCartKey, cartKey, String.data_append]

theorem trimCartKey_cartKey (userID : String) : trimCartKey (cartKey userID) = userID := by
  have h : (cartKey userID).data = "cart:".data ++ userID.data := by
    simp [cartKey, String.data_append]
  simp only [trimCartKey, isCartKey_cartKey, if_true, h]
  have h5 : "cart:".data.length = 5 := by decide
  rw [show (5 : Nat) = "cart:".data.length from h5.symm, List.drop_left]

theorem cartKey_trimCartKey (key : String) (h : isCartKey key = true) :
    cartKey (trimCartKey key) = key := by
  simp only [trimCartKey, h, if_true, cartKey]
  apply String.ext
  simp only [String.data_append]
  have hp : "cart:".data <+: key.data := by
    simpa [isCartKey] using h
  obtain ⟨t, ht⟩ := hp
  rw [← ht]
  have h5 : "cart:".data.length = 5 := by decide
  rw [show (5 : Nat) = "cart:".data.length from h5.symm, List.drop_left]

theorem cacheKeyed_entry {F : Type} (w : World F) (userID : String) (ent : RedisEntry F)
    (hwf : cacheKeyed w) (hk : kvGet (cartKey userID) w.redis = some ent) :
    ent.data.UserID = userID :=
  (cartKey_injective _ _ (hwf _ (kvGet_mem _ _ _ hk))).symm

theorem upsertedUsers_append (a b : List Call) :
    upsertedUsers (a ++ b) = upsertedUsers a ++ upsertedUsers b := by
  simp [upsertedUsers, List.filterMap_append]

/-- One key of the `CartSyncer` loop, when the key is readable. -/
theorem CartSyncer.syncKey_readable {F : Type} (env : SyncEnv) (cnt : SyncCount) (w : World F)
    (key : String) (ent : RedisEntry F) (hne : trimCartKey key ≠ "")
    (hr : env.redisGet (trimCartKey key) = none)
    (hk : kvGet (cartKey (trimCartKey key)) w.redis = some ent) :
    CartSyncer.syncKey env (cnt, w) key =
      (match env.mongoUpsert (trimCartKey key) with
        | some _ => { cnt with failed := cnt.failed + 1 }
        | none => { cnt with synced := cnt.synced + 1 },
       (mongoUpsertCart (env.mongoUpsert (trimCartKey key)) (env.nowSync (trimCartKey key))
          (env.newDocID (trimCartKey key)) { ent.data with Source := "redis" }
          (record (Call.redisGetCart (trimCartKey key)) w)).2.2) := by
  cases hu : env.mongoUpsert (trimCartKey key) <;>
    simp [CartSyncer.syncKey, hne, redisGetCart, hr, hk, mongoUpsertCart, hu]

/-- No step of the `CartSyncer` loop writes the cache. -/
theorem CartSyncer.syncKey_redis {F : Type} (env : SyncEnv) (acc : SyncCount × World F)
    (key : String) : (CartSyncer.syncKey env acc key).2.redis = acc.2.redis := by
  unfold CartSyncer.syncKey
  split
  · rfl
  · cases hr : env.redisGet (trimCartKey key) with
    | some e => simp [redisGetCart, hr, record]
    | none =>
      cases hk : kvGet (cartKey (trimCartKey key)) acc.2.redis with
      | none => simp [redisGetCart, hr, hk, record]
      | some ent =>
        cases hu : env.mongoUpsert (trimCartKey key) <;>
          simp [redisGetCart, hr, hk, record, mongoUpsertCart, hu]

theorem CartSyncer.syncKeys_redis {F : Type} (env : SyncEnv) (keys : List String)
    (acc : SyncCount × World F) : (CartSyncer.syncKeys env keys acc).2.redis = acc.2.redis := by
  induction keys generalizing acc with
  | nil => rfl
  | cons k rest ih =>
    simp only [CartSyncer.syncKeys, List.foldl_cons] at ih ⊢
    rw [ih, CartSyncer.syncKey_redis]

theorem readable_of_redis_eq {F : Type} (env : SyncEnv) (w w1 : World F) (key : String)
    (h : w1.redis = w.redis) (hr : readable env w key) : readable env w1 key := by
  unfold readable at hr ⊢
  rw [h]
  exact hr

/-- One key, in both loops, from worlds with the same cache and the same trace: the same
cache and the same trace after it, the same change of `failed`, and one more `synced` in
`SyncService` exactly when the entry is absent at read time. -/
theorem syncKey_both {F : Type} (env : SyncEnv) (c1 c2 : SyncCount) (w1 w2 : World F)
    (key : String) (hr : w1.redis = w2.redis) (ht : w1.trace = w2.trace) :
    (SyncService.syncKey env (c1, w1) key).2.redis =
      (CartSyncer.syncKey env (c2, w2) key).2.redis ∧
    (SyncService.syncKey env (c1, w1) key).2.trace =
      (CartSyncer.syncKey env (c2, w2) key).2.trace ∧
    (SyncService.syncKey env (c1, w1) key).1.failed + c2.failed =
      (CartSyncer.syncKey env (c2, w2) key).1.failed + c1.failed ∧
    (SyncService.syncKey env (c1, w1) key).1.synced + c2.synced =
      (CartSyncer.syncKey env (c2, w2) key).1.synced + c1.synced +
        (if absentAtRead env w2 key then 1 else 0) := by
  by_cases hne : trimCartKey key = ""
  · simp only [SyncService.syncKey, CartSyncer.syncKey, hne, absentAtRead, if_true]
    simp only [hr, ht, true_and]
    simp
    constructor <;> omega
  · cases hg : env.redisGet (trimCartKey key) with
    | some e =>
      simp [SyncService.syncKey, SyncService.syncCart, CartSyncer.syncKey, hne, redisGetCart,
        RedisRepository.GetCart, hg, absentAtRead, record, hr, ht]
      omega
    | none =>
      cases hk : kvGet (cartKey (trimCartKey key)) w2.redis with
      | none =>
        simp [SyncService.syncKey, SyncService.syncCart, CartSyncer.syncKey, hne,
          redisGetCart, RedisRepository.GetCart, hg, hk, absentAtRead, record, hr, ht]
        omega
      | some ent =>
        cases hu : env.mongoUpsert (trimCartKey key) <;>
          simp [SyncService.syncKey, SyncService.syncCart, CartSyncer.syncKey, hne,
            redisGetCart, RedisRepository.GetCart, hg, hk, absentAtRead, mongoUpsertCart,
            MongoRepository.UpsertCart, hu, record, hr, ht] <;> omega

theorem absentAtRead_congr {F : Type} (env : SyncEnv) (w w1 : World F) (key : String)
    (h : w1.redis = w.redis) : absentAtRead env w1 key = absentAtRead env w key := by
  simp [absentAtRead, h]

theorem countAbsent_congr {F : Type} (env : SyncEnv) (w w1 : World F) (keys : List String)
    (h : w1.redis = w.redis) : countAbsent env w1 keys = countAbsent env w keys := by
  unfold countAbsent
  congr 1
  apply List.filter_congr
  intro k _
  exact absentAtRead_congr env w w1 k h

/-- The two loops over the same keys, from worlds with the same cache and the same trace. -/
theorem syncKeys_both {F : Type} (env : SyncEnv) (keys : List String) (c1 c2 : SyncCount)
    (w1 w2 : World F) (hr : w1.redis = w2.redis) (ht : w1.trace = w2.trace) :
    (SyncService.syncKeys env keys (c1, w1)).2.redis =
      (CartSyncer.syncKeys env keys (c2, w2)).2.redis ∧
    (SyncService.syncKeys env keys (c1, w1)).2.trace =
      (CartSyncer.syncKeys env keys (c2, w2)).2.trace ∧
    (SyncService.syncKeys env keys (c1, w1)).1.failed + c2.failed =
      (CartSyncer.syncKeys env keys (c2, w2)).1.failed + c1.failed ∧
    (SyncService.syncKeys env keys (c1, w1)).1.synced + c2.synced =
      (CartSyncer.syncKeys env keys (c2, w2)).1.synced + c1.synced +
        countAbsent env w2 keys := by
  induction keys generalizing c1 c2 w1 w2 with
  | nil =>
    simp only [SyncService.syncKeys, CartSyncer.syncKeys, countAbsent, List.foldl_nil,
      List.filter_nil, List.length_nil]
    exact ⟨hr, ht, by omega, by omega⟩
  | cons k rest ih =>
    obtain ⟨a1, a2, a3, a4⟩ := syncKey_both env c1 c2 w1 w2 k hr ht
    have hredis := CartSyncer.syncKey_redis env (c2, w2) k
    have ih1 := ih (SyncService.syncKey env (c1, w1) k).1 (CartSyncer.syncKey env (c2, w2) k).1
      (SyncService.syncKey env (c1, w1) k).2 (CartSyncer.syncKey env (c2, w2) k).2 a1 a2
    rw [countAbsent_congr env w2 _ rest hredis] at ih1
    simp only [SyncService.syncKeys, CartSyncer.syncKeys, List.foldl_cons,
      Prod.mk.eta] at ih1 ⊢
    obtain ⟨b1, b2, b3, b4⟩ := ih1
    refine ⟨b1, b2, ?_, ?_⟩
    · omega
    · have hc : countAbsent env w2 (k :: rest) =
          (if absentAtRead env w2 k then 1 else 0) + countAbsent env w2 rest := by
        unfold countAbsent
        by_cases hk : absentAtRead env w2 k = true
        · simp [List.filter_cons, hk]
          omega
        · simp [List.filter_cons, hk]
      rw [hc]
      omega

theorem countAbsent_readable {F : Type} (env : SyncEnv) (w : World F) (keys : List String)
    (hread : ∀ k ∈ keys, readable env w k) : countAbsent env w keys = 0 := by
  unfold countAbsent
  rw [List.length_eq_zero, List.filter_eq_nil_iff]
  intro k hk
  obtain ⟨_, _, ent, he⟩ := hread k hk
  simp [absentAtRead, he]

/-- On a list of readable keys the loop of `SyncService` ends with the counters of the loop of
`CartSyncer`, the same cache and the same trace. -/
theorem SyncService.syncKeys_readable {F : Type} (env : SyncEnv) (keys : List String)
    (cnt : SyncCount) (w : World F) (hread : ∀ k ∈ keys, readable env w k) :
    (SyncService.syncKeys env keys (cnt, w)).1 = (CartSyncer.syncKeys env keys (cnt, w)).1 ∧
    (SyncService.syncKeys env keys (cnt, w)).2.redis =
      (CartSyncer.syncKeys env keys (cnt, w)).2.redis ∧
    (SyncService.syncKeys env keys (cnt, w)).2.trace =
      (CartSyncer.syncKeys env keys (cnt, w)).2.trace := by
  obtain ⟨h1, h2, h3, h4⟩ := syncKeys_both env keys cnt cnt w w rfl rfl
  rw [countAbsent_readable env w keys hread] at h4
  refine ⟨?_, h1, h2⟩
  cases hs : (SyncService.syncKeys env keys (cnt, w)).1 with
  | mk s1 f1 =>
    cases hc : (CartSyncer.syncKeys env keys (cnt, w)).1 with
    | mk s2 f2 =>
      rw [hs, hc] at h3 h4
      simp only at h3 h4
      have e1 : s1 = s2 := by omega
      have e2 : f1 = f2 := by omega
      rw [e1, e2]

/-- The counters and the upsert calls of the `CartSyncer` loop over readable keys. -/
theorem CartSyncer.syncKeys_counts {F : Type} (env : SyncEnv) (keys : List String)
    (acc : SyncCount × World F) (hwf : cacheKeyed acc.2)
    (hread : ∀ k ∈ keys, readable env acc.2 k) :
    (CartSyncer.syncKeys env keys acc).1 =
      { synced := acc.1.synced + (keys.length - countUpsertFaults env keys),
        failed := acc.1.failed + countUpsertFaults env keys } ∧
    upsertedUsers (CartSyncer.syncKeys env keys acc).2.trace =
      upsertedUsers acc.2.trace ++ keys.map trimCartKey := by
  induction keys generalizing acc with
  | nil => simp [CartSyncer.syncKeys, countUpsertFaults]
  | cons k rest ih =>
    obtain ⟨cnt, w⟩ := acc
    obtain ⟨hne, hr, ent, hk⟩ := hread k (List.mem_cons_self _ _)
    have hid := cacheKeyed_entry w _ ent hwf hk
    have hstep := CartSyncer.syncKey_readable env cnt w k ent hne hr hk
    have hredis := CartSyncer.syncKey_redis env (cnt, w) k
    have hwf1 : cacheKeyed (CartSyncer.syncKey env (cnt, w) k).2 := by
      unfold cacheKeyed
      rw [hredis]
      exact hwf
    have hread1 : ∀ k1 ∈ rest, readable env (CartSyncer.syncKey env (cnt, w) k).2 k1 :=
      fun k1 hk1 => readable_of_redis_eq env w _ k1 hredis
        (hread k1 (List.mem_cons_of_mem _ hk1))
    obtain ⟨h1, h2⟩ := ih (CartSyncer.syncKey env (cnt, w) k) hwf1 hread1
    have hle : countUpsertFaults env rest ≤ rest.length := by
      unfold countUpsertFaults
      exact List.length_filter_le _ _
    simp only [CartSyncer.syncKeys, List.foldl_cons] at h1 h2 ⊢
    rw [h1, h2, hstep]
    constructor
    · cases hu : env.mongoUpsert (trimCartKey k) with
      | none =>
        have hc : countUpsertFaults env (k :: rest) = countUpsertFaults env rest := by
          simp [countUpsertFaults, List.filter_cons, hu]
        rw [hc]
        simp only [List.length_cons, SyncCount.mk.injEq, and_true]
        omega
      | some e =>
        have hc : countUpsertFaults env (k :: rest) = countUpsertFaults env rest + 1 := by
          simp [countUpsertFaults, List.filter_cons, hu]
        rw [hc]
        simp only [List.length_cons, SyncCount.mk.injEq, true_and]
        omega
    · cases hu : env.mongoUpsert (trimCartKey k) <;>
        simp [mongoUpsertCart, record, upsertedUsers_append, upsertedUsers, hid]

theorem kvGet_of_mem_keys {V : Type} (k : String) (l : List (String × V))
    (h : k ∈ l.map (fun p => p.1)) : ∃ v, kvGet k l = some v := by
  induction l with
  | nil => simp at h
  | cons p rest ih =>
    obtain ⟨k1, v1⟩ := p
    by_cases hk : k1 = k
    · exact ⟨v1, by simp [kvGet, hk]⟩
    · simp only [List.map_cons, List.mem_cons] at h
      rcases h with h | h
      · exact absurd h.symm hk
      · obtain ⟨v, hv⟩ := ih h
        exact ⟨v, by simp [kvGet, hk, hv]⟩

/-- A listed key with a non-empty user id whose cache read succeeds is readable. -/
theorem readable_of_listed {F : Type} (env : SyncEnv) (w : World F) (key : String)
    (hk : key ∈ listedKeys w) (hne : trimCartKey key ≠ "")
    (hr : env.redisGet (trimCartKey key) = none) : readable env w key := by
  simp only [listedKeys, List.mem_filter] at hk
  obtain ⟨hmem, htag⟩ := hk
  refine ⟨hne, hr, ?_⟩
  rw [cartKey_trimCartKey key htag]
  exact kvGet_of_mem_keys key w.redis hmem

theorem listing_ok {F : Type} (fault : Option Err) (w : World F) (keys : List String)
    (h : (redisGetAllCartKeys fault w).1 = .ok keys) : fault = none ∧ keys = listedKeys w := by
  cases fault with
  | some e => simp [redisGetAllCartKeys] at h
  | none =>
    simp only [redisGetAllCartKeys, Except.ok.injEq] at h
    exact ⟨rfl, h.symm⟩

theorem CartSyncer.syncAll_eq {F : Type} (env : SyncEnv) (w : World F)
    (hl : env.keysErr = none) :
    CartSyncer.syncAll env w =
      (if (CartSyncer.syncKeys env (listedKeys w)
              ({ synced := 0, failed := 0 }, record Call.redisGetAllCartKeys w)).1.synced > 0 ∨
          (CartSyncer.syncKeys env (listedKeys w)
              ({ synced := 0, failed := 0 }, record Call.redisGetAllCartKeys w)).1.failed > 0
        then some { synced := (CartSyncer.syncKeys env (listedKeys w)
              ({ synced := 0, failed := 0 }, record Call.redisGetAllCartKeys w)).1.synced,
                    failed := (CartSyncer.syncKeys env (listedKeys w)
              ({ synced := 0, failed := 0 }, record Call.redisGetAllCartKeys w)).1.failed,
                    total := (listedKeys w).length }
        else none,
       (CartSyncer.syncKeys env (listedKeys w)
          ({ synced := 0, failed := 0 }, record Call.redisGetAllCartKeys w)).2) := by
  simp only [CartSyncer.syncAll, redisGetAllCartKeys, hl]
  split <;> rfl

theorem SyncService.syncAll_unfold {F : Type} (env : SyncEnv) (w : World F)
    (hl : env.keysErr = none) (hn : (listedKeys w).length ≠ 0) :
    SyncService.syncAll env w =
      (some (SyncService.syncKeys env (listedKeys w)
          ({ synced := 0, failed := 0 }, record Call.redisGetAllCartKeys w)).1,
       (SyncService.syncKeys env (listedKeys w)
          ({ synced := 0, failed := 0 }, record Call.redisGetAllCartKeys w)).2) := by
  simp [SyncService.syncAll, RedisRepository.GetAllActiveCartKeys, hl, hn]

/-- A run of `CartSyncer.syncAll` over readable keys: summary, upsert calls, and the cache. -/
theorem CartSyncer.syncAll_readable {F : Type} (env : SyncEnv) (w : World F)
    (hwf : cacheKeyed w) (hl : env.keysErr = none)
    (hne : ∀ k ∈ listedKeys w, trimCartKey k ≠ "")
    (hread : ∀ k ∈ listedKeys w, env.redisGet (trimCartKey k) = none)
    (hn : (listedKeys w).length ≠ 0) :
    (CartSyncer.syncAll env w).1 =
      some { synced := (listedKeys w).length - countUpsertFaults env (listedKeys w),
             failed := countUpsertFaults env (listedKeys w),
             total := (listedKeys w).length } ∧
    upsertedUsers (CartSyncer.syncAll env w).2.trace =
      upsertedUsers w.trace ++ (listedKeys w).map trimCartKey ∧
    (CartSyncer.syncAll env w).2.redis = w.redis := by
  have hr : ∀ k ∈ listedKeys w, readable env (record Call.redisGetAllCartKeys w) k :=
    fun k hk => readable_of_redis_eq env w _ k rfl
      (readable_of_listed env w k hk (hne k hk) (hread k hk))
  obtain ⟨h1, h2⟩ := CartSyncer.syncKeys_counts env (listedKeys w)
    ({ synced := 0, failed := 0 }, record Call.redisGetAllCartKeys w) hwf hr
  have h3 := CartSyncer.syncKeys_redis env (listedKeys w)
    ({ synced := 0, failed := 0 }, record Call.redisGetAllCartKeys w)
  have hle : countUpsertFaults env (listedKeys w) ≤ (listedKeys w).length := by
    unfold countUpsertFaults
    exact List.length_filter_le _ _
  have hpos : (listedKeys w).length - countUpsertFaults env (listedKeys w) > 0 ∨
      countUpsertFaults env (listedKeys w) > 0 := by omega
  rw [CartSyncer.syncAll_eq env w hl, h1]
  simp only [Nat.zero_add, hpos, if_true]
  refine ⟨trivial, ?_, h3⟩
  rw [h2]
  simp [record, upsertedUsers_append, upsertedUsers]

/-- A run of `SyncService.syncAll` over readable keys: the counters of `CartSyncer.syncAll`,
and the cache. -/
theorem SyncService.syncAll_counters {F : Type} (env : SyncEnv) (w : World F)
    (hwf : cacheKeyed w) (hl : env.keysErr = none)
    (hne : ∀ k ∈ listedKeys w, trimCartKey k ≠ "")
    (hread : ∀ k ∈ listedKeys w, env.redisGet (trimCartKey k) = none)
    (hn : (listedKeys w).length ≠ 0) :
    (SyncService.syncAll env w).1 =
      some { synced := (listedKeys w).length - countUpsertFaults env (listedKeys w),
             failed := countUpsertFaults env (listedKeys w) } ∧
    (SyncService.syncAll env w).2.redis = w.redis := by
  have hr : ∀ k ∈ listedKeys w, readable env (record Call.redisGetAllCartKeys w) k :=
    fun k hk => readable_of_redis_eq env w _ k rfl
      (readable_of_listed env w k hk (hne k hk) (hread k hk))
  obtain ⟨h1, _⟩ := CartSyncer.syncKeys_counts env (listedKeys w)
    ({ synced := 0, failed := 0 }, record Call.redisGetAllCartKeys w) hwf hr
  have h3 := CartSyncer.syncKeys_redis env (listedKeys w)
    ({ synced := 0, failed := 0 }, record Call.redisGetAllCartKeys w)
  obtain ⟨g1, g2, _⟩ := SyncService.syncKeys_readable env (listedKeys w)
    { synced := 0, failed := 0 } (record Call.redisGetAllCartKeys w) hr
  rw [SyncService.syncAll_unfold env w hl hn]
  refine ⟨?_, ?_⟩
  · show some _ = some _
    rw [g1, h1]
    simp
  · show (SyncService.syncKeys env (listedKeys w) _).2.redis = w.redis
    rw [g2, h3]
    rfl

theorem listedKeys_congr {F : Type} (w w1 : World F) (h : w1.redis = w.redis) :
    listedKeys w1 = listedKeys w := by
  simp [listedKeys, h]

/-! ## C17: a run with one failing upsert -/

/-- C17. When the listing returns N keys, all with a non-empty user id and a readable cart, and
the durable upsert fails for exactly one of them, a run of `CartSyncer.syncAll` calls the upsert
for the user of every key and ends with synced = N-1, failed = 1; a following run in which no
upsert fails calls the upsert for every key again, that key included, and ends with synced = N,
failed = 0. `SyncService.syncAll` ends both runs with the same counters. -/
theorem reconciler_run_with_one_failure {F : Type} (env env2 : SyncEnv) (w : World F)
    (keys : List String) (hwf : cacheKeyed w)
    (hlist : (redisGetAllCartKeys env.keysErr w).1 = .ok keys)
    (hlist2 : env2.keysErr = none)
    (hne : ∀ k ∈ keys, trimCartKey k ≠ "")
    (hread : ∀ k ∈ keys, env.redisGet (trimCartKey k) = none)
    (hread2 : ∀ k ∈ keys, env2.redisGet (trimCartKey k) = none)
    (hone : countUpsertFaults env keys = 1)
    (hfixed : countUpsertFaults env2 keys = 0) :
    (CartSyncer.syncAll env w).1 =
      some { synced := keys.length - 1, failed := 1, total := keys.length } ∧
    upsertedUsers (CartSyncer.syncAll env w).2.trace =
      upsertedUsers w.trace ++ keys.map trimCartKey ∧
    (CartSyncer.syncAll env2 (CartSyncer.syncAll env w).2).1 =
      some { synced := keys.length, failed := 0, total := keys.length } ∧
    upsertedUsers (CartSyncer.syncAll env2 (CartSyncer.syncAll env w).2).2.trace =
      upsertedUsers (CartSyncer.syncAll env w).2.trace ++ keys.map trimCartKey ∧
    (SyncService.syncAll env w).1 = some { synced := keys.length - 1, failed := 1 } ∧
    (SyncService.syncAll env2 (SyncService.syncAll env w).2).1 =
      some { synced := keys.length, failed := 0 } := by
  obtain ⟨hl, hkeys⟩ := listing_ok env.keysErr w keys hlist
  subst hkeys
  have hle : countUpsertFaults env (listedKeys w) ≤ (listedKeys w).length := by
    unfold countUpsertFaults
    exact List.length_filter_le _ _
  have hn : (listedKeys w).length ≠ 0 := by omega
  obtain ⟨a1, a2, a3⟩ := CartSyncer.syncAll_readable env w hwf hl hne hread hn
  obtain ⟨a4, a5⟩ := SyncService.syncAll_counters env w hwf hl hne hread hn
  have hk1 : listedKeys (CartSyncer.syncAll env w).2 = listedKeys w := listedKeys_congr _ _ a3
  have hk2 : listedKeys (SyncService.syncAll env w).2 = listedKeys w := listedKeys_congr _ _ a5
  have hwf1 : cacheKeyed (CartSyncer.syncAll env w).2 := by
    unfold cacheKeyed
    rw [a3]
    exact hwf
  have hwf2 : cacheKeyed (SyncService.syncAll env w).2 := by
    unfold cacheKeyed
    rw [a5]
    exact hwf
  obtain ⟨b1, b2, _⟩ := CartSyncer.syncAll_readable env2 (CartSyncer.syncAll env w).2 hwf1
    hlist2 (by rw [hk1]; exact hne) (by rw [hk1]; exact hread2) (by rw [hk1]; exact hn)
  obtain ⟨b4, _⟩ := SyncService.syncAll_counters env2 (SyncService.syncAll env w).2 hwf2
    hlist2 (by rw [hk2]; exact hne) (by rw [hk2]; exact hread2) (by rw [hk2]; exact hn)
  simp only [hk1, hfixed, Nat.sub_zero] at b1 b2
  simp only [hk2, hfixed, Nat.sub_zero] at b4
  simp only [hone] at a1 a4
  exact ⟨a1, a2, b1, b2, a4, b4⟩

theorem reconciler_run_with_one_failure_witness :
    cacheKeyed exWorldSync ∧ countUpsertFaults exSyncEnvBad ["cart:u1", "cart:u2"] = 1 ∧
    (CartSyncer.syncAll exSyncEnvBad exWorldSync).1 =
      some { synced := 1, failed := 1, total := 2 } ∧
    upsertedUsers (CartSyncer.syncAll exSyncEnvBad exWorldSync).2.trace = ["u1", "u2"] ∧
    (CartSyncer.syncAll exSyncEnv (CartSyncer.syncAll exSyncEnvBad exWorldSync).2).1 =
      some { synced := 2, failed := 0, total := 2 } :=
  ⟨by decide, by decide,
    (reconciler_run_with_one_failure exSyncEnvBad exSyncEnv exWorldSync ["cart:u1", "cart:u2"]
      (by decide) (by rfl) (by rfl) (by decide) (by decide) (by decide) (by decide)
      (by decide)).1,
    (reconciler_run_with_one_failure exSyncEnvBad exSyncEnv exWorldSync ["cart:u1", "cart:u2"]
      (by decide) (by rfl) (by rfl) (by decide) (by decide) (by decide) (by decide)
      (by decide)).2.1,
    (reconciler_run_with_one_failure exSyncEnvBad exSyncEnv exWorldSync ["cart:u1", "cart:u2"]
      (by decide) (by rfl) (by rfl) (by decide) (by decide) (by decide) (by decide)
      (by decide)).2.2.1⟩

theorem findOne_updateOneUpsert_other {F : Type} (cart : Cart F) (now : Time)
    (newDocID : String) (docs : List (MongoDoc F)) (userID : String)
    (h : cart.UserID ≠ userID) :
    findOne userID (updateOneUpsert cart now newDocID docs) = findOne userID docs := by
  induction docs with
  | nil => simp [updateOneUpsert, findOne, insertDoc, h]
  | cons d rest ih =>
    by_cases hk : d.user_id = cart.UserID
    · have hk2 : ¬ d.user_id = userID := fun e => h (hk.symm.trans e)
      simp [updateOneUpsert, findOne, hk, applySet, h, hk2]
    · by_cases hk2 : d.user_id = userID
      · have hk3 : ¬ userID = cart.UserID := fun e => h e.symm
        simp [updateOneUpsert, findOne, hk2, hk3]
      · simp [updateOneUpsert, findOne, hk, hk2, ih]

theorem findOne_updateOneUpsert_user {F : Type} (cart : Cart F) (now : Time)
    (newDocID : String) (docs : List (MongoDoc F)) (userID : String)
    (h : cart.UserID = userID) :
    ∃ d, findOne userID (updateOneUpsert cart now newDocID docs) = some d ∧
      d.items = cart.Items.map storeItem ∧ d.total_items = cart.TotalItems ∧
      d.total_price = cart.TotalPrice ∧ d.updated_at = truncMs cart.UpdatedAt := by
  subst h
  exact findOne_updateOneUpsert cart now newDocID docs

/-- What one key of the `CartSyncer` loop does to the durable store: nothing, or the upsert of
the cart cached for the user of the key. -/
theorem CartSyncer.syncKey_mongo {F : Type} (env : SyncEnv) (acc : SyncCount × World F)
    (key : String) :
    (CartSyncer.syncKey env acc key).2.mongo = acc.2.mongo ∨
    ∃ ent, trimCartKey key ≠ "" ∧ env.redisGet (trimCartKey key) = none ∧
      env.mongoUpsert (trimCartKey key) = none ∧
      kvGet (cartKey (trimCartKey key)) acc.2.redis = some ent ∧
      (CartSyncer.syncKey env acc key).2.mongo =
        updateOneUpsert { ent.data with Source := "redis",
                                        SyncedAt := some (env.nowSync (trimCartKey key)) }
          (env.nowSync (trimCartKey key)) (env.newDocID (trimCartKey key)) acc.2.mongo := by
  by_cases hne : trimCartKey key = ""
  · left; simp [CartSyncer.syncKey, hne]
  · cases hr : env.redisGet (trimCartKey key) with
    | some e => left; simp [CartSyncer.syncKey, hne, redisGetCart, hr, record]
    | none =>
      cases hk : kvGet (cartKey (trimCartKey key)) acc.2.redis with
      | none => left; simp [CartSyncer.syncKey, hne, redisGetCart, hr, hk, record]
      | some ent =>
        cases hu : env.mongoUpsert (trimCartKey key) with
        | some e =>
          left
          simp [CartSyncer.syncKey, hne, redisGetCart, hr, hk, record, mongoUpsertCart, hu]
        | none =>
          right
          refine ⟨ent, hne, rfl, rfl, rfl, ?_⟩
          simp [CartSyncer.syncKey, hne, redisGetCart, hr, hk, record, mongoUpsertCart, hu]

/-- A step of the loop keeps every cached cart that is durable durable. -/
theorem CartSyncer.syncKey_keeps {F : Type} (env : SyncEnv) (acc : SyncCount × World F)
    (key : String) (hwf : cacheKeyed acc.2) (userID : String) (ent : RedisEntry F)
    (hk : kvGet (cartKey userID) acc.2.redis = some ent)
    (hd : durableHolds userID ent.data acc.2.mongo) :
    durableHolds userID ent.data (CartSyncer.syncKey env acc key).2.mongo := by
  rcases CartSyncer.syncKey_mongo env acc key with h | ⟨ent1, _, _, _, hk1, h⟩
  · rw [h]; exact hd
  · rw [h]
    have hid1 := cacheKeyed_entry acc.2 _ ent1 hwf hk1
    by_cases hu : trimCartKey key = userID
    · rw [hu] at hk1 hid1
      rw [hk] at hk1
      have he : ent = ent1 := Option.some.inj hk1
      subst he
      exact findOne_updateOneUpsert_user
        ({ ent.data with Source := "redis",
                         SyncedAt := some (env.nowSync (trimCartKey key)) } : Cart F)
        (env.nowSync (trimCartKey key)) (env.newDocID (trimCartKey key)) acc.2.mongo userID
        hid1
    · obtain ⟨d, hf, hrest⟩ := hd
      refine ⟨d, ?_, hrest⟩
      rw [findOne_updateOneUpsert_other _ _ _ _ userID (by rw [hid1]; exact hu)]
      exact hf

/-- A step of the loop on a readable key whose upsert succeeds makes its cart durable. -/
theorem CartSyncer.syncKey_makes_durable {F : Type} (env : SyncEnv)
    (acc : SyncCount × World F) (key : String) (hwf : cacheKeyed acc.2) (ent : RedisEntry F)
    (hne : trimCartKey key ≠ "") (hr : env.redisGet (trimCartKey key) = none)
    (hu : env.mongoUpsert (trimCartKey key) = none)
    (hk : kvGet (cartKey (trimCartKey key)) acc.2.redis = some ent) :
    durableHolds (trimCartKey key) ent.data (CartSyncer.syncKey env acc key).2.mongo := by
  have hid := cacheKeyed_entry acc.2 _ ent hwf hk
  obtain ⟨cnt, w⟩ := acc
  rw [CartSyncer.syncKey_readable env cnt w key ent hne hr hk]
  simp only [mongoUpsertCart, hu, record]
  exact findOne_updateOneUpsert_user
    ({ ent.data with Source := "redis",
                     SyncedAt := some (env.nowSync (trimCartKey key)) } : Cart F)
    (env.nowSync (trimCartKey key)) (env.newDocID (trimCartKey key)) w.mongo (trimCartKey key)
    hid

/-- The loop keeps every cached cart that is durable durable. -/
theorem CartSyncer.syncKeys_keeps {F : Type} (env : SyncEnv) (keys : List String)
    (acc : SyncCount × World F) (hwf : cacheKeyed acc.2) (userID : String)
    (ent : RedisEntry F) (hk : kvGet (cartKey userID) acc.2.redis = some ent)
    (hd : durableHolds userID ent.data acc.2.mongo) :
    durableHolds userID ent.data (CartSyncer.syncKeys env keys acc).2.mongo := by
  induction keys generalizing acc with
  | nil => exact hd
  | cons k rest ih =>
    have hredis := CartSyncer.syncKey_redis env acc k
    simp only [CartSyncer.syncKeys, List.foldl_cons] at ih ⊢
    apply ih
    · unfold cacheKeyed; rw [hredis]; exact hwf
    · rw [hredis]; exact hk
    · exact CartSyncer.syncKey_keeps env acc k hwf userID ent hk hd

/-- After the loop, the cart of every readable key whose upsert succeeded is durable. -/
theorem CartSyncer.syncKeys_makes_durable {F : Type} (env : SyncEnv) (keys : List String)
    (acc : SyncCount × World F) (hwf : cacheKeyed acc.2) (key : String) (ent : RedisEntry F)
    (hmem : key ∈ keys) (hne : trimCartKey key ≠ "")
    (hr : env.redisGet (trimCartKey key) = none)
    (hu : env.mongoUpsert (trimCartKey key) = none)
    (hk : kvGet (cartKey (trimCartKey key)) acc.2.redis = some ent) :
    durableHolds (trimCartKey key) ent.data (CartSyncer.syncKeys env keys acc).2.mongo := by
  induction keys generalizing acc with
  | nil => simp at hmem
  | cons k rest ih =>
    have hredis := CartSyncer.syncKey_redis env acc k
    have hwf1 : cacheKeyed (CartSyncer.syncKey env acc k).2 := by
      unfold cacheKeyed; rw [hredis]; exact hwf
    simp only [List.mem_cons] at hmem
    by_cases hkk : key = k
    · subst hkk
      have h1 := CartSyncer.syncKey_makes_durable env acc key hwf ent hne hr hu hk
      simp only [CartSyncer.syncKeys, List.foldl_cons]
      exact CartSyncer.syncKeys_keeps env rest (CartSyncer.syncKey env acc key) hwf1 _ ent
        (by rw [hredis]; exact hk) h1
    · simp only [CartSyncer.syncKeys, List.foldl_cons] at ih ⊢
      rcases hmem with h | h
      · exact absurd h hkk
      · exact ih (CartSyncer.syncKey env acc k) hwf1 h (by rw [hredis]; exact hk)

/-! ## C18: a run that heals -/

/-- C18 (amended). After a run of `CartSyncer.syncAll` in which the listing, every cache read
and every durable upsert succeed, the durable store holds, for every non-empty user id `u` with
a cache entry under `cart:<u>`, a document for `u` whose `total_items` and `total_price` are
those of the cart cached for `u` and whose items and `updated_at` are those of that cart with
every time truncated to the millisecond, the precision of a stored datetime; whatever the
durable store held before. -/
theorem reconciler_makes_cache_durable {F : Type} (env : SyncEnv) (w : World F)
    (hwf : cacheKeyed w) (hl : env.keysErr = none)
    (hread : ∀ u, env.redisGet u = none) (hup : ∀ u, env.mongoUpsert u = none)
    (userID : String) (ent : RedisEntry F) (hne : userID ≠ "")
    (hk : kvGet (cartKey userID) w.redis = some ent) :
    cartKey userID ∈ listedKeys w ∧
    ∃ d, findOne userID (CartSyncer.syncAll env w).2.mongo = some d ∧
      d.items = ent.data.Items.map storeItem ∧ d.total_items = ent.data.TotalItems ∧
      d.total_price = ent.data.TotalPrice ∧ d.updated_at = truncMs ent.data.UpdatedAt := by
  have hmem : cartKey userID ∈ listedKeys w := by
    simp only [listedKeys, List.mem_filter, isCartKey_cartKey, and_true]
    have := kvGet_mem _ _ _ hk
    exact List.mem_map.2 ⟨_, this, rfl⟩
  refine ⟨hmem, ?_⟩
  have ht := trimCartKey_cartKey userID
  have h := CartSyncer.syncKeys_makes_durable env (listedKeys w)
    ({ synced := 0, failed := 0 }, record Call.redisGetAllCartKeys w) hwf (cartKey userID) ent
    hmem (by rw [ht]; exact hne) (hread _) (hup _) (by rw [ht]; exact hk)
  rw [ht] at h
  rw [CartSyncer.syncAll_eq env w hl]
  exact h

theorem reconciler_makes_cache_durable_witness :
    findOne "u2" exWorldSync.mongo = none ∧
    ∃ d, findOne "u2" (CartSyncer.syncAll exSyncEnv exWorldSync).2.mongo = some d ∧
      d.items = exCart2.Items.map storeItem ∧ d.total_items = exCart2.TotalItems ∧
      d.total_price = exCart2.TotalPrice ∧ d.updated_at = truncMs exCart2.UpdatedAt :=
  ⟨by rfl,
    (reconciler_makes_cache_durable exSyncEnv exWorldSync (by decide) (by rfl)
      (fun _ => rfl) (fun _ => rfl) "u2"
      { data := { exCart2 with UserID := "u2", SyncedAt := none }, ttl := 604800 }
      (by decide) (by rfl)).2⟩

/-- C18 (counterexample). The cache holds for `u1` a cart stamped by `time.Now()` with
nanoseconds and the durable store is empty; a run of `CartSyncer.syncAll` in which every store
call succeeds syncs the one key, and the document of `u1` then has an `updated_at` that is not
the `UpdatedAt` of the cached cart, and items that are not its items: the times were truncated
to the millisecond. -/
theorem reconciler_stores_truncated_times :
    kvGet (cartKey "u1") exWorldNano.redis = some ⟨exCartNano, 604800⟩ ∧
    (CartSyncer.syncAll exSyncEnv exWorldNano).1 = some { synced := 1, failed := 0, total := 1 } ∧
    ∃ d, findOne "u1" (CartSyncer.syncAll exSyncEnv exWorldNano).2.mongo = some d ∧
      d.updated_at = 1700000000001000000 ∧ exCartNano.UpdatedAt = 1700000000001614472 ∧
      d.updated_at ≠ exCartNano.UpdatedAt ∧ d.items ≠ exCartNano.Items ∧
      d.total_items = exCartNano.TotalItems ∧ d.total_price = exCartNano.TotalPrice := by
  refine ⟨by rfl, by rfl, _, by rfl, by rfl, by rfl, by decide, by decide, by rfl, by rfl⟩

/-! ## C19: a key whose entry is gone -/

/-- C19. In a reconciler run, when the cache read of a listed key with a non-empty user id
succeeds and finds no entry, the step makes the cache read and nothing else: the counters of
`CartSyncer` are unchanged (in `SyncService` the failed counter is unchanged, the key counts as
synced), the durable store is not called, and the loop goes on with the remaining keys. -/
theorem reconciler_skips_absent_entry {F : Type} (env : SyncEnv) (cnt : SyncCount)
    (w : World F) (key : String) (rest : List String)
    (hne : trimCartKey key ≠ "") (hr : env.redisGet (trimCartKey key) = none)
    (hk : kvGet (cartKey (trimCartKey key)) w.redis = none) :
    CartSyncer.syncKey env (cnt, w) key =
      (cnt, record (Call.redisGetCart (trimCartKey key)) w) ∧
    CartSyncer.syncKeys env (key :: rest) (cnt, w) =
      CartSyncer.syncKeys env rest (cnt, record (Call.redisGetCart (trimCartKey key)) w) ∧
    SyncService.syncKey env (cnt, w) key =
      ({ cnt with synced := cnt.synced + 1 },
        record (Call.redisGetCart (trimCartKey key)) w) ∧
    SyncService.syncKeys env (key :: rest) (cnt, w) =
      SyncService.syncKeys env rest
        ({ cnt with synced := cnt.synced + 1 },
          record (Call.redisGetCart (trimCartKey key)) w) ∧
    (record (Call.redisGetCart (trimCartKey key)) w).mongo = w.mongo ∧
    (record (Call.redisGetCart (trimCartKey key)) w).trace =
      w.trace ++ [Call.redisGetCart (trimCartKey key)] := by
  have h1 : CartSyncer.syncKey env (cnt, w) key =
      (cnt, record (Call.redisGetCart (trimCartKey key)) w) := by
    simp [CartSyncer.syncKey, hne, redisGetCart, hr, hk]
  have h2 : SyncService.syncKey env (cnt, w) key =
      ({ cnt with synced := cnt.synced + 1 },
        record (Call.redisGetCart (trimCartKey key)) w) := by
    simp [SyncService.syncKey, SyncService.syncCart, hne, RedisRepository.GetCart, hr, hk]
  refine ⟨h1, ?_, h2, ?_, rfl, rfl⟩
  · simp only [CartSyncer.syncKeys, List.foldl_cons, h1]
  · simp only [SyncService.syncKeys, List.foldl_cons, h2]

theorem reconciler_skips_absent_entry_witness :
    kvGet (cartKey (trimCartKey "cart:u9")) exWorldSync.redis = none ∧
    CartSyncer.syncKeys exSyncEnv ["cart:u9", "cart:u1"] ({ synced := 0, failed := 0 },
        exWorldSync) =
      CartSyncer.syncKeys exSyncEnv ["cart:u1"] ({ synced := 0, failed := 0 },
        record (Call.redisGetCart "u9") exWorldSync) ∧
    (CartSyncer.syncKeys exSyncEnv ["cart:u9", "cart:u1"] ({ synced := 0, failed := 0 },
        exWorldSync)).1 = { synced := 1, failed := 0 } :=
  ⟨by rfl,
    (reconciler_skips_absent_entry exSyncEnv { synced := 0, failed := 0 } exWorldSync "cart:u9"
      ["cart:u1"] (by decide) (by rfl) (by rfl)).2.1,
    by rfl⟩

theorem CartSyncer.Start_ticks {W : Type} (syncAll : Trigger → W → W) (k : Nat)
    (more : List SelectCase) (w : W) :
    (CartSyncer.Start syncAll (List.replicate k SelectCase.tick ++ SelectCase.stop :: more)
      w).1 = k := by
  induction k generalizing w with
  | zero => rfl
  | succ n ih =>
    simp only [List.replicate_succ, List.cons_append, CartSyncer.Start]
    exact congrArg (fun n => n + 1) (ih (syncAll Trigger.tick w))

theorem SyncService.loop_ticks {W : Type} (syncAll : Trigger → W → W) (k : Nat)
    (more : List SelectCase) (w : W) :
    (SyncService.loop syncAll (List.replicate k SelectCase.tick ++ SelectCase.stop :: more)
      w).1 = k + 1 := by
  induction k generalizing w with
  | zero => rfl
  | succ n ih =>
    simp only [List.replicate_succ, List.cons_append, SyncService.loop]
    exact congrArg (fun n => n + 1) (ih (syncAll Trigger.tick w))

/-! ## C20: when the reconciler runs -/

/-- C20 (the code at the failing input). For k ticks followed by a stop, whatever follows,
`CartSyncer.Start` — the reconciler the server starts — performs k runs, all triggered by
ticks: none at startup and none on stop; `SyncService.Start` performs k+2 runs: one at startup,
one per tick and a final one on stop. -/
theorem cartSyncer_runs_on_ticks_only {W : Type} (syncAll : Trigger → W → W) (k : Nat)
    (more : List SelectCase) (w : W) :
    (CartSyncer.Start syncAll (List.replicate k SelectCase.tick ++ SelectCase.stop :: more)
      w).1 = k ∧
    (SyncService.Start syncAll (List.replicate k SelectCase.tick ++ SelectCase.stop :: more)
      w).1 = k + 2 ∧
    (CartSyncer.Start logTrigger [SelectCase.tick, SelectCase.tick, SelectCase.stop] []).2 =
      [Trigger.tick, Trigger.tick] ∧
    (SyncService.Start logTrigger [SelectCase.tick, SelectCase.tick, SelectCase.stop,
        SelectCase.tick] []).2 =
      [Trigger.startup, Trigger.tick, Trigger.tick, Trigger.final] := by
  refine ⟨CartSyncer.Start_ticks syncAll k more w, ?_, by rfl, by rfl⟩
  simp only [SyncService.Start]
  rw [SyncService.loop_ticks]

/-! ## The migration lease -/

theorem acquireLock_ok_iff (env : MigEnv) (db : MigDb) (hf : env.lockErr = none) :
    (Runner.acquireLock env db).1 = none ↔
      (db.lock = none ∨ ∃ l, db.lock = some l ∧ (l.locked = false ∨ l.expiresAt < env.nowFilter)) := by
  cases hl : db.lock with
  | none => simp [Runner.acquireLock, hf, hl]
  | some l =>
    by_cases ha : leaseAvailable env.nowFilter l = true
    · have : l.locked = false ∨ l.expiresAt < env.nowFilter := by
        simpa [leaseAvailable] using ha
      simp [Runner.acquireLock, hf, hl, ha, this]
    · have hn : ¬ (l.locked = false ∨ l.expiresAt < env.nowFilter) := by
        simpa [leaseAvailable] using ha
      cases hc : env.lockConflict <;> simp [Runner.acquireLock, hf, hl, ha, hc, hn]

theorem acquireLock_ok_lock (env : MigEnv) (db : MigDb)
    (h : (Runner.acquireLock env db).1 = none) :
    (Runner.acquireLock env db).2 =
      { logCall MigCall.acquire db with
        lock := some { locked := true, lockedAt := env.nowLocked,
                       expiresAt := env.nowExpires + fiveMinutes } } := by
  cases hf : env.lockErr with
  | some e => simp [Runner.acquireLock, hf] at h
  | none =>
    cases hl : db.lock with
    | none => simp [Runner.acquireLock, hf, hl]
    | some l =>
      by_cases ha : leaseAvailable env.nowFilter l = true
      · simp [Runner.acquireLock, hf, hl, ha]
      · cases hc : env.lockConflict <;> simp [Runner.acquireLock, hf, hl, ha, hc] at h

theorem acquireLock_fail_db (env : MigEnv) (db : MigDb) (e : Err)
    (h : (Runner.acquireLock env db).1 = some e) :
    (Runner.acquireLock env db).2 = logCall MigCall.acquire db := by
  cases hf : env.lockErr with
  | some e1 => simp [Runner.acquireLock, hf]
  | none =>
    cases hl : db.lock with
    | none => simp [Runner.acquireLock, hf, hl] at h
    | some l =>
      by_cases ha : leaseAvailable env.nowFilter l = true
      · simp [Runner.acquireLock, hf, hl, ha] at h
      · cases hc : env.lockConflict <;> simp [Runner.acquireLock, hf, hl, ha, hc]

/-! ## C24: when the lease is acquired -/

/-- C24. With no driver error, `acquireLock` succeeds exactly when there is no lease document,
or the lease has `locked = false`, or its `expiresAt` is earlier than the time the filter is
built with, whatever its `locked` flag; on success the lease document has `locked = true`,
`lockedAt` the time of the attempt and `expiresAt` that time plus five minutes. Hence after a
successful attempt, a second attempt with no release in between whose time is not later than
that `expiresAt` fails. -/
theorem acquireLock_succeeds_iff_available (env env2 : MigEnv) (db : MigDb)
    (hf : env.lockErr = none) :
    ((Runner.acquireLock env db).1 = none ↔
      (db.lock = none ∨
        ∃ l, db.lock = some l ∧ (l.locked = false ∨ l.expiresAt < env.nowFilter))) ∧
    ((Runner.acquireLock env db).1 = none →
      (Runner.acquireLock env db).2.lock =
        some { locked := true, lockedAt := env.nowLocked,
               expiresAt := env.nowExpires + fiveMinutes } ∧
      (env2.nowFilter ≤ env.nowExpires + fiveMinutes →
        ∃ e, (Runner.acquireLock env2 (Runner.acquireLock env db).2).1 = some e)) := by
  refine ⟨acquireLock_ok_iff env db hf, ?_⟩
  intro h
  have hdb := acquireLock_ok_lock env db h
  refine ⟨by rw [hdb], ?_⟩
  intro hle
  rw [hdb]
  cases hf2 : env2.lockErr with
  | some e => exact ⟨e, by simp [Runner.acquireLock, hf2]⟩
  | none =>
    have hna : leaseAvailable env2.nowFilter
        { locked := true, lockedAt := env.nowLocked,
          expiresAt := env.nowExpires + fiveMinutes } = false := by
      simpa [leaseAvailable] using hle
    cases hc : env2.lockConflict <;> simp [Runner.acquireLock, hf2, hna, hc]

theorem acquireLock_succeeds_iff_available_witness :
    (Runner.acquireLock (migEnvOk 100) emptyDb).1 = none ∧
    (Runner.acquireLock (migEnvOk 100) emptyDb).2.lock =
      some { locked := true, lockedAt := 100, expiresAt := 100 + fiveMinutes } ∧
    ((migEnvOk 200).nowFilter ≤ (migEnvOk 100).nowExpires + fiveMinutes →
      ∃ e, (Runner.acquireLock (migEnvOk 200)
        (Runner.acquireLock (migEnvOk 100) emptyDb).2).1 = some e) :=
  ⟨by rfl,
    ((acquireLock_succeeds_iff_available (migEnvOk 100) (migEnvOk 200) emptyDb (by rfl)).2
      (by rfl)).1,
    ((acquireLock_succeeds_iff_available (migEnvOk 100) (migEnvOk 200) emptyDb (by rfl)).2
      (by rfl)).2⟩

theorem hasExecuted_upsertRecord_other (r : ChangeRecord) (changeId : String)
    (log : List ChangeRecord) (h : r.changeId ≠ changeId) :
    hasExecuted changeId (upsertRecord r log) = hasExecuted changeId log := by
  induction log with
  | nil => simp [upsertRecord, hasExecuted, h]
  | cons r1 rest ih =>
    by_cases hk : r1.changeId = r.changeId
    · have hk1 : ¬ r1.changeId = changeId := fun e => h (hk.symm.trans e)
      simp [upsertRecord, hasExecuted, hk, h, hk1]
    · simp only [hasExecuted] at ih
      simp [upsertRecord, hasExecuted, hk, ih]

theorem hasExecuted_upsertRecord_executed (r : ChangeRecord) (log : List ChangeRecord)
    (h : r.state = stateExecuted) : hasExecuted r.changeId (upsertRecord r log) = true := by
  induction log with
  | nil => simp [upsertRecord, hasExecuted, h]
  | cons r1 rest ih =>
    by_cases hk : r1.changeId = r.changeId
    · simp [upsertRecord, hasExecuted, hk, h]
    · simp only [hasExecuted] at ih
      simp [upsertRecord, hasExecuted, hk, ih]

theorem hasExecuted_upsertRecord_failed (r : ChangeRecord) (log : List ChangeRecord)
    (h : r.state ≠ stateExecuted) (hlog : hasExecuted r.changeId log = false) :
    hasExecuted r.changeId (upsertRecord r log) = false := by
  induction log with
  | nil => simp [upsertRecord, hasExecuted, h]
  | cons r1 rest ih =>
    by_cases hk : r1.changeId = r.changeId
    · simp only [hasExecuted, List.any_cons, hk, decide_True, Bool.true_and,
        Bool.or_eq_false_iff] at hlog
      simp only [hasExecuted] at ih
      simp [upsertRecord, hasExecuted, hk, h, hlog.2]
    · simp only [hasExecuted, List.any_cons, hk, decide_False, Bool.false_and,
        Bool.false_or] at hlog
      simp only [hasExecuted] at ih
      simp [upsertRecord, hasExecuted, hk, ih hlog]

theorem findRecord_upsertRecord_self (r : ChangeRecord) (log : List ChangeRecord) :
    findRecord r.changeId (upsertRecord r log) = some r := by
  induction log with
  | nil => simp [upsertRecord, findRecord]
  | cons r1 rest ih =>
    by_cases hk : r1.changeId = r.changeId
    · simp [upsertRecord, findRecord, hk]
    · simp only [findRecord] at ih
      simp [upsertRecord, findRecord, hk, ih]

theorem recordState_hasExecuted_other (env : MigEnv) (m : Migration) (state errMsg : String)
    (db : MigDb) (changeId : String) (h : m.id ≠ changeId) :
    hasExecuted changeId (Runner.recordState env m state errMsg db).changeLog =
      hasExecuted changeId db.changeLog := by
  cases hr : env.recordErr m.id with
  | some e => simp [Runner.recordState, hr, logCall]
  | none =>
    simp only [Runner.recordState, hr, logCall]
    exact hasExecuted_upsertRecord_other _ _ _ h

/-- The loop changes the `EXECUTED` state only of the migrations it is given. -/
theorem Runner.loop_hasExecuted_other (env : MigEnv) (ms : List Migration) (db : MigDb)
    (changeId : String) (h : changeId ∉ ms.map (fun m => m.id)) :
    hasExecuted changeId (Runner.loop env ms db).2.changeLog =
      hasExecuted changeId db.changeLog := by
  induction ms generalizing db with
  | nil => rfl
  | cons m rest ih =>
    simp only [List.map_cons, List.mem_cons, not_or] at h
    have hne : m.id ≠ changeId := fun e => h.1 e.symm
    cases hl : env.lookupErr m.id with
    | some e => simp [Runner.loop, Runner.isExecuted, hl, logCall]
    | none =>
      cases hx : hasExecuted m.id db.changeLog with
      | true =>
        simp only [Runner.loop, Runner.isExecuted, hl, hx]
        rw [ih _ h.2]
        rfl
      | false =>
        cases he : env.execErr m.id with
        | some e =>
          simp only [Runner.loop, Runner.isExecuted, hl, hx, he]
          rw [recordState_hasExecuted_other env m _ _ _ changeId hne]
          rfl
        | none =>
          simp only [Runner.loop, Runner.isExecuted, hl, hx, he]
          rw [ih _ h.2, recordState_hasExecuted_other env m _ _ _ changeId hne]
          rfl

/-- The loop never touches the lease document. -/
theorem Runner.loop_lock (env : MigEnv) (ms : List Migration) (db : MigDb) :
    (Runner.loop env ms db).2.lock = db.lock := by
  induction ms generalizing db with
  | nil => rfl
  | cons m rest ih =>
    cases hl : env.lookupErr m.id with
    | some e => simp [Runner.loop, Runner.isExecuted, hl, logCall]
    | none =>
      cases hx : hasExecuted m.id db.changeLog with
      | true =>
        simp only [Runner.loop, Runner.isExecuted, hl, hx]
        rw [ih]
        rfl
      | false =>
        cases he : env.execErr m.id with
        | some e =>
          simp only [Runner.loop, Runner.isExecuted, hl, hx, he]
          cases hr : env.recordErr m.id <;> simp [Runner.recordState, hr, logCall]
        | none =>
          simp only [Runner.loop, Runner.isExecuted, hl, hx, he]
          rw [ih]
          cases hr : env.recordErr m.id <;> simp [Runner.recordState, hr, logCall]

theorem pending_congr (ms : List Migration) (log log1 : List ChangeRecord)
    (h : ∀ m ∈ ms, hasExecuted m.id log1 = hasExecuted m.id log) :
    pending ms log1 = pending ms log := by
  unfold pending
  apply List.filter_congr
  intro m hm
  rw [h m hm]

theorem executedIds_append (a b : List MigCall) :
    executedIds (a ++ b) = executedIds a ++ executedIds b := by
  simp [executedIds, List.filterMap_append]

theorem recordState_calls (env : MigEnv) (m : Migration) (state errMsg : String) (db : MigDb) :
    (Runner.recordState env m state errMsg db).calls =
      db.calls ++ [MigCall.recordState m.id state] := by
  cases hr : env.recordErr m.id <;> simp [Runner.recordState, hr, logCall]

/-- The `Execute` calls of the loop and its result, when every lookup succeeds: the pending
migrations are executed in order up to and including the first that fails. -/
theorem Runner.loop_executes (env : MigEnv) (ms : List Migration) (db : MigDb)
    (hlook : ∀ m ∈ ms, env.lookupErr m.id = none)
    (hnd : (ms.map (fun m => m.id)).Nodup) :
    executedIds (Runner.loop env ms db).2.calls =
      executedIds db.calls ++
        (throughFirst (fails env) (pending ms db.changeLog)).map (fun m => m.id) ∧
    (Runner.loop env ms db).1 =
      ((pending ms db.changeLog).find? (fails env)).map
        (fun m => "migration " ++ m.id ++ " failed: " ++ (env.execErr m.id).getD "") := by
  induction ms generalizing db with
  | nil => simp [Runner.loop, pending, throughFirst]
  | cons m rest ih =>
    have hl := hlook m (List.mem_cons_self _ _)
    simp only [List.map_cons, List.nodup_cons] at hnd
    have hlook1 : ∀ m1 ∈ rest, env.lookupErr m1.id = none :=
      fun m1 h1 => hlook m1 (List.mem_cons_of_mem _ h1)
    cases hx : hasExecuted m.id db.changeLog with
    | true =>
      have hp : pending (m :: rest) db.changeLog = pending rest db.changeLog := by
        simp [pending, List.filter_cons, hx]
      obtain ⟨h1, h2⟩ := ih (logCall (MigCall.lookup m.id) db) hlook1 hnd.2
      simp only [Runner.loop, Runner.isExecuted, hl, hx, hp]
      rw [h1, h2]
      simp [logCall, executedIds_append, executedIds]
    | false =>
      have hp : pending (m :: rest) db.changeLog = m :: pending rest db.changeLog := by
        simp [pending, List.filter_cons, hx]
      cases he : env.execErr m.id with
      | some e =>
        have hfm : fails env m = true := by simp [fails, he]
        simp only [Runner.loop, Runner.isExecuted, hl, hx, he, hp, throughFirst, hfm, if_true,
          List.find?_cons, recordState_calls]
        simp [logCall, executedIds_append, executedIds, he]
      | none =>
        have hfm : fails env m = false := by simp [fails, he]
        obtain ⟨h1, h2⟩ := ih (Runner.recordState env m stateExecuted ""
          (logCall (MigCall.execute m.id) (logCall (MigCall.lookup m.id) db))) hlook1 hnd.2
        have hpc : pending rest (Runner.recordState env m stateExecuted ""
            (logCall (MigCall.execute m.id) (logCall (MigCall.lookup m.id) db))).changeLog =
            pending rest db.changeLog := by
          apply pending_congr
          intro m1 hm1
          rw [recordState_hasExecuted_other env m _ _ _ m1.id]
          · rfl
          · intro e
            exact hnd.1 (by rw [e]; exact List.mem_map.2 ⟨m1, hm1, rfl⟩)
        simp only [Runner.loop, Runner.isExecuted, hl, hx, he, hp, throughFirst, hfm,
          List.find?_cons]
        rw [h1, h2, hpc, recordState_calls]
        simp [logCall, executedIds_append, executedIds]

theorem Run_acquired (r : Runner) (env : MigEnv) (db : MigDb)
    (hacq : (Runner.acquireLock env db).1 = none) :
    Runner.Run r env db =
      ((Runner.loop env r.migrations (Runner.acquireLock env db).2).1,
        Runner.releaseLock env (Runner.loop env r.migrations (Runner.acquireLock env db).2).2) := by
  unfold Runner.Run
  split
  · rename_i e db1 h
    rw [h] at hacq
    simp at hacq
  · rename_i db1 h
    rw [h]

theorem releaseLock_calls (env : MigEnv) (db : MigDb) :
    (Runner.releaseLock env db).calls = db.calls ++ [MigCall.release] := by
  cases hr : env.releaseErr <;> simp [Runner.releaseLock, hr, logCall]

theorem releaseLock_changeLog (env : MigEnv) (db : MigDb) :
    (Runner.releaseLock env db).changeLog = db.changeLog := by
  cases hr : env.releaseErr <;> simp [Runner.releaseLock, hr, logCall]

theorem acquireLock_calls (env : MigEnv) (db : MigDb) :
    (Runner.acquireLock env db).2.calls = db.calls ++ [MigCall.acquire] := by
  cases hf : env.lockErr with
  | some e => simp [Runner.acquireLock, hf, logCall]
  | none =>
    cases hl : db.lock with
    | none => simp [Runner.acquireLock, hf, hl, logCall]
    | some l =>
      by_cases ha : leaseAvailable env.nowFilter l = true
      · simp [Runner.acquireLock, hf, hl, ha, logCall]
      · cases hc : env.lockConflict <;> simp [Runner.acquireLock, hf, hl, ha, hc, logCall]

theorem acquireLock_changeLog (env : MigEnv) (db : MigDb) :
    (Runner.acquireLock env db).2.changeLog = db.changeLog := by
  cases hf : env.lockErr with
  | some e => simp [Runner.acquireLock, hf, logCall]
  | none =>
    cases hl : db.lock with
    | none => simp [Runner.acquireLock, hf, hl, logCall]
    | some l =>
      by_cases ha : leaseAvailable env.nowFilter l = true
      · simp [Runner.acquireLock, hf, hl, ha, logCall]
      · cases hc : env.lockConflict <;> simp [Runner.acquireLock, hf, hl, ha, hc, logCall]

theorem NewRunner_ids_nodup : (NewRunner.migrations.map (fun m => m.id)).Nodup := by
  decide

/-- What a `Run` that acquired the lease executes and returns, when every lookup succeeds. -/
theorem Run_executes (env : MigEnv) (db : MigDb)
    (hacq : (Runner.acquireLock env db).1 = none)
    (hlook : ∀ m ∈ NewRunner.migrations, env.lookupErr m.id = none) :
    executedIds (Runner.Run NewRunner env db).2.calls =
      executedIds db.calls ++
        (throughFirst (fails env) (pending NewRunner.migrations db.changeLog)).map
          (fun m => m.id) ∧
    (Runner.Run NewRunner env db).1 =
      ((pending NewRunner.migrations db.changeLog).find? (fails env)).map
        (fun m => "migration " ++ m.id ++ " failed: " ++ (env.execErr m.id).getD "") := by
  obtain ⟨h1, h2⟩ := Runner.loop_executes env NewRunner.migrations
    (Runner.acquireLock env db).2 hlook NewRunner_ids_nodup
  rw [Run_acquired NewRunner env db hacq]
  simp only [releaseLock_calls, executedIds_append, h1, h2, acquireLock_calls,
    acquireLock_changeLog]
  simp [executedIds]

theorem throughFirst_last_fails {α : Type} (p : α → Bool) (l : List α) (a : α)
    (h : l.find? p = some a) :
    ∃ pre, throughFirst p l = pre ++ [a] ∧ (∀ b ∈ pre, p b = false) ∧ p a = true := by
  induction l with
  | nil => simp at h
  | cons b rest ih =>
    by_cases hb : p b = true
    · simp only [List.find?_cons, hb, Option.some.injEq] at h
      subst h
      exact ⟨[], by simp [throughFirst, hb], by simp, hb⟩
    · have hb' : p b = false := by simpa using hb
      simp only [List.find?_cons, hb'] at h
      obtain ⟨pre, h1, h2, h3⟩ := ih h
      refine ⟨b :: pre, by simp [throughFirst, hb', h1], ?_, h3⟩
      intro c hc
      simp only [List.mem_cons] at hc
      rcases hc with hc | hc
      · rw [hc]; exact hb'
      · exact h2 c hc

theorem throughFirst_none {α : Type} (p : α → Bool) (l : List α)
    (h : l.find? p = none) : throughFirst p l = l := by
  induction l with
  | nil => rfl
  | cons b rest ih =>
    by_cases hb : p b = true
    · simp [List.find?_cons, hb] at h
    · have hb' : p b = false := by simpa using hb
      simp only [List.find?_cons, hb'] at h
      simp [throughFirst, hb', ih h]

/-! ## C22: the order of execution -/

/-- C22. The migrations are registered in the order V001, V002, V003, which is the ascending
order of their declared `Order`. In a `Run` that acquired the lease and whose change-log
lookups succeed, the migrations whose `Execute` is called are, in registration order, those
without an `EXECUTED` record up to and including the first whose `Execute` fails; when one
fails, it is the last one executed and `Run` returns an error that names it; when none fails,
all of them are executed and `Run` returns no error. -/
theorem run_executes_pending_in_order (env : MigEnv) (db : MigDb)
    (hacq : (Runner.acquireLock env db).1 = none)
    (hlook : ∀ m ∈ NewRunner.migrations, env.lookupErr m.id = none) :
    NewRunner.migrations = [V001, V002, V003] ∧
    NewRunner.migrations.map (fun m => m.order) = ["001", "002", "003"] ∧
    List.Pairwise (fun a b => a < b) (NewRunner.migrations.map (fun m => m.order)) ∧
    executedIds (Runner.Run NewRunner env db).2.calls =
      executedIds db.calls ++
        (throughFirst (fails env) (pending NewRunner.migrations db.changeLog)).map
          (fun m => m.id) ∧
    (∀ m, (pending NewRunner.migrations db.changeLog).find? (fails env) = some m →
      (∃ pre, throughFirst (fails env) (pending NewRunner.migrations db.changeLog) =
          pre ++ [m] ∧ ∀ b ∈ pre, env.execErr b.id = none) ∧
      (Runner.Run NewRunner env db).1 =
        some ("migration " ++ m.id ++ " failed: " ++ (env.execErr m.id).getD "")) ∧
    ((pending NewRunner.migrations db.changeLog).find? (fails env) = none →
      throughFirst (fails env) (pending NewRunner.migrations db.changeLog) =
        pending NewRunner.migrations db.changeLog ∧
      (Runner.Run NewRunner env db).1 = none) := by
  obtain ⟨h1, h2⟩ := Run_executes env db hacq hlook
  refine ⟨rfl, rfl, ?_, h1, ?_, ?_⟩
  · simp [NewRunner, V001, V002, V003, String.lt_iff]
    decide
  · intro m hm
    obtain ⟨pre, hp1, hp2, _⟩ := throughFirst_last_fails _ _ _ hm
    refine ⟨⟨pre, hp1, ?_⟩, by rw [h2, hm]; rfl⟩
    intro b hb
    have := hp2 b hb
    simpa [fails] using this
  · intro hn
    exact ⟨throughFirst_none _ _ hn, by rw [h2, hn]; rfl⟩

theorem run_executes_pending_in_order_witness :
    executedIds (Runner.Run NewRunner (migEnvFail 100) emptyDb).2.calls =
      ["V001_CreateCartsCollection", "V002_AddCartIndexes"] ∧
    (Runner.Run NewRunner (migEnvFail 100) emptyDb).1 =
      some "migration V002_AddCartIndexes failed: index build failed" ∧
    executedIds (Runner.Run NewRunner (migEnvFail 100) emptyDb).2.calls =
      executedIds emptyDb.calls ++
        (throughFirst (fails (migEnvFail 100))
          (pending NewRunner.migrations emptyDb.changeLog)).map (fun m => m.id) :=
  ⟨by rfl, by rfl,
    (run_executes_pending_in_order (migEnvFail 100) emptyDb (by rfl)
      (by intro m _; rfl)).2.2.2.1⟩

theorem hasExecuted_of_not_mem (changeId : String) (log : List ChangeRecord)
    (h : changeId ∉ log.map (fun r => r.changeId)) : hasExecuted changeId log = false := by
  induction log with
  | nil => rfl
  | cons r rest ih =>
    simp only [List.map_cons, List.mem_cons, not_or] at h
    have hk : ¬ r.changeId = changeId := fun e => h.1 e.symm
    simp only [hasExecuted] at ih
    simp [hasExecuted, hk, ih h.2]

theorem upsertRecord_of_not_mem (r : ChangeRecord) (log : List ChangeRecord)
    (h : r.changeId ∉ log.map (fun r => r.changeId)) : upsertRecord r log = log ++ [r] := by
  induction log with
  | nil => rfl
  | cons r1 rest ih =>
    simp only [List.map_cons, List.mem_cons, not_or] at h
    have hk : ¬ r1.changeId = r.changeId := fun e => h.1 e.symm
    simp [upsertRecord, hk, ih h.2]

theorem recordState_changeLog (env : MigEnv) (m : Migration) (state errMsg : String)
    (db : MigDb) (hr : env.recordErr m.id = none) :
    (Runner.recordState env m state errMsg db).changeLog =
      upsertRecord (recordOf env m state errMsg) db.changeLog := by
  simp [Runner.recordState, hr, logCall, recordOf]

theorem recordState_fresh (env : MigEnv) (m : Migration) (state errMsg : String)
    (db : MigDb) (hr : env.recordErr m.id = none)
    (hn : m.id ∉ db.changeLog.map (fun r => r.changeId)) :
    (Runner.recordState env m state errMsg db).changeLog =
      db.changeLog ++ [recordOf env m state errMsg] := by
  rw [recordState_changeLog env m state errMsg db hr]
  exact upsertRecord_of_not_mem (recordOf env m state errMsg) db.changeLog hn

/-- The loop on migrations that have no record yet, when nothing fails: each gets its
`EXECUTED` record, appended in order. -/
theorem Runner.loop_fresh (env : MigEnv) (ms : List Migration) (db : MigDb)
    (hnew : ∀ m ∈ ms, m.id ∉ db.changeLog.map (fun r => r.changeId))
    (hnd : (ms.map (fun m => m.id)).Nodup)
    (hlook : ∀ m ∈ ms, env.lookupErr m.id = none)
    (hexec : ∀ m ∈ ms, env.execErr m.id = none)
    (hrec : ∀ m ∈ ms, env.recordErr m.id = none) :
    (Runner.loop env ms db).2.changeLog =
      db.changeLog ++ ms.map (fun m => recordOf env m stateExecuted "") := by
  induction ms generalizing db with
  | nil => simp [Runner.loop]
  | cons m rest ih =>
    have hl := hlook m (List.mem_cons_self _ _)
    have he := hexec m (List.mem_cons_self _ _)
    have hr := hrec m (List.mem_cons_self _ _)
    have hn : m.id ∉ (logCall (MigCall.execute m.id)
        (logCall (MigCall.lookup m.id) db)).changeLog.map (fun r => r.changeId) :=
      hnew m (List.mem_cons_self _ _)
    have hx := hasExecuted_of_not_mem m.id db.changeLog (hnew m (List.mem_cons_self _ _))
    simp only [List.map_cons, List.nodup_cons] at hnd
    have hfr := recordState_fresh env m stateExecuted "" _ hr hn
    simp only [Runner.loop, Runner.isExecuted, hl, hx, he]
    rw [ih, hfr]
    · simp [logCall]
    · intro m1 hm1
      rw [hfr]
      simp only [logCall, List.map_append, List.map_cons, List.map_nil, List.mem_append,
        List.mem_singleton, not_or, recordOf]
      refine ⟨hnew m1 (List.mem_cons_of_mem _ hm1), ?_⟩
      intro e
      exact hnd.1 (by rw [← e]; exact List.mem_map.2 ⟨m1, hm1, rfl⟩)
    · exact hnd.2
    · exact fun m1 h1 => hlook m1 (List.mem_cons_of_mem _ h1)
    · exact fun m1 h1 => hexec m1 (List.mem_cons_of_mem _ h1)
    · exact fun m1 h1 => hrec m1 (List.mem_cons_of_mem _ h1)

/-- The loop on migrations that all have an `EXECUTED` record: only lookups are made. -/
theorem Runner.loop_all_executed (env : MigEnv) (ms : List Migration) (db : MigDb)
    (hx : ∀ m ∈ ms, hasExecuted m.id db.changeLog = true)
    (hlook : ∀ m ∈ ms, env.lookupErr m.id = none) :
    (Runner.loop env ms db).1 = none ∧
    (Runner.loop env ms db).2.changeLog = db.changeLog ∧
    (Runner.loop env ms db).2.calls =
      db.calls ++ ms.map (fun m => MigCall.lookup m.id) := by
  induction ms generalizing db with
  | nil => simp [Runner.loop]
  | cons m rest ih =>
    have hl := hlook m (List.mem_cons_self _ _)
    have h1 := hx m (List.mem_cons_self _ _)
    obtain ⟨a, b, c⟩ := ih (logCall (MigCall.lookup m.id) db)
      (fun m1 hm1 => hx m1 (List.mem_cons_of_mem _ hm1))
      (fun m1 hm1 => hlook m1 (List.mem_cons_of_mem _ hm1))
    simp only [Runner.loop, Runner.isExecuted, hl, h1]
    refine ⟨a, b, ?_⟩
    rw [c]
    simp [logCall]

theorem releaseLock_lock (env : MigEnv) (db : MigDb) (hrel : env.releaseErr = none) :
    (Runner.releaseLock env db).lock = db.lock.map (fun l => { l with locked := false }) := by
  simp [Runner.releaseLock, hrel, logCall]

/-- After a `Run` that acquired the lease and whose release write succeeded, the lease document
is the one written at acquisition with `locked` set to false. -/
theorem Run_releases (r : Runner) (env : MigEnv) (db : MigDb)
    (hacq : (Runner.acquireLock env db).1 = none) (hrel : env.releaseErr = none) :
    (Runner.Run r env db).2.lock =
      some { locked := false, lockedAt := env.nowLocked,
             expiresAt := env.nowExpires + fiveMinutes } := by
  rw [Run_acquired r env db hacq, releaseLock_lock _ _ hrel, Runner.loop_lock,
    acquireLock_ok_lock env db hacq]
  rfl

theorem acquireLock_after_release (env : MigEnv) (db : MigDb) (l : Lease)
    (hf : env.lockErr = none) (hl : db.lock = some l) (hu : l.locked = false) :
    (Runner.acquireLock env db).1 = none :=
  (acquireLock_ok_iff env db hf).2 (Or.inr ⟨l, hl, Or.inl hu⟩)

/-! ## C21: running the migrations twice -/

/-- C21. From an empty change log and an available lease, when every `Execute` and every store
call succeeds, `Run` returns no error, calls the `Execute` of V001, V002 and V003 in this
order, and leaves a change log of exactly one record per change id, each with state
`EXECUTED`; a second `Run` whose store calls succeed returns no error, calls no `Execute` and
leaves the change log as it is. -/
theorem run_twice_executes_once (env env2 : MigEnv) (db : MigDb)
    (hlog : db.changeLog = [])
    (havail : db.lock = none ∨
      ∃ l, db.lock = some l ∧ (l.locked = false ∨ l.expiresAt < env.nowFilter))
    (hlock : env.lockErr = none) (hlook : ∀ id, env.lookupErr id = none)
    (hexec : ∀ id, env.execErr id = none) (hrec : ∀ id, env.recordErr id = none)
    (hrel : env.releaseErr = none)
    (hlock2 : env2.lockErr = none) (hlook2 : ∀ id, env2.lookupErr id = none) :
    (Runner.Run NewRunner env db).1 = none ∧
    executedIds (Runner.Run NewRunner env db).2.calls =
      executedIds db.calls ++
        ["V001_CreateCartsCollection", "V002_AddCartIndexes", "V003_AddSchemaValidation"] ∧
    (Runner.Run NewRunner env db).2.changeLog.map (fun r => (r.changeId, r.state)) =
      [("V001_CreateCartsCollection", "EXECUTED"), ("V002_AddCartIndexes", "EXECUTED"),
       ("V003_AddSchemaValidation", "EXECUTED")] ∧
    (Runner.Run NewRunner env2 (Runner.Run NewRunner env db).2).1 = none ∧
    executedIds (Runner.Run NewRunner env2 (Runner.Run NewRunner env db).2).2.calls =
      executedIds (Runner.Run NewRunner env db).2.calls ∧
    (Runner.Run NewRunner env2 (Runner.Run NewRunner env db).2).2.changeLog =
      (Runner.Run NewRunner env db).2.changeLog := by
  have hacq : (Runner.acquireLock env db).1 = none := (acquireLock_ok_iff env db hlock).2 havail
  have hlog1 : (Runner.Run NewRunner env db).2.changeLog =
      NewRunner.migrations.map (fun m => recordOf env m stateExecuted "") := by
    rw [Run_acquired NewRunner env db hacq, releaseLock_changeLog,
      Runner.loop_fresh env NewRunner.migrations _ _ NewRunner_ids_nodup
        (fun m _ => hlook m.id) (fun m _ => hexec m.id) (fun m _ => hrec m.id),
      acquireLock_changeLog, hlog]
    · rfl
    · intro m _
      rw [acquireLock_changeLog, hlog]
      simp
  obtain ⟨h1, h2⟩ := Run_executes env db hacq (fun m _ => hlook m.id)
  have hnofail : ∀ l : List Migration, l.find? (fails env) = none := by
    intro l
    rw [List.find?_eq_none]
    intro m _
    simp [fails, hexec m.id]
  have hpend : pending NewRunner.migrations db.changeLog = NewRunner.migrations := by
    rw [hlog]
    rfl
  have hacq2 : (Runner.acquireLock env2 (Runner.Run NewRunner env db).2).1 = none :=
    acquireLock_after_release env2 _ _ hlock2 (Run_releases NewRunner env db hacq hrel) rfl
  have hx2 : ∀ m ∈ NewRunner.migrations,
      hasExecuted m.id (Runner.acquireLock env2 (Runner.Run NewRunner env db).2).2.changeLog =
        true := by
    intro m hm
    rw [acquireLock_changeLog, hlog1]
    simp only [NewRunner, List.mem_cons, List.mem_singleton, List.not_mem_nil, or_false] at hm
    rcases hm with hm | hm | hm <;> subst hm <;>
      simp [hasExecuted, NewRunner, recordOf, V001, V002, V003, stateExecuted]
  obtain ⟨b1, b2, b3⟩ := Runner.loop_all_executed env2 NewRunner.migrations
    (Runner.acquireLock env2 (Runner.Run NewRunner env db).2).2 hx2 (fun m _ => hlook2 m.id)
  refine ⟨?_, ?_, ?_, ?_, ?_, ?_⟩
  · rw [h2, hnofail]
    rfl
  · rw [h1, throughFirst_none _ _ (hnofail _), hpend]
    rfl
  · rw [hlog1]
    rfl
  · rw [Run_acquired NewRunner env2 _ hacq2]
    exact b1
  · rw [Run_acquired NewRunner env2 _ hacq2]
    simp only [releaseLock_calls, b3, acquireLock_calls, executedIds_append]
    simp [executedIds]
  · rw [Run_acquired NewRunner env2 _ hacq2, releaseLock_changeLog, b2,
      acquireLock_changeLog]

theorem run_twice_executes_once_witness :
    (Runner.Run NewRunner (migEnvOk 100) emptyDb).1 = none ∧
    executedIds (Runner.Run NewRunner (migEnvOk 100) emptyDb).2.calls =
      executedIds emptyDb.calls ++
        ["V001_CreateCartsCollection", "V002_AddCartIndexes", "V003_AddSchemaValidation"] ∧
    (Runner.Run NewRunner (migEnvOk 100) emptyDb).2.changeLog.map
        (fun r => (r.changeId, r.state)) =
      [("V001_CreateCartsCollection", "EXECUTED"), ("V002_AddCartIndexes", "EXECUTED"),
       ("V003_AddSchemaValidation", "EXECUTED")] ∧
    (Runner.Run NewRunner (migEnvOk 200) (Runner.Run NewRunner (migEnvOk 100) emptyDb).2).1 =
      none ∧
    executedIds
        (Runner.Run NewRunner (migEnvOk 200)
          (Runner.Run NewRunner (migEnvOk 100) emptyDb).2).2.calls =
      executedIds (Runner.Run NewRunner (migEnvOk 100) emptyDb).2.calls ∧
    (Runner.Run NewRunner (migEnvOk 200) (Runner.Run NewRunner (migEnvOk 100) emptyDb).2).2.changeLog =
      (Runner.Run NewRunner (migEnvOk 100) emptyDb).2.changeLog :=
  run_twice_executes_once (migEnvOk 100) (migEnvOk 200) emptyDb (by rfl) (Or.inl (by rfl))
    (by rfl) (fun _ => rfl) (fun _ => rfl) (fun _ => rfl) (by rfl) (by rfl) (fun _ => rfl)

/-- After the loop, when lookups and record writes succeed, the migrations still without an
`EXECUTED` record are the pending ones from the first whose `Execute` failed. -/
theorem Runner.loop_pending (env : MigEnv) (ms : List Migration) (db : MigDb)
    (hlook : ∀ m ∈ ms, env.lookupErr m.id = none)
    (hrec : ∀ m ∈ ms, env.recordErr m.id = none)
    (hnd : (ms.map (fun m => m.id)).Nodup) :
    pending ms (Runner.loop env ms db).2.changeLog =
      (pending ms db.changeLog).dropWhile (fun m => !fails env m) := by
  induction ms generalizing db with
  | nil => simp [Runner.loop, pending]
  | cons m rest ih =>
    have hl := hlook m (List.mem_cons_self _ _)
    have hr := hrec m (List.mem_cons_self _ _)
    simp only [List.map_cons, List.nodup_cons] at hnd
    have hlook1 : ∀ m1 ∈ rest, env.lookupErr m1.id = none :=
      fun m1 h1 => hlook m1 (List.mem_cons_of_mem _ h1)
    have hrec1 : ∀ m1 ∈ rest, env.recordErr m1.id = none :=
      fun m1 h1 => hrec m1 (List.mem_cons_of_mem _ h1)
    have hne : ∀ m1 ∈ rest, m.id ≠ m1.id := by
      intro m1 h1 e
      exact hnd.1 (by rw [e]; exact List.mem_map.2 ⟨m1, h1, rfl⟩)
    cases hx : hasExecuted m.id db.changeLog with
    | true =>
      have hloop : Runner.loop env (m :: rest) db =
          Runner.loop env rest (logCall (MigCall.lookup m.id) db) := by
        simp [Runner.loop, Runner.isExecuted, hl, hx]
      have hx1 : hasExecuted m.id
          (Runner.loop env rest (logCall (MigCall.lookup m.id) db)).2.changeLog = true := by
        rw [Runner.loop_hasExecuted_other env rest _ m.id hnd.1]
        exact hx
      rw [hloop]
      have := ih (logCall (MigCall.lookup m.id) db) hlook1 hrec1 hnd.2
      simp only [pending, List.filter_cons, hx1, hx, Bool.not_true] at this ⊢
      simpa [logCall] using this
    | false =>
      cases he : env.execErr m.id with
      | some e =>
        have hloop : (Runner.loop env (m :: rest) db).2 =
            Runner.recordState env m stateFailed e
              (logCall (MigCall.execute m.id) (logCall (MigCall.lookup m.id) db)) := by
          simp [Runner.loop, Runner.isExecuted, hl, hx, he]
        have hx1 : hasExecuted m.id (Runner.loop env (m :: rest) db).2.changeLog = false := by
          rw [hloop, recordState_changeLog _ _ _ _ _ hr]
          exact hasExecuted_upsertRecord_failed (recordOf env m stateFailed e) _
            (by simp [recordOf, stateFailed, stateExecuted]) hx
        have hp : pending rest (Runner.loop env (m :: rest) db).2.changeLog =
            pending rest db.changeLog := by
          apply pending_congr
          intro m1 h1
          rw [hloop, recordState_hasExecuted_other _ _ _ _ _ _ (hne m1 h1)]
          rfl
        have hp1 : pending (m :: rest) (Runner.loop env (m :: rest) db).2.changeLog =
            m :: pending rest (Runner.loop env (m :: rest) db).2.changeLog := by
          simp [pending, hx1]
        have hp0 : pending (m :: rest) db.changeLog = m :: pending rest db.changeLog := by
          simp [pending, hx]
        rw [hp1, hp, hp0]
        simp [List.dropWhile, fails, he]
      | none =>
        have hloop : Runner.loop env (m :: rest) db =
            Runner.loop env rest (Runner.recordState env m stateExecuted ""
              (logCall (MigCall.execute m.id) (logCall (MigCall.lookup m.id) db))) := by
          simp [Runner.loop, Runner.isExecuted, hl, hx, he]
        have hx2 : hasExecuted m.id (Runner.recordState env m stateExecuted ""
            (logCall (MigCall.execute m.id) (logCall (MigCall.lookup m.id) db))).changeLog =
              true := by
          rw [recordState_changeLog _ _ _ _ _ hr]
          exact hasExecuted_upsertRecord_executed (recordOf env m stateExecuted "") _ rfl
        have hx1 : hasExecuted m.id (Runner.loop env (m :: rest) db).2.changeLog = true := by
          rw [hloop, Runner.loop_hasExecuted_other env rest _ m.id hnd.1]
          exact hx2
        have hp : pending rest (Runner.recordState env m stateExecuted ""
            (logCall (MigCall.execute m.id) (logCall (MigCall.lookup m.id) db))).changeLog =
              pending rest db.changeLog := by
          apply pending_congr
          intro m1 h1
          rw [recordState_hasExecuted_other _ _ _ _ _ _ (hne m1 h1)]
          rfl
        have hp1 : pending (m :: rest) (Runner.loop env (m :: rest) db).2.changeLog =
            pending rest (Runner.loop env (m :: rest) db).2.changeLog := by
          simp [pending, hx1]
        have hp0 : pending (m :: rest) db.changeLog = m :: pending rest db.changeLog := by
          simp [pending, hx]
        rw [hp1, hp0, hloop, ih _ hlook1 hrec1 hnd.2, hp]
        simp [List.dropWhile, fails, he]

/-- After the loop, the record of the migration whose `Execute` failed, when the write of that
record succeeded. -/
theorem Runner.loop_failed_record (env : MigEnv) (ms : List Migration) (db : MigDb)
    (m : Migration) (e : Err)
    (hlook : ∀ m ∈ ms, env.lookupErr m.id = none)
    (hrecm : env.recordErr m.id = none)
    (hnd : (ms.map (fun m => m.id)).Nodup)
    (hm : (pending ms db.changeLog).find? (fails env) = some m)
    (he : env.execErr m.id = some e) :
    findRecord m.id (Runner.loop env ms db).2.changeLog =
      some (recordOf env m stateFailed e) := by
  induction ms generalizing db with
  | nil => simp [pending] at hm
  | cons m0 rest ih =>
    have hl := hlook m0 (List.mem_cons_self _ _)
    simp only [List.map_cons, List.nodup_cons] at hnd
    have hlook1 : ∀ m1 ∈ rest, env.lookupErr m1.id = none :=
      fun m1 h1 => hlook m1 (List.mem_cons_of_mem _ h1)
    have hne : ∀ m1 ∈ rest, m0.id ≠ m1.id := by
      intro m1 h1 e1
      exact hnd.1 (by rw [e1]; exact List.mem_map.2 ⟨m1, h1, rfl⟩)
    cases hx : hasExecuted m0.id db.changeLog with
    | true =>
      have hloop : Runner.loop env (m0 :: rest) db =
          Runner.loop env rest (logCall (MigCall.lookup m0.id) db) := by
        simp [Runner.loop, Runner.isExecuted, hl, hx]
      have hp0 : pending (m0 :: rest) db.changeLog = pending rest db.changeLog := by
        simp [pending, hx]
      rw [hloop]
      rw [hp0] at hm
      exact ih _ hlook1 hnd.2 hm
    | false =>
      have hp0 : pending (m0 :: rest) db.changeLog = m0 :: pending rest db.changeLog := by
        simp [pending, hx]
      rw [hp0] at hm
      cases he0 : env.execErr m0.id with
      | some e0 =>
        have hf : fails env m0 = true := by simp [fails, he0]
        simp only [List.find?_cons, hf, Option.some.injEq] at hm
        subst hm
        have hee : e0 = e := by
          rw [he0] at he
          exact Option.some.inj he
        subst hee
        have hloop : (Runner.loop env (m0 :: rest) db).2 =
            Runner.recordState env m0 stateFailed e0
              (logCall (MigCall.execute m0.id) (logCall (MigCall.lookup m0.id) db)) := by
          simp [Runner.loop, Runner.isExecuted, hl, hx, he0]
        rw [hloop, recordState_changeLog _ _ _ _ _ hrecm]
        exact findRecord_upsertRecord_self (recordOf env m0 stateFailed e0) _
      | none =>
        have hf : fails env m0 = false := by simp [fails, he0]
        simp only [List.find?_cons, hf] at hm
        have hloop : Runner.loop env (m0 :: rest) db =
            Runner.loop env rest (Runner.recordState env m0 stateExecuted ""
              (logCall (MigCall.execute m0.id) (logCall (MigCall.lookup m0.id) db))) := by
          simp [Runner.loop, Runner.isExecuted, hl, hx, he0]
        have hp : pending rest (Runner.recordState env m0 stateExecuted ""
            (logCall (MigCall.execute m0.id) (logCall (MigCall.lookup m0.id) db))).changeLog =
              pending rest db.changeLog := by
          apply pending_congr
          intro m1 h1
          rw [recordState_hasExecuted_other _ _ _ _ _ _ (hne m1 h1)]
          rfl
        rw [hloop]
        exact ih _ hlook1 hnd.2 (by rw [hp]; exact hm)

/-- After the loop, the migration whose `Execute` failed has no `EXECUTED` record, whatever
the record writes did. -/
theorem Runner.loop_failed_pending (env : MigEnv) (ms : List Migration) (db : MigDb)
    (m : Migration)
    (hlook : ∀ m ∈ ms, env.lookupErr m.id = none)
    (hnd : (ms.map (fun m => m.id)).Nodup)
    (hm : (pending ms db.changeLog).find? (fails env) = some m) :
    hasExecuted m.id (Runner.loop env ms db).2.changeLog = false := by
  induction ms generalizing db with
  | nil => simp [pending] at hm
  | cons m0 rest ih =>
    have hl := hlook m0 (List.mem_cons_self _ _)
    simp only [List.map_cons, List.nodup_cons] at hnd
    have hlook1 : ∀ m1 ∈ rest, env.lookupErr m1.id = none :=
      fun m1 h1 => hlook m1 (List.mem_cons_of_mem _ h1)
    have hne : ∀ m1 ∈ rest, m0.id ≠ m1.id := by
      intro m1 h1 e1
      exact hnd.1 (by rw [e1]; exact List.mem_map.2 ⟨m1, h1, rfl⟩)
    cases hx : hasExecuted m0.id db.changeLog with
    | true =>
      have hloop : Runner.loop env (m0 :: rest) db =
          Runner.loop env rest (logCall (MigCall.lookup m0.id) db) := by
        simp [Runner.loop, Runner.isExecuted, hl, hx]
      have hp0 : pending (m0 :: rest) db.changeLog = pending rest db.changeLog := by
        simp [pending, hx]
      rw [hloop]
      rw [hp0] at hm
      exact ih _ hlook1 hnd.2 hm
    | false =>
      have hp0 : pending (m0 :: rest) db.changeLog = m0 :: pending rest db.changeLog := by
        simp [pending, hx]
      rw [hp0] at hm
      cases he0 : env.execErr m0.id with
      | some e0 =>
        have hf : fails env m0 = true := by simp [fails, he0]
        simp only [List.find?_cons, hf, Option.some.injEq] at hm
        subst hm
        have hloop : (Runner.loop env (m0 :: rest) db).2 =
            Runner.recordState env m0 stateFailed e0
              (logCall (MigCall.execute m0.id) (logCall (MigCall.lookup m0.id) db)) := by
          simp [Runner.loop, Runner.isExecuted, hl, hx, he0]
        rw [hloop]
        cases hr : env.recordErr m0.id with
        | some e1 =>
          simp only [Runner.recordState, hr, logCall]
          exact hx
        | none =>
          rw [recordState_changeLog _ _ _ _ _ hr]
          exact hasExecuted_upsertRecord_failed (recordOf env m0 stateFailed e0) _
            (by simp [recordOf, stateFailed, stateExecuted]) hx
      | none =>
        have hf : fails env m0 = false := by simp [fails, he0]
        simp only [List.find?_cons, hf] at hm
        have hloop : Runner.loop env (m0 :: rest) db =
            Runner.loop env rest (Runner.recordState env m0 stateExecuted ""
              (logCall (MigCall.execute m0.id) (logCall (MigCall.lookup m0.id) db))) := by
          simp [Runner.loop, Runner.isExecuted, hl, hx, he0]
        have hp : pending rest (Runner.recordState env m0 stateExecuted ""
            (logCall (MigCall.execute m0.id) (logCall (MigCall.lookup m0.id) db))).changeLog =
              pending rest db.changeLog := by
          apply pending_congr
          intro m1 h1
          rw [recordState_hasExecuted_other _ _ _ _ _ _ (hne m1 h1)]
          rfl
        rw [hloop]
        exact ih _ hlook1 hnd.2 (by rw [hp]; exact hm)

theorem dropWhile_not_of_find {α : Type} (p : α → Bool) (l : List α) (a : α)
    (h : l.find? p = some a) : ∃ rest, l.dropWhile (fun x => !p x) = a :: rest := by
  induction l with
  | nil => simp at h
  | cons b tl ih =>
    by_cases hb : p b = true
    · simp only [List.find?_cons, hb, Option.some.injEq] at h
      subst h
      exact ⟨tl, by simp [List.dropWhile, hb]⟩
    · have hb1 : p b = false := by simpa using hb
      simp only [List.find?_cons, hb1] at h
      obtain ⟨rest, hrest⟩ := ih h
      exact ⟨rest, by simpa [List.dropWhile, hb1] using hrest⟩

theorem throughFirst_cons_head {α : Type} (p : α → Bool) (a : α) (l : List α) :
    ∃ tl, throughFirst p (a :: l) = a :: tl := by
  by_cases h : p a = true
  · exact ⟨[], by simp [throughFirst, h]⟩
  · exact ⟨throughFirst p l, by simp [throughFirst, h]⟩

theorem findRecord_mem (changeId : String) (log : List ChangeRecord) (r : ChangeRecord)
    (h : findRecord changeId log = some r) : r ∈ log ∧ r.changeId = changeId := by
  unfold findRecord at h
  exact ⟨List.mem_of_find?_eq_some h, by simpa using List.find?_some h⟩

theorem throughFirst_reaches {α : Type} (p : α → Bool) (l : List α) (a : α) (ha : a ∈ l)
    (hother : ∀ b ∈ l, b ≠ a → p b = false) :
    ∃ pre tl, throughFirst p l = pre ++ a :: tl := by
  classical
  induction l with
  | nil => simp at ha
  | cons b rest ih =>
    by_cases hba : b = a
    · subst hba
      obtain ⟨tl, htl⟩ := throughFirst_cons_head p b rest
      exact ⟨[], tl, by simpa using htl⟩
    · have hb : p b = false := hother b (List.mem_cons_self _ _) hba
      have ha1 : a ∈ rest := by
        rcases List.mem_cons.1 ha with h | h
        · exact absurd h.symm hba
        · exact h
      obtain ⟨pre, tl, h⟩ := ih ha1 (fun c hc => hother c (List.mem_cons_of_mem _ hc))
      exact ⟨b :: pre, tl, by simp [throughFirst, hb, h]⟩

/-! ## C23: a failed migration is recorded and retried -/

/-- C23 (amended). In a `Run` that acquired the lease and in which the `Execute` of migration
`m` was called and failed with error `e`, `Run` ends with the `Execute` of `m`. When the write
of its record succeeds (`recordState` does not check it), the change log holds for `m` the
record with state `FAILED` and error text `e`. In every case `m` has no `EXECUTED` record
afterwards, so a next `Run` that acquires the lease does not skip it: that run executes `m`
when no other migration fails in it, and executes `m` first when the record writes of the
first run succeeded. -/
theorem failed_migration_is_recorded_and_retried (env env2 : MigEnv) (db : MigDb)
    (m : Migration) (e : Err)
    (hacq : (Runner.acquireLock env db).1 = none)
    (hlook : ∀ id, env.lookupErr id = none)
    (hm : (pending NewRunner.migrations db.changeLog).find? (fails env) = some m)
    (he : env.execErr m.id = some e)
    (hacq2 : (Runner.acquireLock env2 (Runner.Run NewRunner env db).2).1 = none)
    (hlook2 : ∀ id, env2.lookupErr id = none) :
    (∃ pre, executedIds (Runner.Run NewRunner env db).2.calls =
        executedIds db.calls ++ pre ++ [m.id]) ∧
    (env.recordErr m.id = none →
      findRecord m.id (Runner.Run NewRunner env db).2.changeLog =
        some (recordOf env m stateFailed e) ∧
      recordOf env m stateFailed e ∈ (Runner.Run NewRunner env db).2.changeLog ∧
      (recordOf env m stateFailed e).state = "FAILED" ∧
      (recordOf env m stateFailed e).error = e) ∧
    hasExecuted m.id (Runner.Run NewRunner env db).2.changeLog = false ∧
    m ∈ pending NewRunner.migrations (Runner.Run NewRunner env db).2.changeLog ∧
    ((∀ b ∈ NewRunner.migrations, b ≠ m → env2.execErr b.id = none) →
      ∃ pre tl,
        executedIds (Runner.Run NewRunner env2 (Runner.Run NewRunner env db).2).2.calls =
          executedIds (Runner.Run NewRunner env db).2.calls ++ pre ++ m.id :: tl) ∧
    ((∀ id, env.recordErr id = none) →
      ∃ tl, executedIds (Runner.Run NewRunner env2 (Runner.Run NewRunner env db).2).2.calls =
        executedIds (Runner.Run NewRunner env db).2.calls ++ m.id :: tl) := by
  have hlog : (Runner.Run NewRunner env db).2.changeLog =
      (Runner.loop env NewRunner.migrations (Runner.acquireLock env db).2).2.changeLog := by
    rw [Run_acquired NewRunner env db hacq, releaseLock_changeLog]
  have hm1 : (pending NewRunner.migrations (Runner.acquireLock env db).2.changeLog).find?
      (fails env) = some m := by
    rw [acquireLock_changeLog]
    exact hm
  have hmem0 : m ∈ NewRunner.migrations := by
    have := List.mem_of_find?_eq_some hm
    exact (List.mem_filter.1 this).1
  have hnot := Runner.loop_failed_pending env NewRunner.migrations (Runner.acquireLock env db).2
    m (fun m _ => hlook m.id) NewRunner_ids_nodup hm1
  rw [← hlog] at hnot
  have hmem : m ∈ pending NewRunner.migrations (Runner.Run NewRunner env db).2.changeLog := by
    unfold pending
    exact List.mem_filter.2 ⟨hmem0, by simp [hnot]⟩
  obtain ⟨pre, hpre, _, _⟩ := throughFirst_last_fails (fails env) _ m hm
  obtain ⟨h1, _⟩ := Run_executes env db hacq (fun m _ => hlook m.id)
  obtain ⟨h2, _⟩ := Run_executes env2 (Runner.Run NewRunner env db).2 hacq2
    (fun m _ => hlook2 m.id)
  refine ⟨⟨pre.map (fun m => m.id), ?_⟩, ?_, hnot, hmem, ?_, ?_⟩
  · rw [h1, hpre]
    simp
  · intro hrecm
    have hfind := Runner.loop_failed_record env NewRunner.migrations
      (Runner.acquireLock env db).2 m e (fun m _ => hlook m.id) hrecm NewRunner_ids_nodup hm1 he
    rw [← hlog] at hfind
    exact ⟨hfind, (findRecord_mem _ _ _ hfind).1, rfl, rfl⟩
  · intro hother
    obtain ⟨pre2, tl, h⟩ := throughFirst_reaches (fails env2)
      (pending NewRunner.migrations (Runner.Run NewRunner env db).2.changeLog) m hmem
      (fun b hb hne => by
        have hb0 : b ∈ NewRunner.migrations := (List.mem_filter.1 hb).1
        simp [fails, hother b hb0 hne])
    refine ⟨pre2.map (fun m => m.id), tl.map (fun m => m.id), ?_⟩
    rw [h2, h]
    simp
  · intro hrec
    have hpend := Runner.loop_pending env NewRunner.migrations (Runner.acquireLock env db).2
      (fun m _ => hlook m.id) (fun m _ => hrec m.id) NewRunner_ids_nodup
    obtain ⟨rest, hrest⟩ := dropWhile_not_of_find (fails env) _ m hm1
    rw [hrest, ← hlog] at hpend
    obtain ⟨tl, htl⟩ := throughFirst_cons_head (fails env2) m rest
    refine ⟨tl.map (fun m => m.id), ?_⟩
    rw [h2, hpend, htl]
    simp

theorem failed_migration_is_recorded_and_retried_witness :
    findRecord V002.id (Runner.Run NewRunner (migEnvFail 100) emptyDb).2.changeLog =
      some (recordOf (migEnvFail 100) V002 stateFailed "index build failed") ∧
    hasExecuted V002.id (Runner.Run NewRunner (migEnvFail 100) emptyDb).2.changeLog = false ∧
    ∃ tl, executedIds (Runner.Run NewRunner (migEnvOk 200)
        (Runner.Run NewRunner (migEnvFail 100) emptyDb).2).2.calls =
        executedIds (Runner.Run NewRunner (migEnvFail 100) emptyDb).2.calls ++ V002.id :: tl :=
  ⟨((failed_migration_is_recorded_and_retried (migEnvFail 100) (migEnvOk 200) emptyDb V002
      "index build failed" (by rfl) (fun _ => rfl) (by rfl) (by rfl) (by rfl)
      (fun _ => rfl)).2.1 (by rfl)).1,
   (failed_migration_is_recorded_and_retried (migEnvFail 100) (migEnvOk 200) emptyDb V002
      "index build failed" (by rfl) (fun _ => rfl) (by rfl) (by rfl) (by rfl)
      (fun _ => rfl)).2.2.1,
   (failed_migration_is_recorded_and_retried (migEnvFail 100) (migEnvOk 200) emptyDb V002
      "index build failed" (by rfl) (fun _ => rfl) (by rfl) (by rfl) (by rfl)
      (fun _ => rfl)).2.2.2.2.2 (fun _ => rfl)⟩

/-- C23 (counterexample). The `Execute` of V002 fails and the write of its record fails too,
every other store call succeeding: `Run` returns the error of the migration, and the change
log holds no record for V002, neither `FAILED` nor any other; it holds the `EXECUTED` record
of V001 only. -/
theorem failed_migration_left_unrecorded :
    (Runner.acquireLock (migEnvFailUnrecorded 100) emptyDb).1 = none ∧
    (migEnvFailUnrecorded 100).execErr V002.id = some "index build failed" ∧
    executedIds (Runner.Run NewRunner (migEnvFailUnrecorded 100) emptyDb).2.calls =
      ["V001_CreateCartsCollection", "V002_AddCartIndexes"] ∧
    (Runner.Run NewRunner (migEnvFailUnrecorded 100) emptyDb).1 =
      some "migration V002_AddCartIndexes failed: index build failed" ∧
    findRecord V002.id (Runner.Run NewRunner (migEnvFailUnrecorded 100) emptyDb).2.changeLog =
      none ∧
    (Runner.Run NewRunner (migEnvFailUnrecorded 100) emptyDb).2.changeLog.map
        (fun r => (r.changeId, r.state)) = [("V001_CreateCartsCollection", "EXECUTED")] := by
  refine ⟨by rfl, by rfl, by rfl, by rfl, by rfl, by rfl⟩

theorem acquireLock_held (env : MigEnv) (db : MigDb) (l : Lease)
    (hf : env.lockErr = none) (hl : db.lock = some l) (hheld : l.locked = true)
    (hfut : ¬ l.expiresAt < env.nowFilter) :
    Runner.acquireLock env db =
      (some (env.lockConflict.getD "migration lock held by another process"),
        logCall MigCall.acquire db) := by
  have ha : leaseAvailable env.nowFilter l = false := by
    simp [leaseAvailable, hheld]
    simpa using hfut
  cases hc : env.lockConflict <;> simp [Runner.acquireLock, hf, hl, ha, hc]

theorem Run_held (r : Runner) (env : MigEnv) (db : MigDb) (l : Lease)
    (hf : env.lockErr = none) (hl : db.lock = some l) (hheld : l.locked = true)
    (hfut : ¬ l.expiresAt < env.nowFilter) :
    Runner.Run r env db =
      (some ("cannot acquire migration lock: " ++
          env.lockConflict.getD "migration lock held by another process"),
        logCall MigCall.acquire db) := by
  simp [Runner.Run, acquireLock_held env db l hf hl hheld hfut]

/-! ## C25: a run against a held lease -/

/-- C25. When the lease document is held (`locked = true`) and its `expiresAt` is not before
the time of the attempt, the conditional upsert of `acquireLock` matches nothing and the store,
which then attempts to insert a second document with the `_id` of the lease, answers with its
duplicate-key error `e`: `Run` returns "cannot acquire migration lock: " followed by `e`, the
error of the driver, and not the text "migration lock held by another process" of the branch
on zero counts, which this reply does not reach. The only store call of `Run` is the
acquisition attempt: no `Execute`, no change-log lookup or record, no release; the change log
and the lease document are unchanged. -/
theorem run_against_held_lease (r : Runner) (env : MigEnv) (db : MigDb) (l : Lease) (e : Err)
    (hf : env.lockErr = none) (hl : db.lock = some l) (hheld : l.locked = true)
    (hfut : ¬ l.expiresAt < env.nowFilter) (hc : env.lockConflict = some e) :
    (Runner.Run r env db).1 = some ("cannot acquire migration lock: " ++ e) ∧
    (Runner.Run r env db).2.calls = db.calls ++ [MigCall.acquire] ∧
    executedIds (Runner.Run r env db).2.calls = executedIds db.calls ∧
    (Runner.Run r env db).2.changeLog = db.changeLog ∧
    (Runner.Run r env db).2.lock = some l := by
  rw [Run_held r env db l hf hl hheld hfut, hc]
  refine ⟨rfl, rfl, ?_, rfl, hl⟩
  simp [logCall, executedIds_append, executedIds]

theorem run_against_held_lease_witness :
    (Runner.Run NewRunner (migEnvOk 500) heldDb).1 =
      some ("cannot acquire migration lock: " ++ "E11000 duplicate key error") ∧
    (Runner.Run NewRunner (migEnvOk 500) heldDb).1 ≠
      some "cannot acquire migration lock: migration lock held by another process" ∧
    (Runner.Run NewRunner (migEnvOk 500) heldDb).2.calls =
      heldDb.calls ++ [MigCall.acquire] ∧
    executedIds (Runner.Run NewRunner (migEnvOk 500) heldDb).2.calls =
      executedIds heldDb.calls ∧
    (Runner.Run NewRunner (migEnvOk 500) heldDb).2.changeLog = heldDb.changeLog ∧
    (Runner.Run NewRunner (migEnvOk 500) heldDb).2.lock =
      some { locked := true, lockedAt := 0, expiresAt := 1000 } :=
  ⟨(run_against_held_lease NewRunner (migEnvOk 500) heldDb
      { locked := true, lockedAt := 0, expiresAt := 1000 } "E11000 duplicate key error"
      (by rfl) (by rfl) (by rfl) (by decide) (by rfl)).1,
   by decide,
   (run_against_held_lease NewRunner (migEnvOk 500) heldDb
      { locked := true, lockedAt := 0, expiresAt := 1000 } "E11000 duplicate key error"
      (by rfl) (by rfl) (by rfl) (by decide) (by rfl)).2⟩

theorem Run_last_call (r : Runner) (env : MigEnv) (db : MigDb)
    (hacq : (Runner.acquireLock env db).1 = none) :
    (Runner.Run r env db).2.calls.getLast? = some MigCall.release := by
  rw [Run_acquired r env db hacq, releaseLock_calls]
  simp

/-- After a `Run` that acquired the lease and whose release write failed, the lease document is
the one written at acquisition, still held. -/
theorem Run_release_failed (r : Runner) (env : MigEnv) (db : MigDb) (e : Err)
    (hacq : (Runner.acquireLock env db).1 = none) (hrel : env.releaseErr = some e) :
    (Runner.Run r env db).2.lock =
      some { locked := true, lockedAt := env.nowLocked,
             expiresAt := env.nowExpires + fiveMinutes } := by
  rw [Run_acquired r env db hacq]
  simp only [Runner.releaseLock, hrel, logCall]
  rw [Runner.loop_lock, acquireLock_ok_lock env db hacq]

/-! ## C26: the lease is released when the run returns -/

/-- C26 (amended). For every `Run` that acquired the lease, whatever its lookups, `Execute`
calls and record writes do (success, a migration failure, a change-log lookup failure), the
last store call of `Run` is the release of the lease. When that write succeeds, the lease
document is the one written at acquisition with `locked = false` (`lockedAt` and `expiresAt`
as set at acquisition), so that an acquisition attempt made on the resulting database
succeeds. The result of the release write is not checked: when it fails, the lease document
stays as written at acquisition, held, and an attempt not later than its `expiresAt` fails. -/
theorem run_releases_lease (r : Runner) (env env2 : MigEnv) (db : MigDb)
    (hacq : (Runner.acquireLock env db).1 = none) (hf2 : env2.lockErr = none) :
    (Runner.Run r env db).2.calls.getLast? = some MigCall.release ∧
    (env.releaseErr = none →
      (Runner.Run r env db).2.lock =
        some { locked := false, lockedAt := env.nowLocked,
               expiresAt := env.nowExpires + fiveMinutes } ∧
      (Runner.acquireLock env2 (Runner.Run r env db).2).1 = none) ∧
    (∀ e, env.releaseErr = some e →
      (Runner.Run r env db).2.lock =
        some { locked := true, lockedAt := env.nowLocked,
               expiresAt := env.nowExpires + fiveMinutes } ∧
      (env2.nowFilter ≤ env.nowExpires + fiveMinutes →
        ∃ e2, (Runner.acquireLock env2 (Runner.Run r env db).2).1 = some e2)) := by
  refine ⟨Run_last_call r env db hacq, ?_, ?_⟩
  · intro hrel
    exact ⟨Run_releases r env db hacq hrel,
      acquireLock_after_release env2 _ _ hf2 (Run_releases r env db hacq hrel) rfl⟩
  · intro e hrel
    have hlock := Run_release_failed r env db e hacq hrel
    refine ⟨hlock, ?_⟩
    intro hle
    have hheld := acquireLock_held env2 (Runner.Run r env db).2 _ hf2 hlock rfl
      (by simpa using hle)
    rw [hheld]
    exact ⟨_, rfl⟩

theorem run_releases_lease_witness :
    (Runner.Run NewRunner (migEnvLookupFail 100) emptyDb).2.calls.getLast? =
      some MigCall.release ∧
    (Runner.Run NewRunner (migEnvLookupFail 100) emptyDb).2.lock =
      some { locked := false, lockedAt := (migEnvLookupFail 100).nowLocked,
             expiresAt := (migEnvLookupFail 100).nowExpires + fiveMinutes } ∧
    (Runner.acquireLock (migEnvOk 101)
      (Runner.Run NewRunner (migEnvLookupFail 100) emptyDb).2).1 = none :=
  ⟨(run_releases_lease NewRunner (migEnvLookupFail 100) (migEnvOk 101) emptyDb (by rfl)
      (by rfl)).1,
   (run_releases_lease NewRunner (migEnvLookupFail 100) (migEnvOk 101) emptyDb (by rfl)
      (by rfl)).2.1 (by rfl)⟩

/-- C26 (counterexample). A `Run` from an empty database acquires the lease, executes the
three migrations and returns no error, but its release write fails: the lease document still
has `locked = true`, and an acquisition attempt made right after fails. -/
theorem failed_release_leaves_lease_held :
    (Runner.acquireLock (migEnvReleaseFail 100) emptyDb).1 = none ∧
    (Runner.Run NewRunner (migEnvReleaseFail 100) emptyDb).1 = none ∧
    (Runner.Run NewRunner (migEnvReleaseFail 100) emptyDb).2.calls.getLast? =
      some MigCall.release ∧
    (Runner.Run NewRunner (migEnvReleaseFail 100) emptyDb).2.lock =
      some { locked := true, lockedAt := 100, expiresAt := 100 + fiveMinutes } ∧
    (Runner.acquireLock (migEnvOk 101)
      (Runner.Run NewRunner (migEnvReleaseFail 100) emptyDb).2).1 =
        some "E11000 duplicate key error" := by
  refine ⟨by rfl, by rfl, by rfl, by rfl, by rfl⟩

/-- The three ways a run that acquired the lease returns, each leaving the lease unheld when
the release write succeeds: success, the failure of V002, and the failure of the lookup of
V002. -/
theorem lease_unheld_after_each_outcome :
    (Runner.Run NewRunner (migEnvOk 100) emptyDb).1 = none ∧
    ((Runner.Run NewRunner (migEnvOk 100) emptyDb).2.lock.map (fun l => l.locked)) =
      some false ∧
    (Runner.Run NewRunner (migEnvFail 100) emptyDb).1 =
      some "migration V002_AddCartIndexes failed: index build failed" ∧
    ((Runner.Run NewRunner (migEnvFail 100) emptyDb).2.lock.map (fun l => l.locked)) =
      some false ∧
    (Runner.Run NewRunner (migEnvLookupFail 100) emptyDb).1 =
      some "check migration state V002_AddCartIndexes: connection reset" ∧
    ((Runner.Run NewRunner (migEnvLookupFail 100) emptyDb).2.lock.map (fun l => l.locked)) =
      some false := by
  refine ⟨by rfl, by rfl, by rfl, by rfl, by rfl, by rfl⟩

/-! ## C27: lock contention at start-up -/

/-- C27 (amended). When the migration lease is held by another process at start-up (and the
store is reachable), `Run` returns an error and `main` treats it as it treats a migration
failure: it logs "Migration failed" with the error and exits; the process does not start
serving, and the only store call made is the acquisition attempt. -/
theorem main_exits_on_lock_contention (env : MigEnv) (db : MigDb) (l : Lease)
    (hf : env.lockErr = none) (hl : db.lock = some l) (hheld : l.locked = true)
    (hfut : ¬ l.expiresAt < env.nowFilter) :
    (main env db).1 =
      Startup.fatal "Migration failed"
        ("cannot acquire migration lock: " ++
          env.lockConflict.getD "migration lock held by another process") ∧
    (main env db).1 ≠ Startup.serving ∧
    (main env db).2.calls = db.calls ++ [MigCall.acquire] := by
  have hrun := Run_held NewRunner env db l hf hl hheld hfut
  have hmain : main env db =
      (Startup.fatal "Migration failed"
        ("cannot acquire migration lock: " ++
          env.lockConflict.getD "migration lock held by another process"),
        logCall MigCall.acquire db) := by
    simp only [main, hrun]
  rw [hmain]
  refine ⟨rfl, ?_, rfl⟩
  intro h
  cases h

theorem main_exits_on_lock_contention_witness :
    (main (migEnvOk 500) heldDb).1 =
      Startup.fatal "Migration failed"
        ("cannot acquire migration lock: " ++
          (migEnvOk 500).lockConflict.getD "migration lock held by another process") ∧
    (main (migEnvOk 500) heldDb).1 ≠ Startup.serving ∧
    (main (migEnvOk 500) heldDb).2.calls = heldDb.calls ++ [MigCall.acquire] :=
  main_exits_on_lock_contention (migEnvOk 500) heldDb
    { locked := true, lockedAt := 0, expiresAt := 1000 } (by rfl) (by rfl) (by rfl) (by decide)

/-- C27 (counterexample). The lease is held until time 1000 and the process starts at time
500: `main` ends in `logger.Fatal` with the lock error instead of serving, whether the store
answers the unmatched conditional write with its duplicate-key error or with zero counts,
exactly as it does when the `Execute` of a migration fails; it serves only when `Run` returns
no error. -/
theorem lock_contention_is_fatal :
    (main (migEnvOk 500) heldDb).1 =
      Startup.fatal "Migration failed"
        "cannot acquire migration lock: E11000 duplicate key error" ∧
    (main (migEnvOk 500) heldDb).1 ≠ Startup.serving ∧
    (main (migEnvCounts 500) heldDb).1 =
      Startup.fatal "Migration failed"
        "cannot acquire migration lock: migration lock held by another process" ∧
    (main (migEnvCounts 500) heldDb).1 ≠ Startup.serving ∧
    (main (migEnvFail 500) emptyDb).1 =
      Startup.fatal "Migration failed"
        "migration V002_AddCartIndexes failed: index build failed" ∧
    (main (migEnvOk 500) emptyDb).1 = Startup.serving := by
  refine ⟨by rfl, by decide, by rfl, by decide, by rfl, by rfl⟩

theorem UpdateItemQuantity_upsert_fails {F : Type} [Float64Arith F] (cfg : Config) (env : Env)
    (userID itemID : String) (quantity : Int) (w : World F) (cart : Cart F) (w1 : World F)
    (e : Err) (hg : GetCart cfg env userID w = (.ok cart, w1))
    (hin : ∃ item ∈ cart.Items, item.ItemID = itemID) (hu : env.mongoUpsert = some e) :
    (UpdateItemQuantity cfg env userID itemID quantity w).1 =
      .error ("mongo upsert cart: " ++ e) := by
  simp only [UpdateItemQuantity, hg, updateLoop_known itemID quantity cart.Items hin, if_true]
  rw [saveCart_fst]
  simp only [hu]

theorem AddItem_upsert_fails {F : Type} [Float64Arith F] (cfg : Config) (env : Env)
    (userID : String) (req : AddItemRequest F) (w : World F) (cart : Cart F) (w1 : World F)
    (e : Err) (hg : GetCart cfg env userID w = (.ok cart, w1)) (hu : env.mongoUpsert = some e) :
    (AddItem cfg env userID req w).1 = .error ("mongo upsert cart: " ++ e) := by
  simp only [AddItem, hg]
  split <;> (rw [saveCart_fst]; simp only [hu])

theorem notFound_ne_upsert (itemID : String) (e : Err) :
    "item " ++ itemID ++ " not found in cart" ≠ "mongo upsert cart: " ++ e := by
  intro h
  have h1 := congrArg (fun s => s.data.head?) h
  simp [String.data_append] at h1

/-! ## C28: the response codes of not-found and of a durable failure -/

/-- C28. With the cart of the user read, `UpdateItemQuantity` and `RemoveItem` return for an
unknown item id the error "item <id> not found in cart" and for a failed durable upsert the
error "mongo upsert cart: <e>": two plain errors that differ in their text only. The handlers
of the two methods answer both with the same response code, 400, and the text of the error;
the handler of `AddItem` answers the same durable failure with 500. -/
theorem not_found_and_durable_failure_answered_alike {F : Type} [Float64Arith F]
    (cfg : Config) (env : Env) (now : Time) (userID known unknown : String) (quantity : Int)
    (req : AddItemRequest F) (w : World F) (cart : Cart F) (w1 : World F) (e : Err)
    (hg : GetCart cfg env userID w = (.ok cart, w1))
    (hin : ∃ item ∈ cart.Items, item.ItemID = known)
    (hno : ∀ item ∈ cart.Items, item.ItemID ≠ unknown)
    (hu : env.mongoUpsert = some e) :
    (CartHandler.UpdateItemQuantity cfg env now userID unknown (.ok quantity) w).1 =
      { code := 400, obj := ErrorResponse ("item " ++ unknown ++ " not found in cart") now } ∧
    (CartHandler.UpdateItemQuantity cfg env now userID known (.ok quantity) w).1 =
      { code := 400, obj := ErrorResponse ("mongo upsert cart: " ++ e) now } ∧
    (CartHandler.RemoveItem cfg env now userID unknown w).1 =
      { code := 400, obj := ErrorResponse ("item " ++ unknown ++ " not found in cart") now } ∧
    (CartHandler.RemoveItem cfg env now userID known w).1 =
      { code := 400, obj := ErrorResponse ("mongo upsert cart: " ++ e) now } ∧
    (CartHandler.AddItem cfg env now userID (.ok req) w).1 =
      { code := 500, obj := ErrorResponse "Failed to add item to cart" now } ∧
    "item " ++ unknown ++ " not found in cart" ≠ "mongo upsert cart: " ++ e := by
  have hU : (UpdateItemQuantity cfg env userID unknown quantity w).1 =
      .error ("item " ++ unknown ++ " not found in cart") := by
    simp [UpdateItemQuantity, hg, updateLoop_unknown unknown quantity cart.Items hno]
  have hR : (UpdateItemQuantity cfg env userID unknown 0 w).1 =
      .error ("item " ++ unknown ++ " not found in cart") := by
    simp [UpdateItemQuantity, hg, updateLoop_unknown unknown 0 cart.Items hno]
  have hU2 := UpdateItemQuantity_upsert_fails cfg env userID known quantity w cart w1 e hg hin hu
  have hR2 := UpdateItemQuantity_upsert_fails cfg env userID known 0 w cart w1 e hg hin hu
  have hA := AddItem_upsert_fails cfg env userID req w cart w1 e hg hu
  refine ⟨?_, ?_, ?_, ?_, ?_, notFound_ne_upsert unknown e⟩
  · unfold CartHandler.UpdateItemQuantity
    simp only []
    split
    · rename_i e1 w2 h
      rw [h] at hU
      simp only [Except.error.injEq] at hU
      rw [hU]
      rfl
    · rename_i c w2 h
      rw [h] at hU
      simp at hU
  · unfold CartHandler.UpdateItemQuantity
    simp only []
    split
    · rename_i e1 w2 h
      rw [h] at hU2
      simp only [Except.error.injEq] at hU2
      rw [hU2]
      rfl
    · rename_i c w2 h
      rw [h] at hU2
      simp at hU2
  · unfold CartHandler.RemoveItem RemoveItem
    split
    · rename_i e1 w2 h
      rw [h] at hR
      simp only [Except.error.injEq] at hR
      rw [hR]
      rfl
    · rename_i c w2 h
      rw [h] at hR
      simp at hR
  · unfold CartHandler.RemoveItem RemoveItem
    split
    · rename_i e1 w2 h
      rw [h] at hR2
      simp only [Except.error.injEq] at hR2
      rw [hR2]
      rfl
    · rename_i c w2 h
      rw [h] at hR2
      simp at hR2
  · unfold CartHandler.AddItem
    simp only []
    split
    · rfl
    · rename_i c w2 h
      rw [h] at hA
      simp at hA

theorem not_found_and_durable_failure_answered_alike_witness :
    (CartHandler.UpdateItemQuantity exCfg envUpsertDown 50 "u1" "nope" (.ok 5) exWorld1).1 =
      { code := 400, obj := ErrorResponse "item nope not found in cart" 50 } ∧
    (CartHandler.UpdateItemQuantity exCfg envUpsertDown 50 "u1" "i1" (.ok 5) exWorld1).1 =
      { code := 400, obj := ErrorResponse "mongo upsert cart: server selection timeout" 50 } ∧
    (CartHandler.AddItem exCfg envUpsertDown 50 "u1" (.ok exReq) exWorld1).1 =
      { code := 500, obj := ErrorResponse "Failed to add item to cart" 50 } :=
  ⟨(not_found_and_durable_failure_answered_alike exCfg envUpsertDown 50 "u1" "i1" "nope" 5
      exReq exWorld1 { exCart1 with SyncedAt := none, Source := "redis" }
      (record (Call.redisGetCart "u1") exWorld1) "server selection timeout" (by rfl)
      (by decide) (by decide) (by rfl)).1,
   (not_found_and_durable_failure_answered_alike exCfg envUpsertDown 50 "u1" "i1" "nope" 5
      exReq exWorld1 { exCart1 with SyncedAt := none, Source := "redis" }
      (record (Call.redisGetCart "u1") exWorld1) "server selection timeout" (by rfl)
      (by decide) (by decide) (by rfl)).2.1,
   (not_found_and_durable_failure_answered_alike exCfg envUpsertDown 50 "u1" "i1" "nope" 5
      exReq exWorld1 { exCart1 with SyncedAt := none, Source := "redis" }
      (record (Call.redisGetCart "u1") exWorld1) "server selection timeout" (by rfl)
      (by decide) (by decide) (by rfl)).2.2.2.2.1⟩

/-! ## C29: a failed mutation leaves the cache ahead of the durable store -/

/-- C29. For every mutation (`AddItem`, `UpdateItemQuantity`, `RemoveItem`) that reads the cart
and reaches `saveCart`, when the cache write succeeds and the durable upsert fails with `e`,
the call returns the error "mongo upsert cart: e" (and so no cart), the durable store is as
before the call, and the cache entry of the user holds the mutated cart; the next `GetCart` of
the user whose cache read succeeds returns that cart, with the mutated items. -/
theorem failed_mutation_leaves_cache_ahead {F : Type} [Float64Arith F] (cfg : Config)
    (env env2 : Env) (userID : String) (m : Mutation F) (w : World F) (cart : Cart F)
    (w1 : World F) (items : List (CartItem F)) (e : Err) (hwf : cacheKeyed w)
    (hg : GetCart cfg env userID w = (.ok cart, w1))
    (hn : nextItems env m cart.Items = some items)
    (hs : env.redisSave = none) (hu : env.mongoUpsert = some e)
    (hr2 : env2.redisGet = none) :
    (mutate cfg env userID m w).1 = .error ("mongo upsert cart: " ++ e) ∧
    (mutate cfg env userID m w).2.mongo = w.mongo ∧
    kvGet (cartKey userID) (mutate cfg env userID m w).2.redis =
      some ⟨stamped env { cart with Items := items }, cfg.redisTTL⟩ ∧
    (GetCart cfg env2 userID (mutate cfg env userID m w).2).1 =
      .ok { stamped env { cart with Items := items } with Source := "redis" } ∧
    (stamped env { cart with Items := items }).Items = items := by
  have hmut : mutate cfg env userID m w = saveCart cfg env { cart with Items := items } w1 := by
    rw [mutate_eq, hg]
    simp only [hn]
  have hid : cart.UserID = userID := GetCart_userID cfg env userID w cart w1 hwf hg
  have hw1 : w1.mongo = w.mongo := by
    have := (GetCart_stores cfg env userID w).1
    rw [hg] at this
    exact this
  have hk : kvGet (cartKey userID) (saveCart cfg env { cart with Items := items } w1).2.redis =
      some ⟨stamped env { cart with Items := items }, cfg.redisTTL⟩ := by
    have := saveCart_kvGet cfg env { cart with Items := items } w1 hs
    rw [← hid]
    exact this
  rw [hmut]
  refine ⟨?_, ?_, hk, ?_, rfl⟩
  · rw [saveCart_fst]
    simp only [hu]
  · rw [saveCart_mongo]
    simp only [hu]
    exact hw1
  · rw [GetCart_cache_hit cfg env2 userID _ _ hr2 hk]

theorem failed_mutation_leaves_cache_ahead_witness :
    (mutate exCfg envUpsertDown "u1" (.update "i1" 5) exWorld1).1 =
      .error ("mongo upsert cart: " ++ "server selection timeout") ∧
    (mutate exCfg envUpsertDown "u1" (.update "i1" 5) exWorld1).2.mongo = exWorld1.mongo ∧
    (GetCart exCfg exEnv3 "u1" (mutate exCfg envUpsertDown "u1" (.update "i1" 5) exWorld1).2).1 =
      .ok { stamped envUpsertDown { exCartRead with Items := exItemsFive } with
            Source := "redis" } :=
  ⟨(failed_mutation_leaves_cache_ahead exCfg envUpsertDown exEnv3 "u1" (.update "i1" 5)
      exWorld1 exCartRead (record (Call.redisGetCart "u1") exWorld1) exItemsFive
      "server selection timeout" (by decide) (by rfl) (by rfl) (by rfl) (by rfl) (by rfl)).1,
   (failed_mutation_leaves_cache_ahead exCfg envUpsertDown exEnv3 "u1" (.update "i1" 5)
      exWorld1 exCartRead (record (Call.redisGetCart "u1") exWorld1) exItemsFive
      "server selection timeout" (by decide) (by rfl) (by rfl) (by rfl) (by rfl) (by rfl)).2.1,
   (failed_mutation_leaves_cache_ahead exCfg envUpsertDown exEnv3 "u1" (.update "i1" 5)
      exWorld1 exCartRead (record (Call.redisGetCart "u1") exWorld1) exItemsFive
      "server selection timeout" (by decide) (by rfl) (by rfl) (by rfl) (by rfl)
      (by rfl)).2.2.2.1⟩

/-! ## C30: the two reconcilers, side by side -/

/-- What the upsert of each reconciler writes for a key whose cart is read and whose upsert
succeeds: `CartSyncer` upserts the cart tagged `redis` and stamped through the `UpsertCart` of
the `mongo` repository, `SyncService` sets the whole cart as the cache holds it. -/
theorem syncKey_writes {F : Type} (env : SyncEnv) (cnt : SyncCount) (w : World F)
    (key : String) (ent : RedisEntry F) (hne : trimCartKey key ≠ "")
    (hr : env.redisGet (trimCartKey key) = none)
    (hu : env.mongoUpsert (trimCartKey key) = none)
    (hk : kvGet (cartKey (trimCartKey key)) w.redis = some ent) :
    (CartSyncer.syncKey env (cnt, w) key).2.mongo =
      updateOneUpsert
        { ent.data with Source := "redis", SyncedAt := some (env.nowSync (trimCartKey key)) }
        (env.nowSync (trimCartKey key)) (env.newDocID (trimCartKey key)) w.mongo ∧
    (SyncService.syncKey env (cnt, w) key).2.mongo =
      updateOneSetCart ent.data (env.newDocID (trimCartKey key)) w.mongo := by
  constructor
  · simp [CartSyncer.syncKey, hne, redisGetCart, hr, hk, mongoUpsertCart, hu, record]
  · simp [SyncService.syncKey, SyncService.syncCart, hne, RedisRepository.GetCart, hr, hk,
      MongoRepository.UpsertCart, hu, record]

/-- C30 (amended). Over the same key list, from the same stores and with the same faults, the
loops of `CartSyncer.syncAll` and `SyncService.syncAll` make the same sequence of store calls
(the same cache reads and the same durable upsert attempts, for the same users in the same
order) and leave the cache alike, end with the same `failed` count, and the `synced` count of
`SyncService` is that of `CartSyncer` plus the number of keys whose cache entry is absent at
read time; both leave the counters and the stores untouched at the key "cart:"; and the runs
of the two `syncAll` from the same world make the same store calls. The documents the upserts
write are not the same: for a key whose cart is read and whose upsert succeeds, `CartSyncer`
writes the fields its repository names, with `source` "mongodb", `synced_at` the time of the
upsert and `created_at` on insert only, and `SyncService` writes every field of the cached
cart as the cart carries it. -/
theorem reconcilers_differ_in_synced_only {F : Type} (env : SyncEnv) (keys : List String)
    (w : World F) (acc : SyncCount × World F) :
    (SyncService.syncKeys env keys ({ synced := 0, failed := 0 }, w)).2.trace =
      (CartSyncer.syncKeys env keys ({ synced := 0, failed := 0 }, w)).2.trace ∧
    (SyncService.syncKeys env keys ({ synced := 0, failed := 0 }, w)).2.redis =
      (CartSyncer.syncKeys env keys ({ synced := 0, failed := 0 }, w)).2.redis ∧
    (SyncService.syncKeys env keys ({ synced := 0, failed := 0 }, w)).1.failed =
      (CartSyncer.syncKeys env keys ({ synced := 0, failed := 0 }, w)).1.failed ∧
    (SyncService.syncKeys env keys ({ synced := 0, failed := 0 }, w)).1.synced =
      (CartSyncer.syncKeys env keys ({ synced := 0, failed := 0 }, w)).1.synced +
        countAbsent env w keys ∧
    CartSyncer.syncKey env acc "cart:" = acc ∧
    SyncService.syncKey env acc "cart:" = acc ∧
    (SyncService.syncAll env w).2.trace = (CartSyncer.syncAll env w).2.trace ∧
    (SyncService.syncAll env w).2.redis = (CartSyncer.syncAll env w).2.redis ∧
    (∀ (cnt : SyncCount) (key : String) (ent : RedisEntry F), trimCartKey key ≠ "" →
      env.redisGet (trimCartKey key) = none → env.mongoUpsert (trimCartKey key) = none →
      kvGet (cartKey (trimCartKey key)) w.redis = some ent →
      (CartSyncer.syncKey env (cnt, w) key).2.mongo =
        updateOneUpsert
          { ent.data with Source := "redis",
                          SyncedAt := some (env.nowSync (trimCartKey key)) }
          (env.nowSync (trimCartKey key)) (env.newDocID (trimCartKey key)) w.mongo ∧
      (SyncService.syncKey env (cnt, w) key).2.mongo =
        updateOneSetCart ent.data (env.newDocID (trimCartKey key)) w.mongo) := by
  obtain ⟨h1, h2, h3, h4⟩ := syncKeys_both env keys { synced := 0, failed := 0 }
    { synced := 0, failed := 0 } w w rfl rfl
  have ht : trimCartKey "cart:" = "" := by decide
  have hall : (SyncService.syncAll env w).2.trace = (CartSyncer.syncAll env w).2.trace ∧
      (SyncService.syncAll env w).2.redis = (CartSyncer.syncAll env w).2.redis := by
    cases hl : env.keysErr with
    | some e =>
      simp [SyncService.syncAll, CartSyncer.syncAll, redisGetAllCartKeys,
        RedisRepository.GetAllActiveCartKeys, hl]
    | none =>
      obtain ⟨g1, g2, _⟩ := syncKeys_both env (listedKeys w) { synced := 0, failed := 0 }
        { synced := 0, failed := 0 } (record Call.redisGetAllCartKeys w)
        (record Call.redisGetAllCartKeys w) rfl rfl
      by_cases hn : (listedKeys w).length = 0
      · have hnil : listedKeys w = [] := List.length_eq_zero.1 hn
        simp [SyncService.syncAll, CartSyncer.syncAll, redisGetAllCartKeys,
          RedisRepository.GetAllActiveCartKeys, hl, hnil, CartSyncer.syncKeys]
      · rw [SyncService.syncAll_unfold env w hl hn, CartSyncer.syncAll_eq env w hl]
        exact ⟨g2, g1⟩
  refine ⟨h2, h1, by simpa using h3, by simpa using h4, ?_, ?_, hall.1, hall.2, ?_⟩
  · simp [CartSyncer.syncKey, ht]
  · simp [SyncService.syncKey, ht]
  · intro cnt key ent hne hr hu hk
    exact syncKey_writes env cnt w key ent hne hr hu hk

theorem reconcilers_differ_in_synced_only_witness :
    (SyncService.syncKeys exSyncEnv ["cart:u1", "cart:u2", "cart:"]
        ({ synced := 0, failed := 0 }, exWorldExpired)).2.trace =
      (CartSyncer.syncKeys exSyncEnv ["cart:u1", "cart:u2", "cart:"]
        ({ synced := 0, failed := 0 }, exWorldExpired)).2.trace ∧
    (SyncService.syncKeys exSyncEnv ["cart:u1", "cart:u2", "cart:"]
        ({ synced := 0, failed := 0 }, exWorldExpired)).1.synced =
      (CartSyncer.syncKeys exSyncEnv ["cart:u1", "cart:u2", "cart:"]
        ({ synced := 0, failed := 0 }, exWorldExpired)).1.synced +
        countAbsent exSyncEnv exWorldExpired ["cart:u1", "cart:u2", "cart:"] ∧
    (SyncService.syncKey exSyncEnv ({ synced := 0, failed := 0 }, exWorldExpired)
        "cart:u1").2.mongo =
      updateOneSetCart { exCart1 with SyncedAt := none } (exSyncEnv.newDocID "u1")
        exWorldExpired.mongo :=
  ⟨(reconcilers_differ_in_synced_only exSyncEnv ["cart:u1", "cart:u2", "cart:"]
      exWorldExpired ({ synced := 0, failed := 0 }, exWorldExpired)).1,
   (reconcilers_differ_in_synced_only exSyncEnv ["cart:u1", "cart:u2", "cart:"]
      exWorldExpired ({ synced := 0, failed := 0 }, exWorldExpired)).2.2.2.1,
   ((reconcilers_differ_in_synced_only exSyncEnv ["cart:u1", "cart:u2", "cart:"]
      exWorldExpired ({ synced := 0, failed := 0 }, exWorldExpired)).2.2.2.2.2.2.2.2
      { synced := 0, failed := 0 } "cart:u1"
      { data := { exCart1 with SyncedAt := none }, ttl := 604800 }
      (by decide) (by rfl) (by rfl) (by rfl)).2⟩

/-- C30 (counterexample). The cache holds for `u1` a cart tagged `redis` that was never
synced, and the durable store is empty; every store call succeeds. Both reconcilers make the
same store calls and count one synced key, but the documents they leave are not the same:
that of `CartSyncer` has `source` "mongodb" and a `synced_at`, the time of the upsert to the
millisecond; that of `SyncService` has the `source` and the empty `synced_at` of the cached
cart. -/
theorem reconcilers_write_different_documents :
    (CartSyncer.syncAll exSyncEnvNano exWorldNano).2.trace =
      (SyncService.syncAll exSyncEnvNano exWorldNano).2.trace ∧
    (CartSyncer.syncAll exSyncEnvNano exWorldNano).2.trace =
      [Call.redisGetAllCartKeys, Call.redisGetCart "u1", Call.mongoUpsertCart "u1"] ∧
    (CartSyncer.syncAll exSyncEnvNano exWorldNano).1 =
      some { synced := 1, failed := 0, total := 1 } ∧
    (SyncService.syncAll exSyncEnvNano exWorldNano).1 = some { synced := 1, failed := 0 } ∧
    (∃ d, (CartSyncer.syncAll exSyncEnvNano exWorldNano).2.mongo = [d] ∧
      d.source = "mongodb" ∧ d.synced_at = some 1700000000002000000) ∧
    (∃ d, (SyncService.syncAll exSyncEnvNano exWorldNano).2.mongo = [d] ∧
      d.source = "redis" ∧ d.synced_at = none) ∧
    (CartSyncer.syncAll exSyncEnvNano exWorldNano).2.mongo ≠
      (SyncService.syncAll exSyncEnvNano exWorldNano).2.mongo := by
  refine ⟨by rfl, by rfl, by rfl, by rfl, ⟨_, by rfl, by rfl, by rfl⟩,
    ⟨_, by rfl, by rfl, by rfl⟩, by decide⟩

/-- An instance of the difference in the counters: the cache holds the cart of `u1` only, and
the key list names `u1`, the expired `u2` and the empty user. `CartSyncer` counts 1 synced,
`SyncService` counts 2; both make the one upsert, of `u1`. -/
theorem reconcilers_on_expired_key :
    (CartSyncer.syncKeys exSyncEnv ["cart:u1", "cart:u2", "cart:"]
      ({ synced := 0, failed := 0 }, exWorldExpired)).1 = { synced := 1, failed := 0 } ∧
    (SyncService.syncKeys exSyncEnv ["cart:u1", "cart:u2", "cart:"]
      ({ synced := 0, failed := 0 }, exWorldExpired)).1 = { synced := 2, failed := 0 } ∧
    countAbsent exSyncEnv exWorldExpired ["cart:u1", "cart:u2", "cart:"] = 1 ∧
    upsertedUsers (SyncService.syncKeys exSyncEnv ["cart:u1", "cart:u2", "cart:"]
      ({ synced := 0, failed := 0 }, exWorldExpired)).2.trace = ["u1"] := by
  refine ⟨by rfl, by rfl, by rfl, by rfl⟩

end CartService
